import Mathlib

/-!
Verification development for the `sij` SQL AST and renderer.

The definitions below are a shallow embedding of `src/render/index.ts`
(class `Renderer`) over the AST model of `src/ast/*`.  JavaScript strings
become `String`, JS numbers in literals become `Int` (the renderer only
ever stringifies them, and `'' + v` on an integral JS number agrees with
`toString : Int → String`), a JS `Date` is modelled by its ISO-8601 text
(`toISOString` is its only use in the renderer), thrown `Error`s become
`Except.error` carrying the message, and the renderer's mutable
`params : Array<any>` buffer is threaded explicitly as a `List Value`
argument and result.  Every render method takes a `fuel : Nat` argument
so that the mutually recursive descent is structurally recursive and
computable; `fuel` only bounds recursion depth and is decremented on
every recursive call, and exhaustion is a distinct error that the source
(whose recursion is bounded by the finite AST) never produces.

State threading order inside each function follows the *evaluation*
order of the TypeScript source (the `const` declarations and template
literals), which is observable through the parameter buffer and differs
from output order in `renderQuery`, `renderSelect`, `renderExpr`
(`FunctionApp`, `InList`, `InSubQuery`) and others.
-/

namespace Sij

/-- An identifier node: `Ident` carries only a `name` string. -/
structure Ident where
  name : String
deriving DecidableEq, Repr

/-- A JS `Date`, modelled by the ISO-8601 text `toISOString()` returns
(the renderer's only observation of a date). -/
structure JsDate where
  iso : String
deriving DecidableEq, Repr

/-- The payload of `NumLit`: either a numeric value or a pre-formatted
numeric string (`NumLit` stores `number | string` in the source). -/
inductive NumVal
  | int (n : Int)
  | pre (s : String)
deriving DecidableEq, Repr

/-- A JS value as it is pushed onto the renderer's `params` buffer. -/
inductive Value
  | num (n : Int)
  | str (s : String)
  | bool (b : Bool)
  | null
  | date (d : JsDate)
deriving DecidableEq, Repr

/-- The `Literal` variant family (`src/ast/literal`): NumLit, StringLit,
BoolLit, NullLit, DateLit, CustomLit.  A `CustomLit` carries an arbitrary
host value, modelled as a `Value`. -/
inductive Literal
  | numLit (val : NumVal)
  | stringLit (val : String)
  | boolLit (val : Bool)
  | nullLit
  | dateLit (val : JsDate)
  | customLit (val : Value)
deriving DecidableEq, Repr

/-- The JS value `literal._tag === 'NullLit' ? null : literal.val` that
`renderLiteral` pushes onto the parameter buffer in params mode. -/
def Literal.jsVal : Literal → Value
  | .numLit (.int n) => .num n
  | .numLit (.pre s) => .str s
  | .stringLit s => .str s
  | .boolLit b => .bool b
  | .nullLit => .null
  | .dateLit d => .date d
  | .customLit v => v

/-- The `placeHolderStyle` renderer option: `'$'` or `'?'`. -/
inductive PlaceHolderStyle
  | dollar
  | question
deriving DecidableEq, Repr

/-- Renderer construction options (`paramsMode` defaults to `false`,
`placeHolderStyle` defaults to `'$'`). -/
structure RenderOpts where
  paramsMode : Bool := false
  placeHolderStyle : PlaceHolderStyle := .dollar
deriving DecidableEq, Repr

/-- `renderIdent`: identifiers always render double-quoted. -/
def renderIdent (ident : Ident) : String :=
  "\"" ++ ident.name ++ "\""

/-- `renderPlaceholder`: `'?'` style renders `?`, otherwise `'$' + n`. -/
def renderPlaceholder (o : RenderOpts) (n : Nat) : String :=
  match o.placeHolderStyle with
  | .question => "?"
  | .dollar => "$" ++ toString n

/-- Message thrown by `renderLiteral` on an inline `CustomLit`. -/
def customLitError : String :=
  "Custom literal encountered, please extend the renderer"

/-- `renderLiteral`.  In params mode every literal (with `NullLit`
becoming the JS value `null`) is pushed onto the buffer (`push` returns
the new length, used 1-indexed for the placeholder); otherwise the
literal renders inline. -/
def renderLiteral (o : RenderOpts) (literal : Literal) (params : List Value) :
    Except String (String × List Value) :=
  if o.paramsMode then
    let val := literal.jsVal
    let ps := params ++ [val]
    .ok (renderPlaceholder o ps.length, ps)
  else
    match literal with
    | .numLit (.int n) => .ok (toString n, params)
    | .numLit (.pre s) => .ok (s, params)
    | .stringLit s => .ok ("'" ++ s ++ "'", params)
    | .boolLit b => .ok (if b then "TRUE" else "FALSE", params)
    | .nullLit => .ok ("NULL", params)
    | .dateLit d => .ok ("DATE '" ++ d.iso ++ "'", params)
    | .customLit _ => .error customLitError

/-- A constraint's check-time attribute: `deferrable` × `initiallyDeferred`. -/
structure ConstraintCheckTime where
  deferrable : Bool
  initiallyDeferred : Bool
deriving DecidableEq, Repr

/-- `renderConstraintCheckTime`: the four fixed deferrability phrases. -/
def renderConstraintCheckTime (cct : ConstraintCheckTime) : String :=
  if cct.deferrable && cct.initiallyDeferred then
    "INITIALLY DEFERRED DEFERRABLE"
  else if cct.deferrable then
    "INITIALLY IMMEDIATE DEFERRABLE"
  else if cct.initiallyDeferred then
    "INITIALLY DEFERRED NOT DEFERRABLE"
  else
    "INITIALLY IMMEDIATE NOT DEFERRABLE"

/-- `ReferenceConstraint.matchType`. -/
inductive MatchType
  | regular
  | full
  | partialMatch
deriving DecidableEq, Repr

/-- Referential actions for `ON UPDATE` / `ON DELETE`. -/
inductive ReferentialAction
  | cascade
  | setNull
  | setDefault
  | noAction
deriving DecidableEq, Repr

/-- Object types a grant/revoke can target. -/
inductive ObjectType
  | table
  | domain
  | collation
  | characterSet
  | translation
deriving DecidableEq, Repr

/-- Drop behavior (`CASCADE` / `RESTRICT`) carried by drop/revoke statements
built by `SchemaBuilder` (`src/builder/schema.ts`). -/
inductive DropBehavior
  | cascade
  | restrict
deriving DecidableEq, Repr

/-- `TableDefinition.mode`. -/
inductive TableMode
  | persistent
  | globalTemp
  | localTemp
deriving DecidableEq, Repr

/-- `TableDefinition.onCommit` when present. -/
inductive OnCommitOption
  | deleteRows
  | preserveRows
deriving DecidableEq, Repr

/-- `ViewDefinition.checkOption` when present. -/
inductive CheckOption
  | cascaded
  | localOpt
deriving DecidableEq, Repr

/-- A unique / primary-key constraint payload. -/
structure UniqueConstraint where
  primaryKey : Bool
  columns : List Ident
deriving DecidableEq, Repr

/-- A referential constraint payload. -/
structure ReferenceConstraint where
  table : Ident
  columns : Option (List Ident)
  matchType : MatchType
  onUpdate : Option ReferentialAction
  onDelete : Option ReferentialAction
deriving DecidableEq, Repr

/-- The `Privilege` variant family rendered by `renderPrivilege`. -/
inductive Privilege
  | selectPrivilege
  | deletePrivilege
  | insertPrivilege (columns : Option (List Ident))
  | updatePrivilege (columns : Option (List Ident))
  | referencePrivilege (columns : Option (List Ident))
  | usagePrivilege
deriving DecidableEq, Repr

/-- A `GrantStatement` node (`privileges = null` means `ALL PRIVILEGES`,
`grantees = null` means `PUBLIC`). -/
structure GrantStatement where
  privileges : Option (List Privilege)
  objectName : Ident
  objectType : ObjectType
  grantees : Option (List Ident)
  grantOption : Bool
deriving DecidableEq, Repr

/-- A `RevokePrivilege` node, as constructed by `SchemaBuilder.revoke`
(`src/builder/schema.ts`); the spec lists it among the `Statement`
variants (its defining module `ast/statement` is not part of the given
sources). -/
structure RevokePrivilege where
  privileges : Option (List Privilege)
  objectName : Ident
  objectType : ObjectType
  grantees : Option (List Ident)
  grantOption : Bool
  behavior : DropBehavior
deriving DecidableEq, Repr

/-- A CTE's alias: a name plus an optional column list. -/
structure TableAlias where
  name : Ident
  columns : List Ident
deriving DecidableEq, Repr

/-- Data types are opaque to the base renderer: `renderDataType` throws
unconditionally (`Error('Unimplemented')`), so the payload is irrelevant. -/
inductive DataType
  | someType
deriving DecidableEq, Repr

/-- A column's declared type: a data type or a domain identifier. -/
inductive ColType
  | identType (i : Ident)
  | dataTypeCol (d : DataType)
deriving DecidableEq, Repr

/-- A `DeletePositioned` statement (`DELETE … WHERE CURRENT OF cursor`). -/
structure DeletePositioned where
  table : Ident
  cursor : Ident
deriving DecidableEq, Repr

/-- The `DefaultOption` variant family. -/
inductive DefaultOption
  | lit (literal : Literal)
  | currentDateDefault
  | currentTime (precision : Option Literal)
  | currentTimeStamp (precision : Option Literal)
  | userDefault
  | currentUserDefault
  | sessionUserDefault
  | systemUserDefault
  | nullDefault
deriving DecidableEq, Repr

/-- `renderDataType`: the base renderer has no data-type vocabulary and
always throws `Error('Unimplemented')`. -/
def renderDataType (_dt : DataType) (_params : List Value) :
    Except String (String × List Value) :=
  .error "Unimplemented"

/-- Message thrown by `renderCustomExpr` on the base renderer. -/
def customExprError : String :=
  "Custom expression encountered, please extend the renderer"

/-- Message thrown by `renderCustomTable` on the base renderer. -/
def customTableError : String :=
  "Custom table encountered, please extend the renderer"

/-- `renderDefaultOption`: `DEFAULT` followed by the option's keyword or
literal (current time/timestamp carry an optional precision literal). -/
def renderDefaultOption (o : RenderOpts) (opt : DefaultOption)
    (params : List Value) : Except String (String × List Value) := do
  let (val, ps) ← (match opt with
    | .lit l => renderLiteral o l params
    | .currentDateDefault => .ok ("CURRENT_DATE", params)
    | .currentTime precision =>
      (match precision with
       | none => .ok ("CURRENT_TIME", params)
       | some p => do
         let (s, ps) ← renderLiteral o p params
         .ok ("CURRENT_TIME" ++ " (" ++ s ++ ")", ps))
    | .currentTimeStamp precision =>
      (match precision with
       | none => .ok ("CURRENT_TIMESTAMP", params)
       | some p => do
         let (s, ps) ← renderLiteral o p params
         .ok ("CURRENT_TIMESTAMP" ++ " (" ++ s ++ ")", ps))
    | .userDefault => .ok ("USER", params)
    | .currentUserDefault => .ok ("CURRENT_USER", params)
    | .sessionUserDefault => .ok ("SESSION_USER", params)
    | .systemUserDefault => .ok ("SYSTEM_USER", params)
    | .nullDefault => .ok ("NULL", params))
  .ok ("DEFAULT " ++ val, ps)

/-- `renderUniqueConstraint` (note the source's leading space before
`UNIQUE`, doubled by the surrounding template). -/
def renderUniqueConstraint (constraint : UniqueConstraint) : String :=
  let typ := if constraint.primaryKey then "PRIMARY KEY" else " UNIQUE"
  let columns := String.intercalate ", " (constraint.columns.map renderIdent)
  " " ++ typ ++ " (" ++ columns ++ ")"

/-- `renderReferenceConstraint` (the source omits the space between
`ON UPDATE` / `ON DELETE` and the action keyword). -/
def renderReferenceConstraint (def_ : ReferenceConstraint) : String :=
  let columns := match def_.columns with
    | none => ""
    | some cs => " (" ++ String.intercalate ", " (cs.map renderIdent) ++ ")"
  let matchS := match def_.matchType with
    | .regular => ""
    | .full => " FULL"
    | .partialMatch => " PARTIAL"
  let renderAction := fun (action : ReferentialAction) => match action with
    | .cascade => "CASCADE"
    | .setNull => "SET NULL"
    | .setDefault => "SET DEFAULT"
    | .noAction => "NO ACTION"
  let onUpdate := match def_.onUpdate with
    | none => ""
    | some a => " ON UPDATE" ++ renderAction a
  let onDelete := match def_.onDelete with
    | none => ""
    | some a => " ON DELETE" ++ renderAction a
  "REFERENCES " ++ renderIdent def_.table ++ columns ++ matchS ++ onUpdate ++ onDelete

/-- `renderPrivilege`. -/
def renderPrivilege (def_ : Privilege) : String :=
  match def_ with
  | .selectPrivilege => "SELECT"
  | .deletePrivilege => "DELETE"
  | .insertPrivilege columns =>
    let cs := match columns with
      | none => ""
      | some cols => " (" ++ String.intercalate ", " (cols.map renderIdent) ++ ")"
    "INSERT" ++ cs
  | .updatePrivilege columns =>
    let cs := match columns with
      | none => ""
      | some cols => " (" ++ String.intercalate ", " (cols.map renderIdent) ++ ")"
    "UPDATE" ++ cs
  | .referencePrivilege columns =>
    let cs := match columns with
      | none => ""
      | some cols => " (" ++ String.intercalate ", " (cols.map renderIdent) ++ ")"
    "REFERENCES" ++ cs
  | .usagePrivilege => "USAGE"

/-- `renderGrantStatement`: `ALL PRIVILEGES` when the privilege list is
null, `PUBLIC` when the grantee list is null. -/
def renderGrantStatement (def_ : GrantStatement) : String :=
  let objectType := match def_.objectType with
    | .table => "TABLE "
    | .domain => "DOMAIN "
    | .collation => "COLLATION "
    | .characterSet => "CHARACTER SET "
    | .translation => "TRANSLATION "
  let objectName := objectType ++ renderIdent def_.objectName
  let privileges := match def_.privileges with
    | none => "ALL PRIVILEGES"
    | some pvs => String.intercalate ", " (pvs.map renderPrivilege)
  let grantees := match def_.grantees with
    | none => "PUBLIC"
    | some gs => String.intercalate ", " (gs.map renderIdent)
  let option := if def_.grantOption then " WITH GRANT OPTION" else ""
  "GRANT " ++ privileges ++ " ON " ++ objectName ++ " TO " ++ grantees ++ option

/-- `renderDeletePositioned`. -/
def renderDeletePositioned (del : DeletePositioned) : String :=
  "DELETE FROM " ++ renderIdent del.table ++ " WHERE CURRENT OF " ++ renderIdent del.cursor

set_option maxHeartbeats 1600000 in
mutual

/-- The `Expr` variant family (`src/ast/expr`).  The extension slot
carries a host value that the base renderer cannot render. -/
inductive Expr
  | ident (i : Ident)
  | compoundIdentifier (idChain : List Expr)
  | wildcard
  | qualifiedWildcard (qualifiers : List Expr)
  | between (expr : Expr) (negated : Bool) (low : Expr) (high : Expr)
  | binaryApp (op : String) (left : Expr) (right : Expr)
  | caseExpr (operand : Option Expr) (cases : List CaseArm) (elseCase : Option Expr)
  | cast (expr : Expr) (dataType : DataType)
  | collate (expr : Expr) (collation : Expr)
  | existsExpr (subQuery : Query)
  | extractExpr (field : String) (source : Expr)
  | functionApp (name : Expr) (args : List Expr)
  | isNullExpr (expr : Expr) (negated : Bool)
  | inList (expr : Expr) (list : List Expr) (negated : Bool)
  | inSubQuery (expr : Expr) (subQuery : Query) (negated : Bool)
  | lit (literal : Literal)
  | parenthesized (expr : Expr)
  | subQueryExpr (query : Query)
  | unaryApp (op : String) (expr : Expr)
  | exprExtension (val : Value)

/-- One `WHEN condition THEN result` arm of a `Case`. -/
inductive CaseArm
  | mk (condition : Expr) (result : Expr)

/-- The `Table` variant family. -/
inductive Table
  | basicTable (name : Ident)
  | derivedTable (subQuery : Query) (tableAlias : Ident)
  | functionTable (func : Expr) (tableAlias : Ident)
  | tableExtension (val : Value)

/-- One join of a `FROM` clause (`join.kind` is a literal keyword string). -/
inductive Join
  | mk (kind : String) (table : Table) (onExpr : Expr)

/-- `Select.from`: a base table plus its joins. -/
inductive JoinedTable
  | mk (table : Table) (joins : List Join)

/-- A selection item: a bare expression or an aliased expression. -/
inductive Selection
  | anonymousSelection (selection : Expr)
  | aliasedSelection (selection : Expr) (selAlias : Ident)

/-- A `Select` block. -/
inductive Select
  | mk (selections : List Selection) (fromTable : Option JoinedTable)
      (whereExpr : Option Expr) (groupBy : List Expr) (having : Option Expr)

/-- One `ORDER BY` entry. -/
inductive OrderingExpr
  | mk (expr : Expr) (order : Option String) (nullHandling : Option String)

/-- One union entry of a `Query` (`func` is the set-operator keyword). -/
inductive SetOpElem
  | mk (func : String) (all : Bool) (select : Select)

/-- One common table expression. -/
inductive CommonTableExpr
  | mk (tableAlias : TableAlias) (query : Query)

/-- A `Query`: CTEs, root `Select`, unions, ordering, limit, offset. -/
inductive Query
  | mk (commonTableExprs : List CommonTableExpr) (selection : Select)
      (unions : List SetOpElem) (ordering : List OrderingExpr)
      (limit : Option Expr) (offset : Option Expr)

/-- One cell of an insert row: the `DefaultValue` marker or an expression. -/
inductive InsertCell
  | defaultValue
  | exprCell (e : Expr)

/-- The three value sources of an `Insert`. -/
inductive InsertValues
  | defaultValues
  | valuesConstructor (values : List (List InsertCell))
  | valuesQuery (query : Query)

/-- An `Insert` statement; `values = none` models the invalid
null/absent values field. -/
inductive Insert
  | mk (table : Ident) (columns : List Ident) (values : Option InsertValues)

/-- One `SET` assignment of an update. -/
inductive Assignment
  | mk (name : Ident) (value : InsertCell)

/-- An `Update` statement. -/
inductive Update
  | mk (table : Ident) (assignments : List Assignment) (whereExpr : Option Expr)

/-- An `UpdatePositioned` statement. -/
inductive UpdatePositioned
  | mk (table : Ident) (assignments : List Assignment) (cursor : Ident)

/-- A `Delete` statement. -/
inductive Delete
  | mk (table : Ident) (whereExpr : Option Expr)

/-- A check constraint wrapping a search `Query`. -/
inductive CheckConstraint
  | mk (search : Query)

/-- The `ColumnConstraint` variant family. -/
inductive ColumnConstraint
  | columnNotNull
  | uniqueConstraint (c : UniqueConstraint)
  | referenceConstraint (c : ReferenceConstraint)
  | checkConstraint (c : CheckConstraint)

/-- A named column constraint with optional check-time attributes. -/
inductive ColumnConstraintDefinition
  | mk (name : Option Ident) (constraint : ColumnConstraint)
      (attributes : Option ConstraintCheckTime)

/-- The body of a table constraint (no `NOT NULL` at table level). -/
inductive TableConstraintBody
  | uniqueConstraint (c : UniqueConstraint)
  | referenceConstraint (c : ReferenceConstraint)
  | checkConstraint (c : CheckConstraint)

/-- A named table constraint with optional check time. -/
inductive TableConstraint
  | mk (name : Option Ident) (constraint : TableConstraintBody)
      (checkTime : Option ConstraintCheckTime)

/-- A column definition. -/
inductive ColumnDefinition
  | mk (name : Ident) (colType : ColType) (defaultOpt : Option DefaultOption)
      (constraints : List ColumnConstraintDefinition) (collation : Option Ident)

/-- A `TableDefinition` statement. -/
inductive TableDefinition
  | mk (name : Ident) (mode : TableMode) (columns : List ColumnDefinition)
      (constraints : List TableConstraint) (onCommit : Option OnCommitOption)

/-- A `ViewDefinition` statement. -/
inductive ViewDefinition
  | mk (name : Ident) (columns : Option (List Ident)) (query : Query)
      (checkOption : Option CheckOption)

/-- A `DomainDefinition` statement, with the fields `renderDomainDefinition`
reads (`name`, `dataType`, `default`, `constraintName`, `constraintExpr`,
`constraintAttributes`, `collation`). -/
inductive DomainDefinition
  | mk (name : Ident) (dataType : DataType) (defaultOpt : Option DefaultOption)
      (constraintName : Option Ident) (constraintExpr : Option Query)
      (constraintAttributes : Option ConstraintCheckTime) (collation : Option Ident)

/-- An `AssertionDefinition` statement. -/
inductive AssertionDefinition
  | mk (name : Ident) (search : Query) (checkTime : Option ConstraintCheckTime)

/-- A definition nested in a `CreateSchema` (`renderCreateSchema` only
inspects its tag). -/
inductive SchemaDef
  | domainDef (d : DomainDefinition)
  | tableDef (t : TableDefinition)
  | viewDef (v : ViewDefinition)
  | grantDef (g : GrantStatement)
  | assertionDef (a : AssertionDefinition)

/-- A `CreateSchema` statement. -/
inductive CreateSchema
  | mk (catalog : Option Ident) (name : Option Ident)
      (authorization : Option Ident) (characterSet : Option Ident)
      (definitions : List SchemaDef)

/-- The `Statement` variant family.  The first twelve variants are the
tags `renderStatement`'s switch handles.  `revokePrivilege` and the four
drop statements are the remaining variants the spec's `Statement` table
names (their module `ast/statement` is not among the given sources;
their payloads are modelled from the spec and from the constructions in
`src/builder/schema.ts`). -/
inductive Statement
  | query (q : Query)
  | insert (i : Insert)
  | update (u : Update)
  | delete (d : Delete)
  | updatePositioned (u : UpdatePositioned)
  | deletePositioned (d : DeletePositioned)
  | createSchema (c : CreateSchema)
  | tableDefinition (t : TableDefinition)
  | viewDefinition (v : ViewDefinition)
  | grantStatement (g : GrantStatement)
  | domainDefinition (d : DomainDefinition)
  | assertionDefinition (a : AssertionDefinition)
  | revokePrivilege (r : RevokePrivilege)
  | dropTable (name : Ident) (behavior : DropBehavior)
  | dropView (name : Ident) (behavior : DropBehavior)
  | dropDomain (name : Ident) (behavior : DropBehavior)
  | dropAssertion (name : Ident)

end

/-- Field accessor mirroring `insert.values`. -/
def Insert.values : Insert → Option InsertValues
  | .mk _ _ v => v

/-- Field accessor mirroring `insert.table`. -/
def Insert.table : Insert → Ident
  | .mk t _ _ => t

/-- Field accessor mirroring `insert.columns`. -/
def Insert.columns : Insert → List Ident
  | .mk _ c _ => c

/-- Field accessor mirroring `u.func` of a union entry. -/
def SetOpElem.func : SetOpElem → String
  | .mk f _ _ => f

/-- Field accessor mirroring `u.all` of a union entry. -/
def SetOpElem.all : SetOpElem → Bool
  | .mk _ a _ => a

/-- Field accessor mirroring `u.select` of a union entry. -/
def SetOpElem.select : SetOpElem → Select
  | .mk _ _ s => s

/-- Error marking fuel exhaustion.  This is an artifact of the bounded
model only: the source recursion terminates on every (finite) AST, and
every theorem below either holds for all fuel or supplies enough. -/
def fuelMsg : String := "model fuel exhausted"

/-- Message thrown by `renderInsert` when `values` is null/absent. -/
def insertValuesError : String := "Invalid Insert. Insert must have VALUES"

mutual

/-- `renderExpr`: recursive descent over the expression grammar.  Each
case threads the parameter buffer in the evaluation order of the source
(`const` declarations before template literals). -/
def renderExpr : Nat → RenderOpts → Expr → List Value → Except String (String × List Value)
  | 0, _, _, _ => .error fuelMsg
  | fuel+1, o, e, ps =>
    match e with
    | .ident i => .ok (renderIdent i, ps)
    | .wildcard => .ok ("*", ps)
    | .qualifiedWildcard qualifiers => do
      let (parts, ps) ← renderExprList fuel o qualifiers ps
      let qs := String.intercalate "." parts
      .ok (if qs = "" then "*" else qs ++ ".*", ps)
    | .compoundIdentifier idChain => do
      let (parts, ps) ← renderExprList fuel o idChain ps
      .ok (String.intercalate "." parts, ps)
    | .between expr negated low high => do
      let (operand, ps) ← renderExpr fuel o expr ps
      let notS := if negated then " NOT" else ""
      let (lowS, ps) ← renderExpr fuel o low ps
      let (highS, ps) ← renderExpr fuel o high ps
      .ok (operand ++ notS ++ " BETWEEN " ++ lowS ++ " AND " ++ highS, ps)
    | .binaryApp op left right => do
      let (l, ps) ← renderExpr fuel o left ps
      let (r, ps) ← renderExpr fuel o right ps
      .ok (l ++ " " ++ op ++ " " ++ r, ps)
    | .caseExpr operand cases elseCase => do
      let (operandS, ps) ← (match operand with
        | none => (.ok ("", ps) : Except String (String × List Value))
        | some x => do
          let (s, ps) ← renderExpr fuel o x ps
          .ok (" " ++ s, ps))
      let (caseL, ps) ← renderCaseArms fuel o cases ps
      let (elseS, ps) ← (match elseCase with
        | none => (.ok ("", ps) : Except String (String × List Value))
        | some x => do
          let (s, ps) ← renderExpr fuel o x ps
          .ok ("ELSE " ++ s ++ " ", ps))
      .ok ("CASE" ++ operandS ++ " " ++ String.intercalate " " caseL ++ " " ++ elseS ++ "END", ps)
    | .cast expr dt => do
      let (s, ps) ← renderExpr fuel o expr ps
      let (dts, ps) ← renderDataType dt ps
      .ok ("CAST(" ++ s ++ " AS " ++ dts ++ ")", ps)
    | .collate expr collation => do
      let (s, ps) ← renderExpr fuel o expr ps
      let (c, ps) ← renderExpr fuel o collation ps
      .ok (s ++ " COLLATE " ++ c, ps)
    | .existsExpr subQuery => do
      let (q, ps) ← renderQuery fuel o subQuery ps
      .ok ("EXISTS(" ++ q ++ ")", ps)
    | .extractExpr field source => do
      let (s, ps) ← renderExpr fuel o source ps
      .ok ("EXTRACT(" ++ field ++ " FROM " ++ s ++ ")", ps)
    | .functionApp name args => do
      -- the source maps the arguments before rendering the name
      let (argL, ps) ← renderExprList fuel o args ps
      let (nameS, ps) ← renderExpr fuel o name ps
      .ok (nameS ++ "(" ++ String.intercalate ", " argL ++ ")", ps)
    | .isNullExpr expr negated => do
      let (s, ps) ← renderExpr fuel o expr ps
      .ok (s ++ " IS" ++ (if negated then " NOT" else "") ++ " NULL", ps)
    | .inList expr list negated => do
      -- the source maps the list before rendering the operand
      let (listL, ps) ← renderExprList fuel o list ps
      let (s, ps) ← renderExpr fuel o expr ps
      .ok (s ++ (if negated then " NOT" else "") ++ " IN (" ++ String.intercalate ", " listL ++ ")", ps)
    | .inSubQuery expr subQuery negated => do
      -- the source renders the sub-query before the operand
      let (sub, ps) ← renderQuery fuel o subQuery ps
      let (s, ps) ← renderExpr fuel o expr ps
      .ok (s ++ (if negated then " NOT" else "") ++ " IN (" ++ sub ++ ")", ps)
    | .lit literal => renderLiteral o literal ps
    | .parenthesized expr => do
      let (s, ps) ← renderExpr fuel o expr ps
      .ok ("(" ++ s ++ ")", ps)
    | .subQueryExpr query => do
      let (q, ps) ← renderQuery fuel o query ps
      .ok ("(" ++ q ++ ")", ps)
    | .unaryApp op expr => do
      let (s, ps) ← renderExpr fuel o expr ps
      .ok (op ++ s, ps)
    | .exprExtension _ => .error customExprError

/-- Renders a list of expressions (the `map`s of the source), threading
the buffer left to right. -/
def renderExprList : Nat → RenderOpts → List Expr → List Value → Except String (List String × List Value)
  | 0, _, _, _ => .error fuelMsg
  | _+1, _, [], ps => .ok ([], ps)
  | fuel+1, o, e :: rest, ps => do
    let (s, ps) ← renderExpr fuel o e ps
    let (restL, ps) ← renderExprList fuel o rest ps
    .ok (s :: restL, ps)

/-- Renders one `WHEN … THEN …` arm. -/
def renderCaseArm : Nat → RenderOpts → CaseArm → List Value → Except String (String × List Value)
  | 0, _, _, _ => .error fuelMsg
  | fuel+1, o, .mk condition result, ps => do
    let (c, ps) ← renderExpr fuel o condition ps
    let (r, ps) ← renderExpr fuel o result ps
    .ok ("WHEN " ++ c ++ " THEN " ++ r, ps)

/-- Renders the arm list of a `Case`. -/
def renderCaseArms : Nat → RenderOpts → List CaseArm → List Value → Except String (List String × List Value)
  | 0, _, _, _ => .error fuelMsg
  | _+1, _, [], ps => .ok ([], ps)
  | fuel+1, o, a :: rest, ps => do
    let (s, ps) ← renderCaseArm fuel o a ps
    let (restL, ps) ← renderCaseArms fuel o rest ps
    .ok (s :: restL, ps)

/-- `renderTable`. -/
def renderTable : Nat → RenderOpts → Table → List Value → Except String (String × List Value)
  | 0, _, _, _ => .error fuelMsg
  | fuel+1, o, t, ps =>
    match t with
    | .basicTable name => .ok (renderIdent name, ps)
    | .derivedTable subQuery tableAlias => do
      let (q, ps) ← renderQuery fuel o subQuery ps
      .ok ("(" ++ q ++ ") AS " ++ renderIdent tableAlias, ps)
    | .functionTable func tableAlias => do
      let (f, ps) ← renderExpr fuel o func ps
      .ok ("(" ++ f ++ ") AS " ++ renderIdent tableAlias, ps)
    | .tableExtension _ => .error customTableError

/-- Renders one join: `' <kind> JOIN <table> ON <condition>'`. -/
def renderJoin : Nat → RenderOpts → Join → List Value → Except String (String × List Value)
  | 0, _, _, _ => .error fuelMsg
  | fuel+1, o, .mk kind table onExpr, ps => do
    let (t, ps) ← renderTable fuel o table ps
    let (c, ps) ← renderExpr fuel o onExpr ps
    .ok (" " ++ kind ++ " JOIN " ++ t ++ " ON " ++ c, ps)

/-- Renders the join list (joined with the empty string in the source). -/
def renderJoins : Nat → RenderOpts → List Join → List Value → Except String (List String × List Value)
  | 0, _, _, _ => .error fuelMsg
  | _+1, _, [], ps => .ok ([], ps)
  | fuel+1, o, j :: rest, ps => do
    let (s, ps) ← renderJoin fuel o j ps
    let (restL, ps) ← renderJoins fuel o rest ps
    .ok (s :: restL, ps)

/-- Renders one selection item. -/
def renderSelection : Nat → RenderOpts → Selection → List Value → Except String (String × List Value)
  | 0, _, _, _ => .error fuelMsg
  | fuel+1, o, s, ps =>
    match s with
    | .anonymousSelection selection => renderExpr fuel o selection ps
    | .aliasedSelection selection selAlias => do
      let (e, ps) ← renderExpr fuel o selection ps
      .ok (e ++ " AS " ++ renderIdent selAlias, ps)

/-- Renders the selection list. -/
def renderSelections : Nat → RenderOpts → List Selection → List Value → Except String (List String × List Value)
  | 0, _, _, _ => .error fuelMsg
  | _+1, _, [], ps => .ok ([], ps)
  | fuel+1, o, s :: rest, ps => do
    let (x, ps) ← renderSelection fuel o s ps
    let (restL, ps) ← renderSelections fuel o rest ps
    .ok (x :: restL, ps)

/-- The `where` const of `renderSelect` (shared by update/delete):
empty when absent, otherwise `' WHERE ' + <expr>`. -/
def renderWherePart : Nat → RenderOpts → Option Expr → List Value → Except String (String × List Value)
  | 0, _, _, _ => .error fuelMsg
  | fuel+1, o, w, ps =>
    match w with
    | none => .ok ("", ps)
    | some e => do
      let (s, ps) ← renderExpr fuel o e ps
      .ok (" WHERE " ++ s, ps)

/-- The `groupBy` const of `renderSelect`: empty when the list is empty,
otherwise `' GROUP BY'` directly concatenated with the rendered
expressions joined by `', '` (no space after the keyword). -/
def renderGroupByPart : Nat → RenderOpts → List Expr → List Value → Except String (String × List Value)
  | 0, _, _, _ => .error fuelMsg
  | fuel+1, o, gb, ps =>
    match gb with
    | [] => .ok ("", ps)
    | _ => do
      let (gs, ps) ← renderExprList fuel o gb ps
      .ok (" GROUP BY" ++ String.intercalate ", " gs, ps)

/-- The `having` const of `renderSelect`: empty when absent, otherwise
`' HAVING'` directly concatenated with the rendered expression. -/
def renderHavingPart : Nat → RenderOpts → Option Expr → List Value → Except String (String × List Value)
  | 0, _, _, _ => .error fuelMsg
  | fuel+1, o, h, ps =>
    match h with
    | none => .ok ("", ps)
    | some e => do
      let (s, ps) ← renderExpr fuel o e ps
      .ok (" HAVING" ++ s, ps)

/-- The `table` const of `renderSelect`: empty when `from` is absent,
otherwise `' FROM '` plus the base table plus the joins. -/
def renderFromPart : Nat → RenderOpts → Option JoinedTable → List Value → Except String (String × List Value)
  | 0, _, _, _ => .error fuelMsg
  | fuel+1, o, f, ps =>
    match f with
    | none => .ok ("", ps)
    | some (.mk table joins) => do
      let (initTable, ps) ← renderTable fuel o table ps
      let (joinL, ps) ← renderJoins fuel o joins ps
      .ok (" FROM " ++ initTable ++ String.join joinL, ps)

/-- `renderSelect`.  Evaluation order: selections, where, groupBy,
having, table; output order: `SELECT` selections, table, where,
groupBy, having. -/
def renderSelect : Nat → RenderOpts → Select → List Value → Except String (String × List Value)
  | 0, _, _, _ => .error fuelMsg
  | fuel+1, o, .mk selections fromTable whereExpr groupBy having, ps => do
    let (selL, ps) ← renderSelections fuel o selections ps
    let selectionsS := String.intercalate ", " selL
    let (whereS, ps) ← renderWherePart fuel o whereExpr ps
    let (groupByS, ps) ← renderGroupByPart fuel o groupBy ps
    let (havingS, ps) ← renderHavingPart fuel o having ps
    let (tableS, ps) ← renderFromPart fuel o fromTable ps
    .ok ("SELECT " ++ selectionsS ++ tableS ++ whereS ++ groupByS ++ havingS, ps)

/-- Renders one CTE: `name[ (cols)] AS (<query>)`, the column list only
when non-empty. -/
def renderCte : Nat → RenderOpts → CommonTableExpr → List Value → Except String (String × List Value)
  | 0, _, _, _ => .error fuelMsg
  | fuel+1, o, .mk tableAlias query, ps => do
    let cols := match tableAlias.columns with
      | [] => ""
      | cs => " (" ++ String.intercalate ", " (cs.map renderIdent) ++ ")"
    let (q, ps) ← renderQuery fuel o query ps
    .ok (renderIdent tableAlias.name ++ cols ++ " AS (" ++ q ++ ")", ps)

/-- Renders the CTE list. -/
def renderCtes : Nat → RenderOpts → List CommonTableExpr → List Value → Except String (List String × List Value)
  | 0, _, _, _ => .error fuelMsg
  | _+1, _, [], ps => .ok ([], ps)
  | fuel+1, o, c :: rest, ps => do
    let (s, ps) ← renderCte fuel o c ps
    let (restL, ps) ← renderCtes fuel o rest ps
    .ok (s :: restL, ps)

/-- The `ctes` const of `renderQuery`: empty when there are no CTEs,
otherwise `'WITH ' + <ctes joined by ', '> + ' '`. -/
def renderQueryCtesPart : Nat → RenderOpts → List CommonTableExpr → List Value → Except String (String × List Value)
  | 0, _, _, _ => .error fuelMsg
  | fuel+1, o, ctes, ps =>
    match ctes with
    | [] => .ok ("", ps)
    | _ => do
      let (subs, ps) ← renderCtes fuel o ctes ps
      .ok ("WITH " ++ String.intercalate ", " subs ++ " ", ps)

/-- The `limit` const of `renderQuery`. -/
def renderLimitPart : Nat → RenderOpts → Option Expr → List Value → Except String (String × List Value)
  | 0, _, _, _ => .error fuelMsg
  | fuel+1, o, l, ps =>
    match l with
    | none => .ok ("", ps)
    | some e => do
      let (s, ps) ← renderExpr fuel o e ps
      .ok (" LIMIT " ++ s, ps)

/-- The `offset` const of `renderQuery`. -/
def renderOffsetPart : Nat → RenderOpts → Option Expr → List Value → Except String (String × List Value)
  | 0, _, _, _ => .error fuelMsg
  | fuel+1, o, l, ps =>
    match l with
    | none => .ok ("", ps)
    | some e => do
      let (s, ps) ← renderExpr fuel o e ps
      .ok (" OFFSET " ++ s, ps)

/-- Renders one `ORDER BY` entry. -/
def renderOrdering : Nat → RenderOpts → OrderingExpr → List Value → Except String (String × List Value)
  | 0, _, _, _ => .error fuelMsg
  | fuel+1, o, .mk expr order nullHandling, ps => do
    let ascS := match order with
      | none => ""
      | some x => " " ++ x
    let nhS := match nullHandling with
      | none => ""
      | some x => " " ++ x
    let (s, ps) ← renderExpr fuel o expr ps
    .ok (s ++ ascS ++ nhS, ps)

/-- Renders the ordering list. -/
def renderOrderingList : Nat → RenderOpts → List OrderingExpr → List Value → Except String (List String × List Value)
  | 0, _, _, _ => .error fuelMsg
  | _+1, _, [], ps => .ok ([], ps)
  | fuel+1, o, x :: rest, ps => do
    let (s, ps) ← renderOrdering fuel o x ps
    let (restL, ps) ← renderOrderingList fuel o rest ps
    .ok (s :: restL, ps)

/-- The `ordering` const of `renderQuery`: empty when there is no
ordering, otherwise `' ORDER BY ' + <entries joined by ', '>`. -/
def renderOrderingPart : Nat → RenderOpts → List OrderingExpr → List Value → Except String (String × List Value)
  | 0, _, _, _ => .error fuelMsg
  | fuel+1, o, ord, ps =>
    match ord with
    | [] => .ok ("", ps)
    | _ => do
      let (orders, ps) ← renderOrderingList fuel o ord ps
      .ok (" ORDER BY " ++ String.intercalate ", " orders, ps)

/-- Renders one union entry: `' ' + <set-op keyword> + [' ALL'] + ' ' +
<rendered select>` (note the entry's own leading space). -/
def renderUnion : Nat → RenderOpts → SetOpElem → List Value → Except String (String × List Value)
  | 0, _, _, _ => .error fuelMsg
  | fuel+1, o, .mk func all select, ps => do
    let allS := if all then " ALL" else ""
    let (selS, ps) ← renderSelect fuel o select ps
    .ok (" " ++ func ++ allS ++ " " ++ selS, ps)

/-- Renders the union list. -/
def renderUnions : Nat → RenderOpts → List SetOpElem → List Value → Except String (List String × List Value)
  | 0, _, _, _ => .error fuelMsg
  | _+1, _, [], ps => .ok ([], ps)
  | fuel+1, o, u :: rest, ps => do
    let (s, ps) ← renderUnion fuel o u ps
    let (restL, ps) ← renderUnions fuel o rest ps
    .ok (s :: restL, ps)

/-- The `unions` const of `renderQuery`: empty when there are no unions,
otherwise `' '` plus the rendered entries joined by `' '` (each entry
already starts with its own space). -/
def renderUnionsPart : Nat → RenderOpts → List SetOpElem → List Value → Except String (String × List Value)
  | 0, _, _, _ => .error fuelMsg
  | fuel+1, o, us, ps =>
    match us with
    | [] => .ok ("", ps)
    | _ => do
      let (uL, ps) ← renderUnions fuel o us ps
      .ok (" " ++ String.intercalate " " uL, ps)

/-- `renderQuery`.  Evaluation order (the source's `const` order): ctes,
limit, offset, ordering, selection, unions; output order: ctes,
selection, unions, ordering, limit, offset. -/
def renderQuery : Nat → RenderOpts → Query → List Value → Except String (String × List Value)
  | 0, _, _, _ => .error fuelMsg
  | fuel+1, o, .mk commonTableExprs selection unions ordering limit offset, ps => do
    let (ctesS, ps) ← renderQueryCtesPart fuel o commonTableExprs ps
    let (limitS, ps) ← renderLimitPart fuel o limit ps
    let (offsetS, ps) ← renderOffsetPart fuel o offset ps
    let (orderingS, ps) ← renderOrderingPart fuel o ordering ps
    let (selectionS, ps) ← renderSelect fuel o selection ps
    let (unionsS, ps) ← renderUnionsPart fuel o unions ps
    .ok (ctesS ++ selectionS ++ unionsS ++ orderingS ++ limitS ++ offsetS, ps)

/-- Renders the cells of one insert row (`DEFAULT` for the marker). -/
def renderInsertCells : Nat → RenderOpts → List InsertCell → List Value → Except String (List String × List Value)
  | 0, _, _, _ => .error fuelMsg
  | _+1, _, [], ps => .ok ([], ps)
  | fuel+1, o, c :: rest, ps => do
    let (s, ps) ← (match c with
      | .defaultValue => (.ok ("DEFAULT", ps) : Except String (String × List Value))
      | .exprCell e => renderExpr fuel o e ps)
    let (restL, ps) ← renderInsertCells fuel o rest ps
    .ok (s :: restL, ps)

/-- Renders one insert row: the parenthesized, comma-joined cells. -/
def renderInsertRow : Nat → RenderOpts → List InsertCell → List Value → Except String (String × List Value)
  | 0, _, _, _ => .error fuelMsg
  | fuel+1, o, r, ps => do
    let (vals, ps) ← renderInsertCells fuel o r ps
    .ok ("(" ++ String.intercalate ", " vals ++ ")", ps)

/-- Renders the row list of a `ValuesConstructor`. -/
def renderInsertRows : Nat → RenderOpts → List (List InsertCell) → List Value → Except String (List String × List Value)
  | 0, _, _, _ => .error fuelMsg
  | _+1, _, [], ps => .ok ([], ps)
  | fuel+1, o, r :: rest, ps => do
    let (s, ps) ← renderInsertRow fuel o r ps
    let (restL, ps) ← renderInsertRows fuel o rest ps
    .ok (s :: restL, ps)

/-- `renderInsert`: columns part first, then the values part, which
throws when `values` is null/absent. -/
def renderInsert : Nat → RenderOpts → Insert → List Value → Except String (String × List Value)
  | 0, _, _, _ => .error fuelMsg
  | fuel+1, o, .mk table columns values, ps => do
    let columnsS := match columns with
      | [] => ""
      | cs => " (" ++ String.intercalate ", " (cs.map renderIdent) ++ ")"
    let (valuesS, ps) ← (match values with
      | none => (.error insertValuesError : Except String (String × List Value))
      | some .defaultValues => .ok ("DEFAULT VALUES", ps)
      | some (.valuesConstructor rows) => do
        let (rowL, ps) ← renderInsertRows fuel o rows ps
        .ok ("VALUES " ++ String.intercalate ", " rowL, ps)
      | some (.valuesQuery q) => renderQuery fuel o q ps)
    .ok ("INSERT INTO " ++ renderIdent table ++ columnsS ++ " " ++ valuesS, ps)

/-- Renders one `SET` assignment. -/
def renderAssignment : Nat → RenderOpts → Assignment → List Value → Except String (String × List Value)
  | 0, _, _, _ => .error fuelMsg
  | fuel+1, o, .mk name value, ps =>
    match value with
    | .defaultValue => .ok (renderIdent name ++ " = DEFAULT", ps)
    | .exprCell e => do
      let (s, ps) ← renderExpr fuel o e ps
      .ok (renderIdent name ++ " = " ++ s, ps)

/-- Renders the assignment list of an update. -/
def renderAssignments : Nat → RenderOpts → List Assignment → List Value → Except String (List String × List Value)
  | 0, _, _, _ => .error fuelMsg
  | _+1, _, [], ps => .ok ([], ps)
  | fuel+1, o, a :: rest, ps => do
    let (s, ps) ← renderAssignment fuel o a ps
    let (restL, ps) ← renderAssignments fuel o rest ps
    .ok (s :: restL, ps)

/-- `renderUpdate`. -/
def renderUpdate : Nat → RenderOpts → Update → List Value → Except String (String × List Value)
  | 0, _, _, _ => .error fuelMsg
  | fuel+1, o, .mk table assignments whereExpr, ps => do
    let (setL, ps) ← renderAssignments fuel o assignments ps
    let (whereS, ps) ← renderWherePart fuel o whereExpr ps
    .ok ("UPDATE " ++ renderIdent table ++ " SET " ++ String.intercalate ", " setL ++ whereS, ps)

/-- `renderUpdatePositioned`. -/
def renderUpdatePositioned : Nat → RenderOpts → UpdatePositioned → List Value → Except String (String × List Value)
  | 0, _, _, _ => .error fuelMsg
  | fuel+1, o, .mk table assignments cursor, ps => do
    let (setL, ps) ← renderAssignments fuel o assignments ps
    .ok ("UPDATE " ++ renderIdent table ++ " SET " ++ String.intercalate ", " setL
         ++ " WHERE CURRENT OF " ++ renderIdent cursor, ps)

/-- `renderDelete`. -/
def renderDelete : Nat → RenderOpts → Delete → List Value → Except String (String × List Value)
  | 0, _, _, _ => .error fuelMsg
  | fuel+1, o, .mk table whereExpr, ps => do
    let (whereS, ps) ← renderWherePart fuel o whereExpr ps
    .ok ("DELETE FROM " ++ renderIdent table ++ whereS, ps)

/-- `renderCheckConstraint`: `CHECK ` plus the rendered search query. -/
def renderCheckConstraint : Nat → RenderOpts → CheckConstraint → List Value → Except String (String × List Value)
  | 0, _, _, _ => .error fuelMsg
  | fuel+1, o, .mk search, ps => do
    let (q, ps) ← renderQuery fuel o search ps
    .ok ("CHECK " ++ q, ps)

/-- `renderColumnConstraint` over a `ColumnConstraintDefinition`. -/
def renderColumnConstraintDef : Nat → RenderOpts → ColumnConstraintDefinition → List Value → Except String (String × List Value)
  | 0, _, _, _ => .error fuelMsg
  | fuel+1, o, .mk name constraint attributes, ps => do
    let (cstr, ps) ← (match constraint with
      | .columnNotNull => (.ok (" NOT NULL", ps) : Except String (String × List Value))
      | .uniqueConstraint c => .ok (renderUniqueConstraint c, ps)
      | .referenceConstraint c => .ok (renderReferenceConstraint c, ps)
      | .checkConstraint c => renderCheckConstraint fuel o c ps)
    let nameS := match name with
      | none => ""
      | some n => renderIdent n ++ " "
    let attrS := match attributes with
      | none => ""
      | some a => " " ++ renderConstraintCheckTime a
    .ok (nameS ++ cstr ++ attrS, ps)

/-- Renders a column's constraint list. -/
def renderColumnConstraintDefs : Nat → RenderOpts → List ColumnConstraintDefinition → List Value → Except String (List String × List Value)
  | 0, _, _, _ => .error fuelMsg
  | _+1, _, [], ps => .ok ([], ps)
  | fuel+1, o, c :: rest, ps => do
    let (s, ps) ← renderColumnConstraintDef fuel o c ps
    let (restL, ps) ← renderColumnConstraintDefs fuel o rest ps
    .ok (s :: restL, ps)

/-- `renderColumnDefinition`.  Evaluation order: type (an `Ident` renders
as an identifier, a data type goes through the always-throwing
`renderDataType`), default, constraints, collation. -/
def renderColumnDefinition : Nat → RenderOpts → ColumnDefinition → List Value → Except String (String × List Value)
  | 0, _, _, _ => .error fuelMsg
  | fuel+1, o, .mk name colType defaultOpt constraints collation, ps => do
    let (typ, ps) ← (match colType with
      | .identType i => (.ok (renderIdent i, ps) : Except String (String × List Value))
      | .dataTypeCol d => renderDataType d ps)
    let (defaultS, ps) ← (match defaultOpt with
      | none => (.ok ("", ps) : Except String (String × List Value))
      | some d => do
        let (s, ps) ← renderDefaultOption o d ps
        .ok (" " ++ s, ps))
    let (conL, ps) ← renderColumnConstraintDefs fuel o constraints ps
    let constraintsJ := String.intercalate " " conL
    let constraintsS := if constraintsJ = "" then "" else " " ++ constraintsJ
    let collationS := match collation with
      | none => ""
      | some c => " COLLATE " ++ renderIdent c
    .ok (renderIdent name ++ " " ++ typ ++ defaultS ++ constraintsS ++ collationS, ps)

/-- Renders a table definition's column list. -/
def renderColumnDefinitions : Nat → RenderOpts → List ColumnDefinition → List Value → Except String (List String × List Value)
  | 0, _, _, _ => .error fuelMsg
  | _+1, _, [], ps => .ok ([], ps)
  | fuel+1, o, c :: rest, ps => do
    let (s, ps) ← renderColumnDefinition fuel o c ps
    let (restL, ps) ← renderColumnDefinitions fuel o rest ps
    .ok (s :: restL, ps)

/-- `renderTableConstraint`. -/
def renderTableConstraint : Nat → RenderOpts → TableConstraint → List Value → Except String (String × List Value)
  | 0, _, _, _ => .error fuelMsg
  | fuel+1, o, .mk name constraint checkTime, ps => do
    let nameS := match name with
      | none => ""
      | some n => renderIdent n ++ " "
    let (cstr, ps) ← (match constraint with
      | .uniqueConstraint c => (.ok (renderUniqueConstraint c, ps) : Except String (String × List Value))
      | .referenceConstraint c => .ok (renderReferenceConstraint c, ps)
      | .checkConstraint c => renderCheckConstraint fuel o c ps)
    let attrS := match checkTime with
      | none => ""
      | some a => " " ++ renderConstraintCheckTime a
    .ok (nameS ++ cstr ++ attrS, ps)

/-- Renders a table definition's constraint list. -/
def renderTableConstraints : Nat → RenderOpts → List TableConstraint → List Value → Except String (List String × List Value)
  | 0, _, _, _ => .error fuelMsg
  | _+1, _, [], ps => .ok ([], ps)
  | fuel+1, o, c :: rest, ps => do
    let (s, ps) ← renderTableConstraint fuel o c ps
    let (restL, ps) ← renderTableConstraints fuel o rest ps
    .ok (s :: restL, ps)

/-- `renderTableDefinition` (note the source's `' Local TEMPORARY'`
casing). -/
def renderTableDefinition : Nat → RenderOpts → TableDefinition → List Value → Except String (String × List Value)
  | 0, _, _, _ => .error fuelMsg
  | fuel+1, o, .mk name mode columns constraints onCommit, ps => do
    let locality := match mode with
      | .globalTemp => " GLOBAL TEMPORARY"
      | .localTemp => " Local TEMPORARY"
      | .persistent => ""
    let (colL, ps) ← renderColumnDefinitions fuel o columns ps
    let (conL, ps) ← renderTableConstraints fuel o constraints ps
    let els := "(" ++ String.intercalate ", " (colL ++ conL) ++ ")"
    let onCommitS := match onCommit with
      | some .deleteRows => " ON COMMIT DELETE ROWS"
      | some .preserveRows => " ON COMMIT PRESERVE ROWS"
      | none => ""
    .ok ("CREATE" ++ locality ++ " TABLE " ++ renderIdent name ++ " " ++ els ++ onCommitS, ps)

/-- `renderViewDefinition` (the source interpolates the column array
directly, so columns are comma-joined without spaces). -/
def renderViewDefinition : Nat → RenderOpts → ViewDefinition → List Value → Except String (String × List Value)
  | 0, _, _, _ => .error fuelMsg
  | fuel+1, o, .mk name columns query checkOption, ps => do
    let columnsS := match columns with
      | none => ""
      | some cs => " " ++ String.intercalate "," (cs.map renderIdent)
    let (q, ps) ← renderQuery fuel o query ps
    let checkS := match checkOption with
      | some .cascaded => " WITH CASCADED CHECK OPTION"
      | some .localOpt => " WITH LOCAL CHECK OPTION"
      | none => ""
    .ok ("CREATE VIEW " ++ renderIdent name ++ columnsS ++ " AS " ++ q ++ checkS, ps)

/-- `renderDomainConstraint`. -/
def renderDomainConstraint : Nat → RenderOpts → Option Ident → Query → Option ConstraintCheckTime → List Value → Except String (String × List Value)
  | 0, _, _, _, _, _ => .error fuelMsg
  | fuel+1, o, name, expr, attrs, ps => do
    let nameS := match name with
      | none => ""
      | some n => renderIdent n ++ " "
    let (defS, ps) ← renderQuery fuel o expr ps
    let attrS := match attrs with
      | none => ""
      | some a => " " ++ renderConstraintCheckTime a
    .ok (nameS ++ defS ++ attrS, ps)

/-- `renderDomainDefinition`.  The default and constraint consts are
evaluated first; the template then calls the always-throwing
`renderDataType`, so on the base renderer this method always fails —
after any parameter pushes from the default/constraint parts. -/
def renderDomainDefinition : Nat → RenderOpts → DomainDefinition → List Value → Except String (String × List Value)
  | 0, _, _, _ => .error fuelMsg
  | fuel+1, o, .mk name dt defaultOpt constraintName constraintExpr constraintAttributes collation, ps => do
    let (defaultS, ps) ← (match defaultOpt with
      | none => (.ok ("", ps) : Except String (String × List Value))
      | some d => do
        let (s, ps) ← renderDefaultOption o d ps
        .ok (" " ++ s, ps))
    let (constraintS, ps) ← (match constraintExpr with
      | none => (.ok ("", ps) : Except String (String × List Value))
      | some q => do
        let (s, ps) ← renderDomainConstraint fuel o constraintName q constraintAttributes ps
        .ok (" " ++ s, ps))
    let collationS := match collation with
      | none => ""
      | some c => " COLLATE " ++ renderIdent c
    let (dts, ps) ← renderDataType dt ps
    .ok ("CREATE DOMAIN " ++ renderIdent name ++ " AS " ++ dts
         ++ defaultS ++ constraintS ++ collationS, ps)

/-- `renderAssertionDefinition`. -/
def renderAssertionDefinition : Nat → RenderOpts → AssertionDefinition → List Value → Except String (String × List Value)
  | 0, _, _, _ => .error fuelMsg
  | fuel+1, o, .mk name search checkTime, ps => do
    let attrS := match checkTime with
      | none => ""
      | some a => " " ++ renderConstraintCheckTime a
    let (q, ps) ← renderQuery fuel o search ps
    .ok ("CREATE ASSERTION " ++ renderIdent name ++ " CHECK (" ++ q ++ ")" ++ attrS, ps)

end

/-- The marker produced for a `DomainDefinition` inside
`renderCreateSchema`'s definitions map: the source returns the *method
reference* `this.renderDomainDefinition` (without calling it), which
`Array.prototype.join` coerces to an implementation-defined source-text
string; the other tags map to `null`, which `join` coerces to the empty
string.  The exact text is irrelevant to every claim; it is modelled as
a fixed marker. -/
def domainDefinitionMethodText : String := "function renderDomainDefinition"

/-- `renderCreateSchema`.  Pure: the definitions map never invokes a
render method (see `domainDefinitionMethodText`). -/
def renderCreateSchema (schema : CreateSchema) (ps : List Value) :
    Except String (String × List Value) :=
  match schema with
  | .mk catalog name authorization characterSet definitions =>
    let nameS :=
      (match catalog with
       | none => ""
       | some c => renderIdent c ++ ".") ++
      (match name with
       | none => ""
       | some n => renderIdent n ++ " ")
    let authS := match authorization with
      | none => ""
      | some a => "AUTHORIZATION " ++ renderIdent a ++ " "
    let charS := match characterSet with
      | none => ""
      | some cs => "DEFAULT CHARACTER SET " ++ renderIdent cs ++ " "
    let defsJ := String.intercalate " " (definitions.map fun d =>
      match d with
      | .domainDef _ => domainDefinitionMethodText
      | .tableDef _ => ""
      | .viewDef _ => ""
      | .grantDef _ => ""
      | .assertionDef _ => "")
    let defsS := if defsJ = "" then "" else " " ++ defsJ
    .ok ("CREATE SCHEMA " ++ nameS ++ authS ++ charS ++ defsS, ps)

/-- The runtime result of `renderStatement`: either SQL text, or — for a
statement tag the switch has no case for — the value of the
`default: return exhaustive(statement)` branch.  The source's
`exhaustive` helper is `(n: never): never => n`: it does *not* throw, it
returns its argument, so the JS call returns the statement object itself
instead of a string. -/
inductive StatementOutput
  | text (s : String)
  | exhaustiveFallback (statement : Statement)

/-- `renderStatement`: the single switch over the statement tag.  The
twelve handled cases mirror the source switch; the remaining variants of
the built-in grammar (`RevokeStatement` and the four drop statements)
have no case and reach the `default` exhaustiveness fallback. -/
def renderStatement (fuel : Nat) (o : RenderOpts) (statement : Statement)
    (ps : List Value) : Except String (StatementOutput × List Value) :=
  match statement with
  | .query q => do
    let (s, ps) ← renderQuery fuel o q ps
    .ok (.text s, ps)
  | .insert i => do
    let (s, ps) ← renderInsert fuel o i ps
    .ok (.text s, ps)
  | .update u => do
    let (s, ps) ← renderUpdate fuel o u ps
    .ok (.text s, ps)
  | .delete d => do
    let (s, ps) ← renderDelete fuel o d ps
    .ok (.text s, ps)
  | .updatePositioned u => do
    let (s, ps) ← renderUpdatePositioned fuel o u ps
    .ok (.text s, ps)
  | .deletePositioned d => .ok (.text (renderDeletePositioned d), ps)
  | .createSchema c => do
    let (s, ps) ← renderCreateSchema c ps
    .ok (.text s, ps)
  | .tableDefinition t => do
    let (s, ps) ← renderTableDefinition fuel o t ps
    .ok (.text s, ps)
  | .viewDefinition v => do
    let (s, ps) ← renderViewDefinition fuel o v ps
    .ok (.text s, ps)
  | .grantStatement g => .ok (.text (renderGrantStatement g), ps)
  | .domainDefinition d => do
    let (s, ps) ← renderDomainDefinition fuel o d ps
    .ok (.text s, ps)
  | .assertionDefinition a => do
    let (s, ps) ← renderAssertionDefinition fuel o a ps
    .ok (.text s, ps)
  | .revokePrivilege r => .ok (.exhaustiveFallback (.revokePrivilege r), ps)
  | .dropTable n b => .ok (.exhaustiveFallback (.dropTable n b), ps)
  | .dropView n b => .ok (.exhaustiveFallback (.dropView n b), ps)
  | .dropDomain n b => .ok (.exhaustiveFallback (.dropDomain n b), ps)
  | .dropAssertion n => .ok (.exhaustiveFallback (.dropAssertion n), ps)

/-!  Claim-side observation functions.  These are *not* translations of
the source; they formalize operations the spec talks about (reading
placeholder occurrences out of an output text, substituting parameter
values back into placeholders). -/

/-- Scanner state step for `placeholderOccurrences`: `acc` holds the
number of a `$<digits>` token currently being read. -/
def phScanAux : List Char → Option Nat → List Nat
  | [], none => []
  | [], some n => [n]
  | c :: rest, none =>
    if c = '$' then phScanAux rest (some 0) else phScanAux rest none
  | c :: rest, some n =>
    if c.isDigit then phScanAux rest (some (10 * n + (c.toNat - 48)))
    else n :: (if c = '$' then phScanAux rest (some 0) else phScanAux rest none)

/-- The numbers of the `$<digits>` placeholder tokens of a text, in
occurrence order. -/
def placeholderOccurrences (s : String) : List Nat :=
  phScanAux s.data none

/-- Replaces the `k`-th occurrence of `?` in a text by the `k`-th of the
given strings (the "substitute the parameters back into the placeholders
in buffer order" reading for the `'?'` placeholder style). -/
def substQMarks : List Char → List String → String
  | [], _ => ""
  | c :: rest, vals =>
    if c = '?' then
      match vals with
      | [] => "?" ++ substQMarks rest []
      | v :: vs => v ++ substQMarks rest vs
    else String.singleton c ++ substQMarks rest vals

/-- `substQMarks` lifted to `String`. -/
def substituteQuestionMarks (s : String) (vals : List String) : String :=
  substQMarks s.data vals

/-- The undecorated text of a buffered parameter value (how the value
reads once the inline decoration — quotes, `DATE` prefix, keyword
casing — is accounted for separately). -/
def valueRawText : Value → String
  | .num n => toString n
  | .str s => s
  | .bool b => if b then "TRUE" else "FALSE"
  | .null => "NULL"
  | .date d => d.iso

/-!  Concrete fixtures used by counterexamples and witnesses. -/

/-- The insert of the spec's Examples 1 and 2:
`Insert{table: "employee", columns: [id,name,salary,department_id],
values: ValuesConstructor([[5,"Charlotte",5000,55]])}`. -/
def employeeInsert : Insert :=
  .mk ⟨"employee"⟩ [⟨"id"⟩, ⟨"name"⟩, ⟨"salary"⟩, ⟨"department_id"⟩]
    (some (.valuesConstructor [[
      .exprCell (.lit (.numLit (.int 5))),
      .exprCell (.lit (.stringLit "Charlotte")),
      .exprCell (.lit (.numLit (.int 5000))),
      .exprCell (.lit (.numLit (.int 55)))]]))

/-- `SELECT 7 LIMIT 10`: a query whose `LIMIT` literal is evaluated (and
hence pushed) before its selection literal. -/
def selectWithLimit : Query :=
  .mk [] (.mk [.anonymousSelection (.lit (.numLit (.int 7)))] none none [] none)
    [] [] (some (.lit (.numLit (.int 10)))) none

/-- `SELECT "a" UNION SELECT "b"` (one union entry, `all = false`). -/
def unionQuery : Query :=
  .mk [] (.mk [.anonymousSelection (.ident ⟨"a"⟩)] none none [] none)
    [.mk "UNION" false (.mk [.anonymousSelection (.ident ⟨"b"⟩)] none none [] none)]
    [] none none

/-- `SELECT "a" GROUP BY "g" HAVING "h"`-shaped select (non-empty
`groupBy`, present `having`). -/
def groupBySelect : Select :=
  .mk [.anonymousSelection (.ident ⟨"a"⟩)] none none [.ident ⟨"g"⟩]
    (some (.ident ⟨"h"⟩))

/-!  C8 infrastructure: chunk decompositions relating the two rendering
modes.  A params-mode output is cut into plain-text chunks and
placeholder chunks; `SegOk` states that substituting the inline literal
renderings back into the placeholders of a chunk list reproduces the
inline-mode text. -/

/-! C8 infrastructure: chunk decompositions relating the two rendering
modes. -/

inductive Chunk
  | txt (s : String)
  | ph (n : Nat)

def chunkParamText (o : RenderOpts) : Chunk → String
  | .txt s => s
  | .ph n => renderPlaceholder o n

def chunksParamText (o : RenderOpts) : List Chunk → String
  | [] => ""
  | c :: rest => chunkParamText o c ++ chunksParamText o rest

def chunkSubstText (f : Nat → String) : Chunk → String
  | .txt s => s
  | .ph n => f n

def chunksSubst (f : Nat → String) : List Chunk → String
  | [] => ""
  | c :: rest => chunkSubstText f c ++ chunksSubst f rest

def phIndices : List Chunk → List Nat
  | [] => []
  | .txt _ :: rest => phIndices rest
  | .ph n :: rest => n :: phIndices rest

def inlineLitText : Literal → String
  | .numLit (.int n) => toString n
  | .numLit (.pre s) => s
  | .stringLit s => "'" ++ s ++ "'"
  | .boolLit b => if b then "TRUE" else "FALSE"
  | .nullLit => "NULL"
  | .dateLit d => "DATE '" ++ d.iso ++ "'"
  | .customLit _ => ""

def SigmaAgrees (base : Nat) (lits : List Literal) (f : Nat → String) : Prop :=
  ∀ k l, lits.get? k = some l → f (base + 1 + k) = inlineLitText l

def SegOk (base : Nat) (tI : String) (lits : List Literal) (cs : List Chunk) : Prop :=
  (∀ f, SigmaAgrees base lits f → chunksSubst f cs = tI) ∧
  ((phIndices cs : Multiset Nat) = ↑(List.range' (base + 1) lits.length))

def LitsOk (lits : List Literal) : Prop := ∀ l ∈ lits, inlineLitText l ≠ ""

def canonSigma (base : Nat) (lits : List Literal) : Nat → String :=
  fun n =>
    match lits.get? (n - (base + 1)) with
    | some l => inlineLitText l
    | none => ""

inductive ListSeg : Nat → List String → List Literal → List (List Chunk) → Prop
  | nil (b : Nat) : ListSeg b [] [] []
  | cons {b : Nat} {t : String} {ts : List String} {l ls : List Literal}
      {c : List Chunk} {css : List (List Chunk)} :
      SegOk b t l c → ListSeg (b + l.length) ts ls css →
      ListSeg b (t :: ts) (l ++ ls) (c :: css)

def chunksIntercalate (sep : String) : List (List Chunk) → List Chunk
  | [] => []
  | [c] => c
  | c :: rest => c ++ Chunk.txt sep :: chunksIntercalate sep rest

def PStr {α : Type}
    (f : Nat → RenderOpts → α → List Value → Except String (String × List Value))
    (fuel : Nat) : Prop :=
  ∀ (st : PlaceHolderStyle) (x : α) (ps0 : List Value) (tI : String) (psI : List Value),
    f fuel ⟨false, st⟩ x ps0 = .ok (tI, psI) →
    psI = ps0 ∧ ∀ qs0, ∃ lits cs,
      f fuel ⟨true, st⟩ x qs0 =
        .ok (chunksParamText ⟨true, st⟩ cs, qs0 ++ lits.map Literal.jsVal) ∧
      (LitsOk lits → SegOk qs0.length tI lits cs)

def PList {α : Type}
    (f : Nat → RenderOpts → α → List Value → Except String (List String × List Value))
    (fuel : Nat) : Prop :=
  ∀ (st : PlaceHolderStyle) (x : α) (ps0 : List Value) (tIs : List String) (psI : List Value),
    f fuel ⟨false, st⟩ x ps0 = .ok (tIs, psI) →
    psI = ps0 ∧ ∀ qs0, ∃ lits css,
      f fuel ⟨true, st⟩ x qs0 =
        .ok (css.map (chunksParamText ⟨true, st⟩), qs0 ++ lits.map Literal.jsVal) ∧
      (LitsOk lits → ListSeg qs0.length tIs lits css)

structure CorrAll (fuel : Nat) : Prop where
  expr : PStr renderExpr fuel
  exprList : PList renderExprList fuel
  caseArm : PStr renderCaseArm fuel
  caseArms : PList renderCaseArms fuel
  table : PStr renderTable fuel
  join : PStr renderJoin fuel
  joins : PList renderJoins fuel
  selection : PStr renderSelection fuel
  selections : PList renderSelections fuel
  wherePart : PStr renderWherePart fuel
  groupByPart : PStr renderGroupByPart fuel
  havingPart : PStr renderHavingPart fuel
  fromPart : PStr renderFromPart fuel
  select : PStr renderSelect fuel
  cte : PStr renderCte fuel
  ctes : PList renderCtes fuel
  ctesPart : PStr renderQueryCtesPart fuel
  limitPart : PStr renderLimitPart fuel
  offsetPart : PStr renderOffsetPart fuel
  ordering : PStr renderOrdering fuel
  orderingList : PList renderOrderingList fuel
  orderingPart : PStr renderOrderingPart fuel
  union : PStr renderUnion fuel
  unions : PList renderUnions fuel
  unionsPart : PStr renderUnionsPart fuel
  query : PStr renderQuery fuel
  insertCells : PList renderInsertCells fuel
  insertRow : PStr renderInsertRow fuel
  insertRows : PList renderInsertRows fuel
  insert : PStr renderInsert fuel
  assignment : PStr renderAssignment fuel
  assignments : PList renderAssignments fuel
  update : PStr renderUpdate fuel
  updatePositioned : PStr renderUpdatePositioned fuel
  delete : PStr renderDelete fuel
  checkConstraint : PStr renderCheckConstraint fuel
  columnConstraintDef : PStr renderColumnConstraintDef fuel
  columnConstraintDefs : PList renderColumnConstraintDefs fuel
  columnDefinition : PStr renderColumnDefinition fuel
  columnDefinitions : PList renderColumnDefinitions fuel
  tableConstraint : PStr renderTableConstraint fuel
  tableConstraints : PList renderTableConstraints fuel
  tableDefinition : PStr renderTableDefinition fuel
  viewDefinition : PStr renderViewDefinition fuel
  domainDefinition : PStr renderDomainDefinition fuel
  assertionDefinition : PStr renderAssertionDefinition fuel

def renderInsertCell (fuel : Nat) (o : RenderOpts) (c : InsertCell) (ps : List Value) :
    Except String (String × List Value) :=
  match c with
  | .defaultValue => .ok ("DEFAULT", ps)
  | .exprCell e => renderExpr fuel o e ps

/-!  Reduction lemmas for the `Except` monad operations the renderers
are written in. -/

/-- Binding a successful `Except` computation applies the continuation. -/
@[simp] theorem except_ok_bind {e a b : Type} (x : a) (f : a → Except e b) :
    (Except.ok x >>= f) = f x := rfl

/-- Binding a failed `Except` computation propagates the error. -/
@[simp] theorem except_error_bind {e a b : Type} (msg : e) (f : a → Except e b) :
    ((Except.error msg : Except e a) >>= f) = Except.error msg := rfl

/-- `pure` is `Except.ok`. -/
@[simp] theorem except_pure_eq {e a : Type} (x : a) :
    (pure x : Except e a) = Except.ok x := rfl

/-!  Claim theorems. -/

/-- C1: evaluation of `renderStatement` at the statement variants the
spec names but the switch has no case for.  A `DropTable` (likewise
`DropView`, `DropDomain`, `DropAssertion`, `RevokeStatement`) does not
dispatch to a render branch: it reaches the `default` exhaustiveness
fallback, whose `exhaustive` helper returns the statement value itself
instead of SQL text.  This refutes the claim that every spec-named
variant has a corresponding branch and that the fallback is unreachable
for every statement of the built-in grammar. -/
theorem C1_unhandled_statement_variants_reach_fallback (fuel : Nat)
    (o : RenderOpts) (ps : List Value) (n : Ident) (b : DropBehavior)
    (r : RevokePrivilege) :
    renderStatement fuel o (.dropTable n b) ps = .ok (.exhaustiveFallback (.dropTable n b), ps) ∧
    renderStatement fuel o (.dropView n b) ps = .ok (.exhaustiveFallback (.dropView n b), ps) ∧
    renderStatement fuel o (.dropDomain n b) ps = .ok (.exhaustiveFallback (.dropDomain n b), ps) ∧
    renderStatement fuel o (.dropAssertion n) ps = .ok (.exhaustiveFallback (.dropAssertion n), ps) ∧
    renderStatement fuel o (.revokePrivilege r) ps = .ok (.exhaustiveFallback (.revokePrivilege r), ps) :=
  ⟨rfl, rfl, rfl, rfl, rfl⟩

/-- C2: for every `Insert` whose `values` field is null/absent, in every
mode and from every buffer state, `renderInsert` — and `renderStatement`
dispatching to it — raises `Invalid Insert. Insert must have VALUES` and
produces no output string (the whole render call fails; `Except.error`
carries no partial output). -/
theorem C2_insert_null_values_always_errors (fuel : Nat) (o : RenderOpts)
    (table : Ident) (columns : List Ident) (ps : List Value) :
    renderInsert (fuel+1) o (.mk table columns none) ps = .error insertValuesError ∧
    renderStatement (fuel+1) o (.insert (.mk table columns none)) ps = .error insertValuesError :=
  ⟨rfl, rfl⟩

/-- C3 counterexample: rendering `SELECT 7 LIMIT 10` in params mode with
`'$'` style yields the text `SELECT $2 LIMIT $1` with buffer
`[10, 7]` — the `LIMIT` literal is evaluated (and pushed) first but
emitted last, so the placeholder occurrence order in the output text is
`[2, 1]`, not the `[1, 2]` that a 1:1 correspondence between buffer
positions and occurrence order would require. -/
theorem C3_placeholder_occurrence_order_counterexample :
    renderStatement 30 ⟨true, .dollar⟩ (.query selectWithLimit) [] =
      .ok (.text "SELECT $2 LIMIT $1", [.num 10, .num 7]) ∧
    placeholderOccurrences "SELECT $2 LIMIT $1" = [2, 1] ∧
    ([2, 1] : List Nat) ≠ [1, 2] :=
  ⟨rfl, by decide, by decide⟩

/-- C3 amended: when `paramsMode` is on, every literal (including
`NullLit`, pushed as the value `null` via `Literal.jsVal`) is appended
to the ordered parameter buffer and replaced in the output by the
placeholder computed from the buffer's new length (1-indexed); the
placeholder text is `$<n>` for the `'$'` style and `?` for the `'?'`
style.  (The buffer's positions correspond 1:1 to the placeholder
*numbers*, i.e. to literal evaluation order — not to occurrence order in
the output text, which can differ.) -/
theorem C3_amended_params_literal_contract (o : RenderOpts) (l : Literal)
    (ps : List Value) (h : o.paramsMode = true) :
    renderLiteral o l ps = .ok (renderPlaceholder o (ps.length + 1), ps ++ [l.jsVal]) ∧
    (o.placeHolderStyle = .dollar →
      renderPlaceholder o (ps.length + 1) = "$" ++ toString (ps.length + 1)) ∧
    (o.placeHolderStyle = .question → renderPlaceholder o (ps.length + 1) = "?") := by
  refine ⟨?_, ?_, ?_⟩
  · simp [renderLiteral, h]
  · intro hst; simp [renderPlaceholder, hst]
  · intro hst; simp [renderPlaceholder, hst]

/-- C3 amended, witness: the contract evaluated at a `NullLit` in `'$'`
style from a one-element buffer: the pushed value is `null` and the
placeholder is `$2`. -/
theorem C3_amended_witness :
    renderLiteral ⟨true, .dollar⟩ .nullLit [.num 1] = .ok ("$2", [.num 1, .null]) := by
  have h := C3_amended_params_literal_contract ⟨true, .dollar⟩ .nullLit [.num 1] rfl
  simpa using h.1

/-- C4: the spec's Examples 1 and 2.  Rendering `employeeInsert` in
non-parameter mode yields exactly the inline `INSERT` text; in parameter
mode with `'$'` style it yields the placeholder text with buffer
`[5, 'Charlotte', 5000, 55]`. -/
theorem C4_employee_insert_examples :
    renderStatement 30 ⟨false, .dollar⟩ (.insert employeeInsert) [] =
      .ok (.text "INSERT INTO \"employee\" (\"id\", \"name\", \"salary\", \"department_id\") VALUES (5, 'Charlotte', 5000, 55)", []) ∧
    renderStatement 30 ⟨true, .dollar⟩ (.insert employeeInsert) [] =
      .ok (.text "INSERT INTO \"employee\" (\"id\", \"name\", \"salary\", \"department_id\") VALUES ($1, $2, $3, $4)",
        [.num 5, .str "Charlotte", .num 5000, .num 55]) :=
  ⟨rfl, rfl⟩

/-- C5: with `paramsMode` off (either placeholder style), literals
render inline: an integral `NumLit` as its decimal text, a pre-formatted
`NumLit` string verbatim, a `StringLit` wrapped in single quotes with no
escaping, `BoolLit` as `TRUE`/`FALSE`, `NullLit` as `NULL`, and a
`DateLit` as `DATE '<ISO-8601 text>'`. -/
theorem C5_inline_literal_rendering (st : PlaceHolderStyle) (n : Int)
    (pre s : String) (d : JsDate) (ps : List Value) :
    renderLiteral ⟨false, st⟩ (.numLit (.int n)) ps = .ok (toString n, ps) ∧
    renderLiteral ⟨false, st⟩ (.numLit (.pre pre)) ps = .ok (pre, ps) ∧
    renderLiteral ⟨false, st⟩ (.stringLit s) ps = .ok ("'" ++ s ++ "'", ps) ∧
    renderLiteral ⟨false, st⟩ (.boolLit true) ps = .ok ("TRUE", ps) ∧
    renderLiteral ⟨false, st⟩ (.boolLit false) ps = .ok ("FALSE", ps) ∧
    renderLiteral ⟨false, st⟩ .nullLit ps = .ok ("NULL", ps) ∧
    renderLiteral ⟨false, st⟩ (.dateLit d) ps = .ok ("DATE '" ++ d.iso ++ "'", ps) :=
  ⟨rfl, rfl, rfl, rfl, rfl, rfl, rfl⟩

/-- C6 counterexample: a query with one union renders with *two* spaces
before the set-operator keyword (`'SELECT "a"  UNION SELECT "b"'`), not
the exactly-one space the claim states: the unions block contributes a
leading space and each rendered entry carries its own leading space. -/
theorem C6_union_single_space_counterexample :
    renderQuery 30 ⟨false, .dollar⟩ unionQuery [] =
      .ok ("SELECT \"a\"  UNION SELECT \"b\"", []) ∧
    "SELECT \"a\"  UNION SELECT \"b\"" ≠ "SELECT \"a\" UNION SELECT \"b\"" :=
  ⟨rfl, by decide⟩

/-- C6 amended: `renderQuery` concatenates, in order, the `WITH` clause
(empty for no CTEs, and a CTE with an empty column list emits no column
list), the root select, the unions part, `ORDER BY`, `LIMIT`, `OFFSET`;
each union entry contributes `' ' + <set-op keyword> + [' ALL'] + ' ' +
<rendered Select>` and the entries are prefixed and joined with one more
space, so *two* spaces precede each set-operator keyword. -/
theorem C6_amended_query_rendering_order :
    (∀ (fuel : Nat) (o : RenderOpts) ctes sel us ord lim off ps0 ps1 ps2 ps3 ps4 ps5 ps6 ctesS limS offS ordS selS usS,
      renderQueryCtesPart fuel o ctes ps0 = .ok (ctesS, ps1) →
      renderLimitPart fuel o lim ps1 = .ok (limS, ps2) →
      renderOffsetPart fuel o off ps2 = .ok (offS, ps3) →
      renderOrderingPart fuel o ord ps3 = .ok (ordS, ps4) →
      renderSelect fuel o sel ps4 = .ok (selS, ps5) →
      renderUnionsPart fuel o us ps5 = .ok (usS, ps6) →
      renderQuery (fuel+1) o (.mk ctes sel us ord lim off) ps0 =
        .ok (ctesS ++ selS ++ usS ++ ordS ++ limS ++ offS, ps6)) ∧
    (∀ (fuel : Nat) (o : RenderOpts) f a s ps t ps1, renderSelect fuel o s ps = .ok (t, ps1) →
      renderUnion (fuel+1) o (.mk f a s) ps =
        .ok (" " ++ f ++ (if a then " ALL" else "") ++ " " ++ t, ps1)) ∧
    (∀ (fuel : Nat) (o : RenderOpts) (u : SetOpElem) us ps uS usL psX psY,
      renderUnion fuel o u ps = .ok (uS, psX) → renderUnions fuel o us psX = .ok (usL, psY) →
      renderUnions (fuel+1) o (u :: us) ps = .ok (uS :: usL, psY)) ∧
    (∀ (fuel : Nat) (o : RenderOpts) u us ps usL ps1,
      renderUnions fuel o (u :: us) ps = .ok (usL, ps1) →
      renderUnionsPart (fuel+1) o (u :: us) ps = .ok (" " ++ String.intercalate " " usL, ps1)) ∧
    (∀ (fuel : Nat) (o : RenderOpts) ps, renderQueryCtesPart (fuel+1) o [] ps = .ok ("", ps)) ∧
    (∀ (fuel : Nat) (o : RenderOpts) (nm : Ident) (q : Query) ps qS ps1,
      renderQuery fuel o q ps = .ok (qS, ps1) →
      renderCte (fuel+1) o (.mk ⟨nm, []⟩ q) ps = .ok (renderIdent nm ++ " AS (" ++ qS ++ ")", ps1)) := by
  refine ⟨?_, ?_, ?_, ?_, ?_, ?_⟩
  · intro fuel o ctes sel us ord lim off ps0 ps1 ps2 ps3 ps4 ps5 ps6 ctesS limS offS ordS selS usS h1 h2 h3 h4 h5 h6
    simp [renderQuery, h1, h2, h3, h4, h5, h6]
  · intro fuel o f a s ps t ps1 h
    simp [renderUnion, h]
  · intro fuel o u us ps uS usL psX psY h1 h2
    simp [renderUnions, h1, h2]
  · intro fuel o u us ps usL ps1 h
    simp [renderUnionsPart, h]
  · intro fuel o ps
    simp [renderQueryCtesPart]
  · intro fuel o nm q ps qS ps1 h
    simp [renderCte, h]

/-- C6 amended, witness: the decomposition applied to
`SELECT "a" UNION SELECT "b"` with every sub-run discharged by
evaluation; the two spaces before `UNION` are visible in the result. -/
theorem C6_amended_witness :
    renderQuery 30 ⟨false, .dollar⟩ unionQuery [] =
      .ok ("SELECT \"a\"  UNION SELECT \"b\"", []) := by
  have h := C6_amended_query_rendering_order.1 29 ⟨false, .dollar⟩
    [] (.mk [.anonymousSelection (.ident ⟨"a"⟩)] none none [] none)
    [.mk "UNION" false (.mk [.anonymousSelection (.ident ⟨"b"⟩)] none none [] none)]
    [] none none
    [] [] [] [] [] [] [] "" "" "" "" "SELECT \"a\"" "  UNION SELECT \"b\""
    rfl rfl rfl rfl rfl rfl
  simpa using h

/-- C7: `renderConstraintCheckTime` maps the four `deferrable` ×
`initiallyDeferred` combinations to exactly the four fixed phrases; in
particular `deferrable = true`, `initiallyDeferred = false` renders as
`INITIALLY IMMEDIATE DEFERRABLE`. -/
theorem C7_constraint_check_time_phrases :
    renderConstraintCheckTime ⟨true, true⟩ = "INITIALLY DEFERRED DEFERRABLE" ∧
    renderConstraintCheckTime ⟨true, false⟩ = "INITIALLY IMMEDIATE DEFERRABLE" ∧
    renderConstraintCheckTime ⟨false, true⟩ = "INITIALLY DEFERRED NOT DEFERRABLE" ∧
    renderConstraintCheckTime ⟨false, false⟩ = "INITIALLY IMMEDIATE NOT DEFERRABLE" :=
  ⟨rfl, rfl, rfl, rfl⟩

/-- C9: with `paramsMode` on (either placeholder style), rendering a
`CustomLit` does not raise the `Custom literal encountered` error that
inline mode raises: its `val` is pushed onto the buffer and a
placeholder for the buffer's new length is returned. -/
theorem C9_custom_literal_params_mode_succeeds (o : RenderOpts) (v : Value)
    (ps : List Value) (h : o.paramsMode = true) :
    renderLiteral o (.customLit v) ps = .ok (renderPlaceholder o (ps.length + 1), ps ++ [v]) := by
  simp [renderLiteral, h, Literal.jsVal]

/-- C9, witness: a `CustomLit` rendered in params mode with `'?'` style
succeeds with placeholder `?`. -/
theorem C9_witness :
    renderLiteral ⟨true, .question⟩ (.customLit (.str "blob")) [] =
      .ok ("?", [.str "blob"]) := by
  have h := C9_custom_literal_params_mode_succeeds ⟨true, .question⟩ (.str "blob") [] rfl
  simpa using h

/-- C10: for a non-empty `groupBy` list, `renderSelect`'s group-by part
is `' GROUP BY'` directly concatenated with the rendered expressions
joined by `', '` (no space between the keyword and the first
expression); likewise a present `having` emits `' HAVING'` directly
concatenated with the rendered expression; and `renderSelect` places
these parts after the selections, table and where parts. -/
theorem C10_group_by_having_no_space :
    (∀ (fuel : Nat) (o : RenderOpts) g gb ps strs ps1,
      renderExprList fuel o (g :: gb) ps = .ok (strs, ps1) →
      renderGroupByPart (fuel+1) o (g :: gb) ps = .ok (" GROUP BY" ++ String.intercalate ", " strs, ps1)) ∧
    (∀ (fuel : Nat) (o : RenderOpts) e ps s ps1, renderExpr fuel o e ps = .ok (s, ps1) →
      renderHavingPart (fuel+1) o (some e) ps = .ok (" HAVING" ++ s, ps1)) ∧
    (∀ (fuel : Nat) (o : RenderOpts) sels fr wh gb hv ps0 selL ps1 whS ps2 gbS ps3 hvS ps4 tS ps5,
      renderSelections fuel o sels ps0 = .ok (selL, ps1) →
      renderWherePart fuel o wh ps1 = .ok (whS, ps2) →
      renderGroupByPart fuel o gb ps2 = .ok (gbS, ps3) →
      renderHavingPart fuel o hv ps3 = .ok (hvS, ps4) →
      renderFromPart fuel o fr ps4 = .ok (tS, ps5) →
      renderSelect (fuel+1) o (.mk sels fr wh gb hv) ps0 =
        .ok ("SELECT " ++ String.intercalate ", " selL ++ tS ++ whS ++ gbS ++ hvS, ps5)) := by
  refine ⟨?_, ?_, ?_⟩
  · intro fuel o g gb ps strs ps1 h
    simp [renderGroupByPart, h]
  · intro fuel o e ps s ps1 h
    simp [renderHavingPart, h]
  · intro fuel o sels fr wh gb hv ps0 selL ps1 whS ps2 gbS ps3 hvS ps4 tS ps5 h1 h2 h3 h4 h5
    simp [renderSelect, h1, h2, h3, h4, h5]

/-- C10, witness: the select `SELECT "a" … GROUP BY "g" HAVING "h"` —
the output shows `GROUP BY"g"` and `HAVING"h"` with no intervening
space. -/
theorem C10_witness :
    renderSelect 30 ⟨false, .dollar⟩ groupBySelect [] =
      .ok ("SELECT \"a\" GROUP BY\"g\" HAVING\"h\"", []) := by
  have h := C10_group_by_having_no_space.2.2 29 ⟨false, .dollar⟩
    [.anonymousSelection (.ident ⟨"a"⟩)] none none [.ident ⟨"g"⟩] (some (.ident ⟨"h"⟩))
    [] ["\"a\""] [] "" [] " GROUP BY\"g\"" [] " HAVING\"h\"" [] "" []
    rfl rfl rfl rfl rfl
  simpa using h


theorem LitsOk.left {l1 l2 : List Literal} (h : LitsOk (l1 ++ l2)) : LitsOk l1 :=
  fun l hl => h l (List.mem_append.2 (Or.inl hl))

theorem LitsOk.right {l1 l2 : List Literal} (h : LitsOk (l1 ++ l2)) : LitsOk l2 :=
  fun l hl => h l (List.mem_append.2 (Or.inr hl))

theorem LitsOk.nil : LitsOk [] := fun _ hl => absurd hl (List.not_mem_nil _)

theorem chunksParamText_append (o : RenderOpts) (a b : List Chunk) :
    chunksParamText o (a ++ b) = chunksParamText o a ++ chunksParamText o b := by
  induction a with
  | nil => simp [chunksParamText]
  | cons c rest ih => simp [chunksParamText, ih, String.append_assoc]

theorem chunksSubst_append (f : Nat → String) (a b : List Chunk) :
    chunksSubst f (a ++ b) = chunksSubst f a ++ chunksSubst f b := by
  induction a with
  | nil => simp [chunksSubst]
  | cons c rest ih => simp [chunksSubst, ih, String.append_assoc]

theorem phIndices_append (a b : List Chunk) :
    phIndices (a ++ b) = phIndices a ++ phIndices b := by
  induction a with
  | nil => simp [phIndices]
  | cons c rest ih => cases c <;> simp [phIndices, ih]

theorem range_ms_add (s m n : Nat) :
    (↑(List.range' s m) + ↑(List.range' (s + m) n) : Multiset Nat) =
      ↑(List.range' s (m + n)) := by
  rw [Multiset.coe_add]
  congr 1
  have h := List.range'_append s m n 1
  simp only [Nat.one_mul] at h
  rw [Nat.add_comm m n]
  exact h

theorem sigmaAgrees_left {base : Nat} {l1 l2 : List Literal} {f : Nat → String}
    (h : SigmaAgrees base (l1 ++ l2) f) : SigmaAgrees base l1 f := by
  intro k l hkl
  have hk : k < l1.length := by
    by_contra hge
    rw [List.get?_eq_none.2 (by omega)] at hkl
    exact Option.noConfusion hkl
  exact h k l (by rw [List.get?_append hk]; exact hkl)

theorem sigmaAgrees_right {base : Nat} {l1 l2 : List Literal} {f : Nat → String}
    (h : SigmaAgrees base (l1 ++ l2) f) : SigmaAgrees (base + l1.length) l2 f := by
  intro k l hkl
  have hx := h (l1.length + k) l (by
    rw [List.get?_append_right (by omega)]
    simpa using hkl)
  have harith : base + l1.length + 1 + k = base + 1 + (l1.length + k) := by omega
  rw [harith]
  exact hx

theorem canonSigma_agrees (base : Nat) (lits : List Literal) :
    SigmaAgrees base lits (canonSigma base lits) := by
  intro k l hkl
  unfold canonSigma
  have : base + 1 + k - (base + 1) = k := by omega
  rw [this, hkl]

theorem SegOk.empty (base : Nat) : SegOk base "" [] [] := by
  constructor
  · intro f _; simp [chunksSubst]
  · simp [phIndices]

theorem SegOk.txt (base : Nat) (s : String) : SegOk base s [] [.txt s] := by
  constructor
  · intro f _; simp [chunksSubst, chunkSubstText]
  · simp [phIndices]

theorem SegOk.lit (base : Nat) (l : Literal) :
    SegOk base (inlineLitText l) [l] [.ph (base + 1)] := by
  constructor
  · intro f hf
    have := hf 0 l (by simp)
    simp only [Nat.add_zero] at this
    simp [chunksSubst, chunkSubstText, this]
  · simp [phIndices, List.range']

theorem SegOk.append {b : Nat} {t1 t2 : String} {l1 l2 : List Literal}
    {c1 c2 : List Chunk} (h1 : SegOk b t1 l1 c1)
    (h2 : SegOk (b + l1.length) t2 l2 c2) :
    SegOk b (t1 ++ t2) (l1 ++ l2) (c1 ++ c2) := by
  constructor
  · intro f hf
    rw [chunksSubst_append, h1.1 f (sigmaAgrees_left hf), h2.1 f (sigmaAgrees_right hf)]
  · rw [phIndices_append, ← Multiset.coe_add, h1.2, h2.2, List.length_append]
    have : b + l1.length + 1 = b + 1 + l1.length := by omega
    rw [this, range_ms_add]

theorem SegOk.swap {b : Nat} {t1 t2 : String} {l1 l2 : List Literal}
    {c1 c2 : List Chunk} (h1 : SegOk b t1 l1 c1)
    (h2 : SegOk (b + l1.length) t2 l2 c2) :
    SegOk b (t2 ++ t1) (l1 ++ l2) (c2 ++ c1) := by
  constructor
  · intro f hf
    rw [chunksSubst_append, h1.1 f (sigmaAgrees_left hf), h2.1 f (sigmaAgrees_right hf)]
  · rw [phIndices_append, ← Multiset.coe_add, h1.2, h2.2, List.length_append]
    rw [add_comm (↑(List.range' (b + l1.length + 1) l2.length) : Multiset Nat)]
    have : b + l1.length + 1 = b + 1 + l1.length := by omega
    rw [this, range_ms_add]

theorem SegOk.prefixTxt {b : Nat} {t : String} {l : List Literal} {c : List Chunk}
    (s : String) (h : SegOk b t l c) : SegOk b (s ++ t) l (.txt s :: c) := by
  have := SegOk.append (SegOk.txt b s) (by simpa using h)
  simpa using this

theorem SegOk.suffixTxt {b : Nat} {t : String} {l : List Literal} {c : List Chunk}
    (s : String) (h : SegOk b t l c) : SegOk b (t ++ s) l (c ++ [.txt s]) := by
  have h2 : SegOk (b + l.length) s [] [.txt s] := SegOk.txt _ s
  have := SegOk.append h h2
  simpa using this

theorem SegOk.ofEq {b : Nat} {t t' : String} {l : List Literal} {c : List Chunk}
    (h : SegOk b t l c) (ht : t = t') : SegOk b t' l c := ht ▸ h

theorem SegOk.ofChunksEq {b : Nat} {t : String} {l : List Literal}
    {c c' : List Chunk} (h : SegOk b t l c) (hc : c = c') : SegOk b t l c' :=
  hc ▸ h

theorem range_ms_add_shift (b m n : Nat) :
    (↑(List.range' (b + 1) m) + ↑(List.range' (b + m + 1) n) : Multiset Nat) =
      ↑(List.range' (b + 1) (m + n)) := by
  have heq : b + m + 1 = b + 1 + m := by omega
  rw [heq, range_ms_add]

theorem ListSeg.substMap {b : Nat} {ts : List String} {lits : List Literal}
    {css : List (List Chunk)} (h : ListSeg b ts lits css) :
    ∀ f, SigmaAgrees b lits f → css.map (chunksSubst f) = ts := by
  induction h with
  | nil => intro f _; simp
  | cons hseg _ ih =>
    intro f hf
    simp only [List.map_cons]
    rw [hseg.1 f (sigmaAgrees_left hf), ih f (sigmaAgrees_right hf)]

theorem ListSeg.idx {b : Nat} {ts : List String} {lits : List Literal}
    {css : List (List Chunk)} (h : ListSeg b ts lits css) :
    (phIndices css.join : Multiset Nat) = ↑(List.range' (b + 1) lits.length) := by
  induction h with
  | nil => simp [phIndices]
  | cons hseg _ ih =>
    simp only [List.join_cons]
    rw [phIndices_append, ← Multiset.coe_add, hseg.2, ih, List.length_append,
      range_ms_add_shift]

theorem string_intercalate_go_append (s x y : String) (r : List String) :
    String.intercalate.go (x ++ y) s r = x ++ String.intercalate.go y s r := by
  induction r generalizing y with
  | nil => simp [String.intercalate.go]
  | cons a as ih =>
    simp only [String.intercalate.go]
    rw [String.append_assoc x y s, String.append_assoc x (y ++ s) a]
    exact ih (y ++ s ++ a)

theorem string_intercalate_cons_cons (s a b : String) (r : List String) :
    String.intercalate s (a :: b :: r) = a ++ s ++ String.intercalate s (b :: r) := by
  show String.intercalate.go a s (b :: r) = _
  show String.intercalate.go (a ++ s ++ b) s r = _
  have h : a ++ s ++ b = (a ++ s) ++ b := rfl
  rw [h, string_intercalate_go_append]
  simp [String.intercalate]

theorem string_intercalate_singleton (s a : String) : String.intercalate s [a] = a := by
  simp [String.intercalate, String.intercalate.go]

theorem string_intercalate_nil (s : String) : String.intercalate s [] = "" := rfl

theorem chunksParamText_intercalate (o : RenderOpts) (sep : String)
    (css : List (List Chunk)) :
    chunksParamText o (chunksIntercalate sep css) =
      String.intercalate sep (css.map (chunksParamText o)) := by
  induction css with
  | nil => simp [chunksIntercalate, chunksParamText, string_intercalate_nil]
  | cons c rest ih =>
    cases rest with
    | nil => simp [chunksIntercalate, string_intercalate_singleton]
    | cons d ds =>
      show chunksParamText o (c ++ Chunk.txt sep :: chunksIntercalate sep (d :: ds)) = _
      rw [chunksParamText_append]
      show _ ++ (chunkParamText o (.txt sep) ++ chunksParamText o (chunksIntercalate sep (d :: ds))) = _
      rw [ih]
      simp only [List.map_cons]
      rw [string_intercalate_cons_cons]
      simp [chunkParamText, String.append_assoc]

theorem chunksSubst_intercalate (f : Nat → String) (sep : String)
    (css : List (List Chunk)) :
    chunksSubst f (chunksIntercalate sep css) =
      String.intercalate sep (css.map (chunksSubst f)) := by
  induction css with
  | nil => simp [chunksIntercalate, chunksSubst, string_intercalate_nil]
  | cons c rest ih =>
    cases rest with
    | nil => simp [chunksIntercalate, string_intercalate_singleton]
    | cons d ds =>
      show chunksSubst f (c ++ Chunk.txt sep :: chunksIntercalate sep (d :: ds)) = _
      rw [chunksSubst_append]
      show _ ++ (chunkSubstText f (.txt sep) ++ chunksSubst f (chunksIntercalate sep (d :: ds))) = _
      rw [ih]
      simp only [List.map_cons]
      rw [string_intercalate_cons_cons]
      simp [chunkSubstText, String.append_assoc]

theorem phIndices_intercalate (sep : String) (css : List (List Chunk)) :
    phIndices (chunksIntercalate sep css) = phIndices css.join := by
  induction css with
  | nil => simp [chunksIntercalate]
  | cons c rest ih =>
    cases rest with
    | nil => simp [chunksIntercalate, phIndices_append, phIndices]
    | cons d ds =>
      show phIndices (c ++ Chunk.txt sep :: chunksIntercalate sep (d :: ds)) = _
      rw [phIndices_append]
      rw [show phIndices (Chunk.txt sep :: chunksIntercalate sep (d :: ds)) =
        phIndices (chunksIntercalate sep (d :: ds)) from rfl, ih]
      simp [List.join_cons, phIndices_append]

theorem string_foldl_append_acc (l : List String) :
    ∀ acc : String, l.foldl (fun r s => r ++ s) acc =
      acc ++ l.foldl (fun r s => r ++ s) "" := by
  induction l with
  | nil => intro acc; simp
  | cons a as ih =>
    intro acc
    show as.foldl _ (acc ++ a) = acc ++ as.foldl _ ("" ++ a)
    rw [ih (acc ++ a), ih ("" ++ a)]
    simp [String.append_assoc]

theorem string_join_cons (a : String) (l : List String) :
    String.join (a :: l) = a ++ String.join l := by
  show l.foldl (fun r s => r ++ s) ("" ++ a) = a ++ l.foldl (fun r s => r ++ s) ""
  rw [string_foldl_append_acc l ("" ++ a)]
  simp

theorem chunksSubst_join (f : Nat → String) (css : List (List Chunk)) :
    chunksSubst f css.join = String.join (css.map (chunksSubst f)) := by
  induction css with
  | nil => simp [chunksSubst, String.join]
  | cons c rest ih =>
    simp only [List.join_cons, List.map_cons]
    rw [chunksSubst_append, ih, string_join_cons]

theorem chunksParamText_join (o : RenderOpts) (css : List (List Chunk)) :
    chunksParamText o css.join = String.join (css.map (chunksParamText o)) := by
  induction css with
  | nil => simp [chunksParamText, String.join]
  | cons c rest ih =>
    simp only [List.join_cons, List.map_cons]
    rw [chunksParamText_append, ih, string_join_cons]

theorem ListSeg.intercalate {b : Nat} {ts : List String} {lits : List Literal}
    {css : List (List Chunk)} (sep : String) (h : ListSeg b ts lits css) :
    SegOk b (String.intercalate sep ts) lits (chunksIntercalate sep css) := by
  constructor
  · intro f hf
    rw [chunksSubst_intercalate, h.substMap f hf]
  · rw [phIndices_intercalate]
    exact h.idx

theorem ListSeg.joined {b : Nat} {ts : List String} {lits : List Literal}
    {css : List (List Chunk)} (h : ListSeg b ts lits css) :
    SegOk b (String.join ts) lits css.join := by
  constructor
  · intro f hf
    rw [chunksSubst_join, h.substMap f hf]
  · exact h.idx

theorem bind_ok_iff {e a b : Type} {m : Except e a} {f : a → Except e b} {r : b} :
    (m >>= f) = .ok r ↔ ∃ v, m = .ok v ∧ f v = .ok r := by
  cases m <;> simp

theorem string_append_eq_empty {a b : String} (h : a ++ b = "") :
    a = "" ∧ b = "" := by
  have hd : a.data ++ b.data = [] := by
    rw [← String.data_append, h]
  rw [List.append_eq_nil] at hd
  constructor
  · cases a; simp_all [String.ext_iff]
  · cases b; simp_all [String.ext_iff]

theorem renderPlaceholder_ne_empty (o : RenderOpts) (n : Nat) :
    renderPlaceholder o n ≠ "" := by
  cases hst : o.placeHolderStyle with
  | dollar =>
    intro h
    simp only [renderPlaceholder, hst] at h
    have := congrArg String.data h
    rw [String.data_append] at this
    simp at this
  | question =>
    intro h
    simp only [renderPlaceholder, hst] at h
    exact absurd h (by decide)

theorem no_ph_of_subst_empty (f : Nat → String) (c : List Chunk)
    (hsub : chunksSubst f c = "") (hf : ∀ n ∈ phIndices c, f n ≠ "") :
    phIndices c = [] := by
  induction c with
  | nil => simp [phIndices]
  | cons x rest ih =>
    rw [show chunksSubst f (x :: rest) = chunkSubstText f x ++ chunksSubst f rest from rfl] at hsub
    obtain ⟨hx, hrest⟩ := string_append_eq_empty hsub
    cases x with
    | txt s =>
      rw [show phIndices (Chunk.txt s :: rest) = phIndices rest from rfl]
      exact ih hrest (fun n hn => hf n (by rw [show phIndices (Chunk.txt s :: rest) = phIndices rest from rfl]; exact hn))
    | ph n =>
      exact absurd hx (hf n (by rw [show phIndices (Chunk.ph n :: rest) = n :: phIndices rest from rfl]; exact List.mem_cons_self n _))

theorem paramText_eq_subst_of_no_ph (o : RenderOpts) (f : Nat → String)
    (c : List Chunk) (h : phIndices c = []) :
    chunksParamText o c = chunksSubst f c := by
  induction c with
  | nil => rfl
  | cons x rest ih =>
    cases x with
    | txt s =>
      rw [show phIndices (Chunk.txt s :: rest) = phIndices rest from rfl] at h
      show s ++ chunksParamText o rest = s ++ chunksSubst f rest
      rw [ih h]
    | ph n =>
      rw [show phIndices (Chunk.ph n :: rest) = n :: phIndices rest from rfl] at h
      exact absurd h (by simp)

theorem param_empty_no_ph (o : RenderOpts) (c : List Chunk)
    (h : chunksParamText o c = "") : phIndices c = [] := by
  induction c with
  | nil => simp [phIndices]
  | cons x rest ih =>
    rw [show chunksParamText o (x :: rest) = chunkParamText o x ++ chunksParamText o rest from rfl] at h
    obtain ⟨hx, hrest⟩ := string_append_eq_empty h
    cases x with
    | txt s =>
      rw [show phIndices (Chunk.txt s :: rest) = phIndices rest from rfl]
      exact ih hrest
    | ph n =>
      exact absurd hx (renderPlaceholder_ne_empty o n)

theorem seg_lits_nil_of_no_ph {b : Nat} {t : String} {l : List Literal}
    {c : List Chunk} (h : SegOk b t l c) (hph : phIndices c = []) : l = [] := by
  have h2 := h.2
  rw [hph] at h2
  have : List.range' (b + 1) l.length = [] := by
    have := h2.symm
    rwa [show ((↑([] : List Nat)) : Multiset Nat) = 0 from rfl, Multiset.coe_eq_zero] at this
  rw [List.range'_eq_nil] at this
  exact List.length_eq_zero.1 this

theorem seg_empty_inline {st : PlaceHolderStyle} {b : Nat} {t : String}
    {l : List Literal} {c : List Chunk} (h : SegOk b t l c) (hok : LitsOk l)
    (ht : t = "") : l = [] ∧ chunksParamText ⟨true, st⟩ c = "" := by
  have hσ := canonSigma_agrees b l
  have hsub : chunksSubst (canonSigma b l) c = t := h.1 _ hσ
  have hf : ∀ n ∈ phIndices c, canonSigma b l n ≠ "" := by
    intro n hn
    have hnm : (n : Nat) ∈ (phIndices c : Multiset Nat) := Multiset.mem_coe.2 hn
    rw [h.2] at hnm
    have hnr := Multiset.mem_coe.1 hnm
    rw [List.mem_range'_1] at hnr
    have hk : n - (b + 1) < l.length := by omega
    unfold canonSigma
    rw [List.get?_eq_get hk]
    exact hok _ (List.get_mem l _ _)
  have hnoph := no_ph_of_subst_empty _ c (by rw [hsub, ht]) hf
  refine ⟨seg_lits_nil_of_no_ph h hnoph, ?_⟩
  rw [paramText_eq_subst_of_no_ph _ (canonSigma b l) c hnoph, hsub, ht]

theorem seg_empty_param {st : PlaceHolderStyle} {b : Nat} {t : String}
    {l : List Literal} {c : List Chunk} (h : SegOk b t l c)
    (hp : chunksParamText ⟨true, st⟩ c = "") : l = [] ∧ t = "" := by
  have hnoph := param_empty_no_ph ⟨true, st⟩ c hp
  refine ⟨seg_lits_nil_of_no_ph h hnoph, ?_⟩
  have hσ := canonSigma_agrees b l
  have hsub := h.1 _ hσ
  rw [← hsub, ← paramText_eq_subst_of_no_ph ⟨true, st⟩ (canonSigma b l) c hnoph, hp]

theorem intercalate_empty_struct (sep : String) (hsep : sep ≠ "")
    (ts : List String) (h : String.intercalate sep ts = "") :
    ts = [] ∨ ts = [""] := by
  cases ts with
  | nil => exact Or.inl rfl
  | cons t rest =>
    cases rest with
    | nil =>
      rw [string_intercalate_singleton] at h
      exact Or.inr (by rw [h])
    | cons t2 r2 =>
      rw [string_intercalate_cons_cons] at h
      have h1 := string_append_eq_empty h
      have h2 := string_append_eq_empty h1.1
      exact absurd h2.2 hsep

theorem renderLiteral_params (st : PlaceHolderStyle) (l : Literal) (qs0 : List Value) :
    renderLiteral ⟨true, st⟩ l qs0 =
      .ok (renderPlaceholder ⟨true, st⟩ (qs0.length + 1), qs0 ++ [l.jsVal]) := by
  simp [renderLiteral]

theorem renderLiteral_corr (st : PlaceHolderStyle) (l : Literal) (ps0 : List Value)
    (tI : String) (psI : List Value)
    (h : renderLiteral ⟨false, st⟩ l ps0 = .ok (tI, psI)) :
    psI = ps0 ∧ ∀ qs0, ∃ lits cs,
      renderLiteral ⟨true, st⟩ l qs0 =
        .ok (chunksParamText ⟨true, st⟩ cs, qs0 ++ lits.map Literal.jsVal) ∧
      (LitsOk lits → SegOk qs0.length tI lits cs) := by
  have step : ∀ qs0, ∃ lits cs,
      renderLiteral ⟨true, st⟩ l qs0 =
        .ok (chunksParamText ⟨true, st⟩ cs, qs0 ++ lits.map Literal.jsVal) ∧
      (LitsOk lits → SegOk qs0.length (inlineLitText l) lits cs) := by
    intro qs0
    refine ⟨[l], [.ph (qs0.length + 1)], ?_, fun _ => SegOk.lit qs0.length l⟩
    rw [renderLiteral_params]
    simp [chunksParamText, chunkParamText]
  cases l with
  | numLit v =>
    cases v with
    | int n =>
      simp only [renderLiteral, Bool.false_eq_true, if_false, Except.ok.injEq, Prod.mk.injEq] at h
      obtain ⟨ht, hps⟩ := h
      subst ht; subst hps
      exact ⟨rfl, step⟩
    | pre s =>
      simp only [renderLiteral, Bool.false_eq_true, if_false, Except.ok.injEq, Prod.mk.injEq] at h
      obtain ⟨ht, hps⟩ := h
      subst ht; subst hps
      exact ⟨rfl, step⟩
  | stringLit s =>
    simp only [renderLiteral, Bool.false_eq_true, if_false, Except.ok.injEq, Prod.mk.injEq] at h
    obtain ⟨ht, hps⟩ := h
    subst ht; subst hps
    exact ⟨rfl, step⟩
  | boolLit b =>
    simp only [renderLiteral, Bool.false_eq_true, if_false, Except.ok.injEq, Prod.mk.injEq] at h
    obtain ⟨ht, hps⟩ := h
    subst ht; subst hps
    exact ⟨rfl, step⟩
  | nullLit =>
    simp only [renderLiteral, Bool.false_eq_true, if_false, Except.ok.injEq, Prod.mk.injEq] at h
    obtain ⟨ht, hps⟩ := h
    subst ht; subst hps
    exact ⟨rfl, step⟩
  | dateLit d =>
    simp only [renderLiteral, Bool.false_eq_true, if_false, Except.ok.injEq, Prod.mk.injEq] at h
    obtain ⟨ht, hps⟩ := h
    subst ht; subst hps
    exact ⟨rfl, step⟩
  | customLit v =>
    simp only [renderLiteral, Bool.false_eq_true, if_false] at h
    exact absurd h (by simp)

theorem renderDefaultOption_corr (st : PlaceHolderStyle) (d : DefaultOption)
    (ps0 : List Value) (tI : String) (psI : List Value)
    (h : renderDefaultOption ⟨false, st⟩ d ps0 = .ok (tI, psI)) :
    psI = ps0 ∧ ∀ qs0, ∃ lits cs,
      renderDefaultOption ⟨true, st⟩ d qs0 =
        .ok (chunksParamText ⟨true, st⟩ cs, qs0 ++ lits.map Literal.jsVal) ∧
      (LitsOk lits → SegOk qs0.length tI lits cs) := by
  cases d with
  | lit l =>
    simp only [renderDefaultOption, bind_ok_iff] at h
    obtain ⟨⟨val, ps1⟩, hL, hrest⟩ := h
    simp only [Except.ok.injEq, Prod.mk.injEq] at hrest
    obtain ⟨ht, hps⟩ := hrest
    subst ht
    obtain ⟨hps1, hcor⟩ := renderLiteral_corr st l ps0 val ps1 hL
    refine ⟨by rw [← hps, hps1], fun qs0 => ?_⟩
    obtain ⟨lits, cs, hP, hSeg⟩ := hcor qs0
    refine ⟨lits, .txt "DEFAULT " :: cs, ?_, fun hok => (hSeg hok).prefixTxt "DEFAULT "⟩
    simp only [renderDefaultOption, hP, except_ok_bind]
    simp [chunksParamText, chunkParamText]
  | currentDateDefault =>
    simp only [renderDefaultOption, except_ok_bind, Except.ok.injEq, Prod.mk.injEq] at h
    obtain ⟨ht, hps⟩ := h
    subst ht; subst hps
    refine ⟨rfl, fun qs0 => ⟨[], [.txt _], ?_, fun _ => SegOk.txt _ _⟩⟩
    simp [renderDefaultOption, chunksParamText, chunkParamText]
  | currentTime precision =>
    cases precision with
    | none =>
      simp only [renderDefaultOption, except_ok_bind, Except.ok.injEq, Prod.mk.injEq] at h
      obtain ⟨ht, hps⟩ := h
      subst ht; subst hps
      refine ⟨rfl, fun qs0 => ⟨[], [.txt _], ?_, fun _ => SegOk.txt _ _⟩⟩
      simp [renderDefaultOption, chunksParamText, chunkParamText]
    | some p =>
      simp only [renderDefaultOption, bind_ok_iff] at h
      obtain ⟨⟨val, ps2⟩, ⟨⟨s1, ps1⟩, hL, hinner⟩, houter⟩ := h
      simp only [Except.ok.injEq, Prod.mk.injEq] at hinner houter
      obtain ⟨hval, hps2⟩ := hinner
      obtain ⟨ht, hps⟩ := houter
      subst hval; subst ht
      obtain ⟨hps1, hcor⟩ := renderLiteral_corr st p ps0 s1 ps1 hL
      refine ⟨by rw [← hps, ← hps2, hps1], fun qs0 => ?_⟩
      obtain ⟨lits, cs, hP, hSeg⟩ := hcor qs0
      refine ⟨lits, .txt "DEFAULT " :: .txt "CURRENT_TIME" :: .txt " (" :: (cs ++ [.txt ")"]), ?_, ?_⟩
      · simp only [renderDefaultOption, hP, except_ok_bind, except_pure_eq,
          chunksParamText, chunkParamText, chunksParamText_append, Except.ok.injEq,
          Prod.mk.injEq, String.append_assoc, String.append_empty, List.map_nil,
          List.append_nil, and_self]
      · intro hok
        have := ((((hSeg hok).suffixTxt ")").prefixTxt " (").prefixTxt "CURRENT_TIME").prefixTxt "DEFAULT "
        exact this.ofEq (by simp only [String.append_assoc])
  | currentTimeStamp precision =>
    cases precision with
    | none =>
      simp only [renderDefaultOption, except_ok_bind, Except.ok.injEq, Prod.mk.injEq] at h
      obtain ⟨ht, hps⟩ := h
      subst ht; subst hps
      refine ⟨rfl, fun qs0 => ⟨[], [.txt _], ?_, fun _ => SegOk.txt _ _⟩⟩
      simp [renderDefaultOption, chunksParamText, chunkParamText]
    | some p =>
      simp only [renderDefaultOption, bind_ok_iff] at h
      obtain ⟨⟨val, ps2⟩, ⟨⟨s1, ps1⟩, hL, hinner⟩, houter⟩ := h
      simp only [Except.ok.injEq, Prod.mk.injEq] at hinner houter
      obtain ⟨hval, hps2⟩ := hinner
      obtain ⟨ht, hps⟩ := houter
      subst hval; subst ht
      obtain ⟨hps1, hcor⟩ := renderLiteral_corr st p ps0 s1 ps1 hL
      refine ⟨by rw [← hps, ← hps2, hps1], fun qs0 => ?_⟩
      obtain ⟨lits, cs, hP, hSeg⟩ := hcor qs0
      refine ⟨lits, .txt "DEFAULT " :: .txt "CURRENT_TIMESTAMP" :: .txt " (" :: (cs ++ [.txt ")"]), ?_, ?_⟩
      · simp only [renderDefaultOption, hP, except_ok_bind, except_pure_eq,
          chunksParamText, chunkParamText, chunksParamText_append, Except.ok.injEq,
          Prod.mk.injEq, String.append_assoc, String.append_empty, List.map_nil,
          List.append_nil, and_self]
      · intro hok
        have := ((((hSeg hok).suffixTxt ")").prefixTxt " (").prefixTxt "CURRENT_TIMESTAMP").prefixTxt "DEFAULT "
        exact this.ofEq (by simp only [String.append_assoc])
  | userDefault =>
    simp only [renderDefaultOption, except_ok_bind, Except.ok.injEq, Prod.mk.injEq] at h
    obtain ⟨ht, hps⟩ := h
    subst ht; subst hps
    refine ⟨rfl, fun qs0 => ⟨[], [.txt _], ?_, fun _ => SegOk.txt _ _⟩⟩
    simp [renderDefaultOption, chunksParamText, chunkParamText]
  | currentUserDefault =>
    simp only [renderDefaultOption, except_ok_bind, Except.ok.injEq, Prod.mk.injEq] at h
    obtain ⟨ht, hps⟩ := h
    subst ht; subst hps
    refine ⟨rfl, fun qs0 => ⟨[], [.txt _], ?_, fun _ => SegOk.txt _ _⟩⟩
    simp [renderDefaultOption, chunksParamText, chunkParamText]
  | sessionUserDefault =>
    simp only [renderDefaultOption, except_ok_bind, Except.ok.injEq, Prod.mk.injEq] at h
    obtain ⟨ht, hps⟩ := h
    subst ht; subst hps
    refine ⟨rfl, fun qs0 => ⟨[], [.txt _], ?_, fun _ => SegOk.txt _ _⟩⟩
    simp [renderDefaultOption, chunksParamText, chunkParamText]
  | systemUserDefault =>
    simp only [renderDefaultOption, except_ok_bind, Except.ok.injEq, Prod.mk.injEq] at h
    obtain ⟨ht, hps⟩ := h
    subst ht; subst hps
    refine ⟨rfl, fun qs0 => ⟨[], [.txt _], ?_, fun _ => SegOk.txt _ _⟩⟩
    simp [renderDefaultOption, chunksParamText, chunkParamText]
  | nullDefault =>
    simp only [renderDefaultOption, except_ok_bind, Except.ok.injEq, Prod.mk.injEq] at h
    obtain ⟨ht, hps⟩ := h
    subst ht; subst hps
    refine ⟨rfl, fun qs0 => ⟨[], [.txt _], ?_, fun _ => SegOk.txt _ _⟩⟩
    simp [renderDefaultOption, chunksParamText, chunkParamText]

theorem corrAll_zero : CorrAll 0 := by
  constructor <;>
    (intro st x ps0 t psI h ;
     simp only [renderExpr, renderExprList, renderCaseArm, renderCaseArms, renderTable,
       renderJoin, renderJoins, renderSelection, renderSelections, renderWherePart,
       renderGroupByPart, renderHavingPart, renderFromPart, renderSelect, renderCte,
       renderCtes, renderQueryCtesPart, renderLimitPart, renderOffsetPart, renderOrdering,
       renderOrderingList, renderOrderingPart, renderUnion, renderUnions, renderUnionsPart,
       renderQuery, renderInsertCells, renderInsertRow, renderInsertRows, renderInsert,
       renderAssignment, renderAssignments, renderUpdate, renderUpdatePositioned,
       renderDelete, renderCheckConstraint, renderColumnConstraintDef,
       renderColumnConstraintDefs, renderColumnDefinition, renderColumnDefinitions,
       renderTableConstraint, renderTableConstraints, renderTableDefinition,
       renderViewDefinition, renderDomainDefinition, renderAssertionDefinition] at h ;
     exact Except.noConfusion h)

theorem plist_step {α : Type}
    (f : Nat → RenderOpts → α → List Value → Except String (String × List Value))
    (g : Nat → RenderOpts → List α → List Value → Except String (List String × List Value))
    (fuel : Nat)
    (hnil : ∀ o ps, g (fuel+1) o [] ps = .ok ([], ps))
    (hcons : ∀ o x rest ps, g (fuel+1) o (x :: rest) ps =
      (f fuel o x ps) >>= fun v => (g fuel o rest v.2) >>= fun w => .ok (v.1 :: w.1, w.2))
    (hf : PStr f fuel) (hg : PList g fuel) : PList g (fuel+1) := by
  intro st x ps0 tIs psI h
  cases x with
  | nil =>
    rw [hnil] at h
    simp only [Except.ok.injEq, Prod.mk.injEq] at h
    obtain ⟨hts, hps⟩ := h
    subst hts; subst hps
    refine ⟨rfl, fun qs0 => ⟨[], [], ?_, fun _ => ListSeg.nil _⟩⟩
    rw [hnil]
    simp
  | cons e rest =>
    rw [hcons] at h
    rw [bind_ok_iff] at h
    obtain ⟨⟨s, ps1⟩, hE, h⟩ := h
    rw [bind_ok_iff] at h
    obtain ⟨⟨restL, ps2⟩, hR, h⟩ := h
    simp only [Except.ok.injEq, Prod.mk.injEq] at h
    obtain ⟨hts, hps⟩ := h
    subst hts
    obtain ⟨hps1, hcorE⟩ := hf st e ps0 s ps1 hE
    rw [hps1] at hR
    obtain ⟨hps2, hcorR⟩ := hg st rest ps0 restL ps2 hR
    refine ⟨by rw [← hps, hps2], fun qs0 => ?_⟩
    obtain ⟨lits1, cs1, hP1, hSeg1⟩ := hcorE qs0
    obtain ⟨lits2, css2, hP2, hLSeg2⟩ := hcorR (qs0 ++ lits1.map Literal.jsVal)
    refine ⟨lits1 ++ lits2, cs1 :: css2, ?_, ?_⟩
    · rw [hcons, hP1, except_ok_bind]
      dsimp only
      rw [hP2, except_ok_bind]
      simp [List.map_append, List.append_assoc]
    · intro hok
      have hb : (qs0 ++ lits1.map Literal.jsVal).length = qs0.length + lits1.length := by
        simp
      rw [hb] at hLSeg2
      exact ListSeg.cons (hSeg1 hok.left) (hLSeg2 hok.right)

theorem popt_step
    (g : Nat → RenderOpts → Option Expr → List Value → Except String (String × List Value))
    (fuel : Nat) (pre : String)
    (hnone : ∀ o ps, g (fuel+1) o none ps = .ok ("", ps))
    (hsome : ∀ o e ps, g (fuel+1) o (some e) ps =
      (renderExpr fuel o e ps) >>= fun v => .ok (pre ++ v.1, v.2))
    (hf : PStr renderExpr fuel) : PStr g (fuel+1) := by
  intro st x ps0 tI psI h
  cases x with
  | none =>
    rw [hnone] at h
    simp only [Except.ok.injEq, Prod.mk.injEq] at h
    obtain ⟨ht, hps⟩ := h
    subst ht; subst hps
    refine ⟨rfl, fun qs0 => ⟨[], [], ?_, fun _ => SegOk.empty _⟩⟩
    rw [hnone]
    simp [chunksParamText]
  | some e =>
    rw [hsome] at h
    rw [bind_ok_iff] at h
    obtain ⟨⟨s, ps1⟩, hE, h⟩ := h
    simp only [Except.ok.injEq, Prod.mk.injEq] at h
    obtain ⟨ht, hps⟩ := h
    subst ht
    obtain ⟨hps1, hcorE⟩ := hf st e ps0 s ps1 hE
    refine ⟨by rw [← hps, hps1], fun qs0 => ?_⟩
    obtain ⟨lits, cs, hP, hSeg⟩ := hcorE qs0
    refine ⟨lits, .txt pre :: cs, ?_, fun hok => (hSeg hok).prefixTxt pre⟩
    rw [hsome, hP, except_ok_bind]
    simp [chunksParamText, chunkParamText]

theorem map_eq_singleton {α β : Type} {f : α → β} {l : List α} {b : β}
    (h : l.map f = [b]) : ∃ a, l = [a] ∧ f a = b := by
  cases l with
  | nil => simp at h
  | cons a rest =>
    cases rest with
    | nil =>
      simp only [List.map_cons, List.map_nil, List.cons.injEq, and_true] at h
      exact ⟨a, rfl, h⟩
    | cons c r2 => simp at h

theorem listSeg_intercalate_empty_param {st : PlaceHolderStyle} {b : Nat}
    {ts : List String} {lits : List Literal} {css : List (List Chunk)}
    (sep : String) (hsep : sep ≠ "") (hls : ListSeg b ts lits css)
    (hP : String.intercalate sep (css.map (chunksParamText ⟨true, st⟩)) = "") :
    lits = [] ∧ String.intercalate sep ts = "" := by
  rcases intercalate_empty_struct sep hsep _ hP with hcss | hcss
  · have hnil : css = [] := List.map_eq_nil.mp hcss
    subst hnil
    cases hls
    exact ⟨rfl, rfl⟩
  · obtain ⟨c, hcss', hc⟩ := map_eq_singleton hcss
    subst hcss'
    cases hls with
    | cons hseg htail =>
      cases htail
      obtain ⟨hl, ht⟩ := seg_empty_param hseg hc
      subst hl
      subst ht
      exact ⟨rfl, by rw [string_intercalate_singleton]⟩

theorem listSeg_intercalate_empty_inline {st : PlaceHolderStyle} {b : Nat}
    {ts : List String} {lits : List Literal} {css : List (List Chunk)}
    (sep : String) (hsep : sep ≠ "") (hls : ListSeg b ts lits css)
    (hok : LitsOk lits) (hI : String.intercalate sep ts = "") :
    lits = [] ∧ String.intercalate sep (css.map (chunksParamText ⟨true, st⟩)) = "" := by
  rcases intercalate_empty_struct sep hsep _ hI with hts | hts
  · subst hts
    cases hls
    exact ⟨rfl, rfl⟩
  · subst hts
    cases hls with
    | cons hseg htail =>
      cases htail
      obtain ⟨hl, hc⟩ := @seg_empty_inline st _ _ _ _ hseg (by simpa using hok) rfl
      subst hl
      refine ⟨rfl, ?_⟩
      simp only [List.map_cons, List.map_nil]
      rw [string_intercalate_singleton, hc]

set_option maxHeartbeats 1000000 in
theorem pexpr_step (fuel : Nat) (ih : CorrAll fuel) : PStr renderExpr (fuel+1) := by
  intro st x ps0 tI psI h
  cases x with
  | ident i =>
    simp only [renderExpr, Except.ok.injEq, Prod.mk.injEq] at h
    obtain ⟨ht, hps⟩ := h
    subst ht; subst hps
    refine ⟨rfl, fun qs0 => ⟨[], [.txt _], ?_, fun _ => SegOk.txt _ _⟩⟩
    simp [renderExpr, chunksParamText, chunkParamText]
  | wildcard =>
    simp only [renderExpr, Except.ok.injEq, Prod.mk.injEq] at h
    obtain ⟨ht, hps⟩ := h
    subst ht; subst hps
    refine ⟨rfl, fun qs0 => ⟨[], [.txt _], ?_, fun _ => SegOk.txt _ _⟩⟩
    simp [renderExpr, chunksParamText, chunkParamText]
  | compoundIdentifier idChain =>
    simp only [renderExpr, bind_ok_iff] at h
    obtain ⟨⟨parts, ps1⟩, hL, h⟩ := h
    simp only [Except.ok.injEq, Prod.mk.injEq] at h
    obtain ⟨ht, hps⟩ := h
    subst ht
    obtain ⟨hps1, hcor⟩ := ih.exprList st idChain ps0 parts ps1 hL
    refine ⟨by rw [← hps, hps1], fun qs0 => ?_⟩
    obtain ⟨lits, css, hP, hLS⟩ := hcor qs0
    refine ⟨lits, chunksIntercalate "." css, ?_, fun hok => (hLS hok).intercalate "."⟩
    simp only [renderExpr, hP, except_ok_bind]
    rw [chunksParamText_intercalate]
  | qualifiedWildcard qualifiers =>
    simp only [renderExpr, bind_ok_iff] at h
    obtain ⟨⟨parts, ps1⟩, hL, h⟩ := h
    simp only [Except.ok.injEq, Prod.mk.injEq] at h
    obtain ⟨ht, hps⟩ := h
    subst ht
    obtain ⟨hps1, hcor⟩ := ih.exprList st qualifiers ps0 parts ps1 hL
    refine ⟨by rw [← hps, hps1], fun qs0 => ?_⟩
    obtain ⟨lits, css, hP, hLS⟩ := hcor qs0
    by_cases hqP : String.intercalate "." (css.map (chunksParamText ⟨true, st⟩)) = ""
    · refine ⟨lits, [.txt "*"], ?_, ?_⟩
      · simp only [renderExpr, hP, except_ok_bind]
        rw [if_pos hqP]
        simp [chunksParamText, chunkParamText]
      · intro hok
        obtain ⟨hlits, hqI⟩ :=
          @listSeg_intercalate_empty_param st _ _ _ _ "." (by decide) (hLS hok) hqP
        rw [if_pos hqI]
        subst hlits
        exact SegOk.txt _ _
    · refine ⟨lits, chunksIntercalate "." css ++ [.txt ".*"], ?_, ?_⟩
      · simp only [renderExpr, hP, except_ok_bind]
        rw [if_neg hqP, chunksParamText_append, chunksParamText_intercalate]
        simp [chunksParamText, chunkParamText]
      · intro hok
        have hqI : ¬ String.intercalate "." parts = "" := by
          intro hqI
          obtain ⟨_, hqP'⟩ :=
            @listSeg_intercalate_empty_inline st _ _ _ _ "." (by decide) (hLS hok) hok hqI
          exact hqP hqP'
        rw [if_neg hqI]
        exact ((hLS hok).intercalate ".").suffixTxt ".*"
  | between expr negated low high =>
    simp only [renderExpr, bind_ok_iff] at h
    obtain ⟨⟨a, ps1⟩, hA, h⟩ := h
    obtain ⟨⟨b1, ps2⟩, hB, h⟩ := h
    obtain ⟨⟨c, ps3⟩, hC, h⟩ := h
    simp only [Except.ok.injEq, Prod.mk.injEq] at h
    obtain ⟨ht, hps⟩ := h
    subst ht
    obtain ⟨hps1, hcorA⟩ := ih.expr st expr ps0 a ps1 hA
    rw [hps1] at hB
    obtain ⟨hps2, hcorB⟩ := ih.expr st low ps0 b1 ps2 hB
    rw [hps2] at hC
    obtain ⟨hps3, hcorC⟩ := ih.expr st high ps0 c ps3 hC
    refine ⟨by rw [← hps, hps3], fun qs0 => ?_⟩
    obtain ⟨lits1, cs1, hP1, hSeg1⟩ := hcorA qs0
    obtain ⟨lits2, cs2, hP2, hSeg2⟩ := hcorB (qs0 ++ lits1.map Literal.jsVal)
    obtain ⟨lits3, cs3, hP3, hSeg3⟩ :=
      hcorC (qs0 ++ (lits1.map Literal.jsVal ++ lits2.map Literal.jsVal))
    refine ⟨lits1 ++ (lits2 ++ lits3),
      cs1 ++ (.txt ((if negated then " NOT" else "") ++ " BETWEEN ") :: (cs2 ++ (.txt " AND " :: cs3))), ?_, ?_⟩
    · simp only [renderExpr, hP1, hP2, hP3, except_ok_bind,
        chunksParamText_append, chunksParamText, chunkParamText,
        List.map_append, List.append_assoc, Except.ok.injEq, Prod.mk.injEq,
        String.append_assoc, String.append_empty, String.empty_append, and_self]
    · intro hok
      have h1 := hSeg1 hok.left
      have h2 := hSeg2 hok.right.left
      have h3 := hSeg3 hok.right.right
      simp only [List.length_append, List.length_map] at h2 h3
      rw [← Nat.add_assoc] at h3
      have hseg := SegOk.append h1
        ((SegOk.append h2 ((h3).prefixTxt " AND ")).prefixTxt
          ((if negated then " NOT" else "") ++ " BETWEEN "))
      exact hseg.ofEq (by simp only [String.append_assoc])
  | binaryApp op left right =>
    simp only [renderExpr, bind_ok_iff] at h
    obtain ⟨⟨l, ps1⟩, hL, h⟩ := h
    obtain ⟨⟨r, ps2⟩, hR, h⟩ := h
    simp only [Except.ok.injEq, Prod.mk.injEq] at h
    obtain ⟨ht, hps⟩ := h
    subst ht
    obtain ⟨hps1, hcorL⟩ := ih.expr st left ps0 l ps1 hL
    rw [hps1] at hR
    obtain ⟨hps2, hcorR⟩ := ih.expr st right ps0 r ps2 hR
    refine ⟨by rw [← hps, hps2], fun qs0 => ?_⟩
    obtain ⟨lits1, cs1, hP1, hSeg1⟩ := hcorL qs0
    obtain ⟨lits2, cs2, hP2, hSeg2⟩ := hcorR (qs0 ++ lits1.map Literal.jsVal)
    refine ⟨lits1 ++ lits2, cs1 ++ (.txt (" " ++ op ++ " ") :: cs2), ?_, ?_⟩
    · simp only [renderExpr, hP1, hP2, except_ok_bind,
        chunksParamText_append, chunksParamText, chunkParamText,
        List.map_append, List.append_assoc, Except.ok.injEq, Prod.mk.injEq,
        String.append_assoc, String.append_empty, String.empty_append, and_self]
    · intro hok
      have h1 := hSeg1 hok.left
      have h2 := hSeg2 hok.right
      simp only [List.length_append, List.length_map] at h2
      have hseg := SegOk.append h1 ((h2).prefixTxt (" " ++ op ++ " "))
      exact hseg.ofEq (by simp only [String.append_assoc])
  | lit literal =>
    have := renderLiteral_corr st literal ps0 tI psI (by
      simpa only [renderExpr] using h)
    obtain ⟨hps, hcor⟩ := this
    refine ⟨hps, fun qs0 => ?_⟩
    obtain ⟨lits, cs, hP, hSeg⟩ := hcor qs0
    exact ⟨lits, cs, by simpa only [renderExpr] using hP, hSeg⟩
  | exprExtension v =>
    simp only [renderExpr] at h
    exact Except.noConfusion h
  | cast expr dt =>
    simp only [renderExpr, bind_ok_iff] at h
    obtain ⟨⟨a, ps1⟩, hA, h⟩ := h
    obtain ⟨⟨b1, ps2⟩, hB, h⟩ := h
    exact absurd hB (by simp [renderDataType])
  | parenthesized expr =>
    simp only [renderExpr, bind_ok_iff] at h
    obtain ⟨⟨a, ps1⟩, hA, h⟩ := h
    simp only [Except.ok.injEq, Prod.mk.injEq] at h
    obtain ⟨ht, hps⟩ := h
    subst ht
    obtain ⟨hps1, hcorA⟩ := ih.expr st expr ps0 a ps1 hA
    refine ⟨by rw [← hps, hps1], fun qs0 => ?_⟩
    obtain ⟨lits, cs, hP, hSeg⟩ := hcorA qs0
    refine ⟨lits, .txt "(" :: (cs ++ [.txt ")"]), ?_, ?_⟩
    · simp only [renderExpr, hP, except_ok_bind]
      simp only [chunksParamText_append, chunksParamText, chunkParamText,
        Except.ok.injEq, Prod.mk.injEq, String.append_assoc, String.append_empty,
        and_self]
    · intro hok
      exact (((hSeg hok).suffixTxt ")").prefixTxt "(").ofEq (by simp only [String.append_assoc])
  | unaryApp op expr =>
    simp only [renderExpr, bind_ok_iff] at h
    obtain ⟨⟨a, ps1⟩, hA, h⟩ := h
    simp only [Except.ok.injEq, Prod.mk.injEq] at h
    obtain ⟨ht, hps⟩ := h
    subst ht
    obtain ⟨hps1, hcorA⟩ := ih.expr st expr ps0 a ps1 hA
    refine ⟨by rw [← hps, hps1], fun qs0 => ?_⟩
    obtain ⟨lits, cs, hP, hSeg⟩ := hcorA qs0
    refine ⟨lits, .txt op :: cs, ?_, fun hok => (hSeg hok).prefixTxt op⟩
    simp only [renderExpr, hP, except_ok_bind]
    simp only [chunksParamText, chunkParamText, Except.ok.injEq, Prod.mk.injEq,
      and_self]
  | collate expr collation =>
    simp only [renderExpr, bind_ok_iff] at h
    obtain ⟨⟨a, ps1⟩, hA, h⟩ := h
    obtain ⟨⟨b1, ps2⟩, hB, h⟩ := h
    simp only [Except.ok.injEq, Prod.mk.injEq] at h
    obtain ⟨ht, hps⟩ := h
    subst ht
    obtain ⟨hps1, hcorA⟩ := ih.expr st expr ps0 a ps1 hA
    rw [hps1] at hB
    obtain ⟨hps2, hcorB⟩ := ih.expr st collation ps0 b1 ps2 hB
    refine ⟨by rw [← hps, hps2], fun qs0 => ?_⟩
    obtain ⟨lits1, cs1, hP1, hSeg1⟩ := hcorA qs0
    obtain ⟨lits2, cs2, hP2, hSeg2⟩ := hcorB (qs0 ++ lits1.map Literal.jsVal)
    refine ⟨lits1 ++ lits2, cs1 ++ (.txt " COLLATE " :: cs2), ?_, ?_⟩
    · simp only [renderExpr, hP1, hP2, except_ok_bind,
        chunksParamText_append, chunksParamText, chunkParamText,
        List.map_append, List.append_assoc, Except.ok.injEq, Prod.mk.injEq,
        String.append_assoc, String.append_empty, String.empty_append, and_self]
    · intro hok
      have h2 := hSeg2 hok.right
      simp only [List.length_append, List.length_map] at h2
      exact (SegOk.append (hSeg1 hok.left) ((h2).prefixTxt " COLLATE ")).ofEq
        (by simp only [String.append_assoc])
  | existsExpr subQuery =>
    simp only [renderExpr, bind_ok_iff] at h
    obtain ⟨⟨a, ps1⟩, hA, h⟩ := h
    simp only [Except.ok.injEq, Prod.mk.injEq] at h
    obtain ⟨ht, hps⟩ := h
    subst ht
    obtain ⟨hps1, hcorA⟩ := ih.query st subQuery ps0 a ps1 hA
    refine ⟨by rw [← hps, hps1], fun qs0 => ?_⟩
    obtain ⟨lits, cs, hP, hSeg⟩ := hcorA qs0
    refine ⟨lits, .txt "EXISTS(" :: (cs ++ [.txt ")"]), ?_, ?_⟩
    · simp only [renderExpr, hP, except_ok_bind, chunksParamText_append,
        chunksParamText, chunkParamText, Except.ok.injEq, Prod.mk.injEq,
        String.append_assoc, String.append_empty, String.empty_append, and_self]
    · intro hok
      exact (((hSeg hok).suffixTxt ")").prefixTxt "EXISTS(").ofEq
        (by simp only [String.append_assoc])
  | extractExpr field source =>
    simp only [renderExpr, bind_ok_iff] at h
    obtain ⟨⟨a, ps1⟩, hA, h⟩ := h
    simp only [Except.ok.injEq, Prod.mk.injEq] at h
    obtain ⟨ht, hps⟩ := h
    subst ht
    obtain ⟨hps1, hcorA⟩ := ih.expr st source ps0 a ps1 hA
    refine ⟨by rw [← hps, hps1], fun qs0 => ?_⟩
    obtain ⟨lits, cs, hP, hSeg⟩ := hcorA qs0
    refine ⟨lits, .txt ("EXTRACT(" ++ field ++ " FROM ") :: (cs ++ [.txt ")"]), ?_, ?_⟩
    · simp only [renderExpr, hP, except_ok_bind, chunksParamText_append,
        chunksParamText, chunkParamText, Except.ok.injEq, Prod.mk.injEq,
        String.append_assoc, String.append_empty, String.empty_append, and_self]
    · intro hok
      exact (((hSeg hok).suffixTxt ")").prefixTxt ("EXTRACT(" ++ field ++ " FROM ")).ofEq
        (by simp only [String.append_assoc])
  | subQueryExpr query =>
    simp only [renderExpr, bind_ok_iff] at h
    obtain ⟨⟨a, ps1⟩, hA, h⟩ := h
    simp only [Except.ok.injEq, Prod.mk.injEq] at h
    obtain ⟨ht, hps⟩ := h
    subst ht
    obtain ⟨hps1, hcorA⟩ := ih.query st query ps0 a ps1 hA
    refine ⟨by rw [← hps, hps1], fun qs0 => ?_⟩
    obtain ⟨lits, cs, hP, hSeg⟩ := hcorA qs0
    refine ⟨lits, .txt "(" :: (cs ++ [.txt ")"]), ?_, ?_⟩
    · simp only [renderExpr, hP, except_ok_bind, chunksParamText_append,
        chunksParamText, chunkParamText, Except.ok.injEq, Prod.mk.injEq,
        String.append_assoc, String.append_empty, String.empty_append, and_self]
    · intro hok
      exact (((hSeg hok).suffixTxt ")").prefixTxt "(").ofEq
        (by simp only [String.append_assoc])
  | isNullExpr expr negated =>
    simp only [renderExpr, bind_ok_iff] at h
    obtain ⟨⟨a, ps1⟩, hA, h⟩ := h
    simp only [Except.ok.injEq, Prod.mk.injEq] at h
    obtain ⟨ht, hps⟩ := h
    subst ht
    obtain ⟨hps1, hcorA⟩ := ih.expr st expr ps0 a ps1 hA
    refine ⟨by rw [← hps, hps1], fun qs0 => ?_⟩
    obtain ⟨lits, cs, hP, hSeg⟩ := hcorA qs0
    refine ⟨lits, cs ++ [.txt (" IS" ++ (if negated then " NOT" else "") ++ " NULL")], ?_, ?_⟩
    · simp only [renderExpr, hP, except_ok_bind, chunksParamText_append,
        chunksParamText, chunkParamText, Except.ok.injEq, Prod.mk.injEq,
        String.append_assoc, String.append_empty, String.empty_append, and_self]
    · intro hok
      exact ((hSeg hok).suffixTxt (" IS" ++ (if negated then " NOT" else "") ++ " NULL")).ofEq
        (by simp only [String.append_assoc])
  | functionApp name args =>
    simp only [renderExpr, bind_ok_iff] at h
    obtain ⟨⟨argL, ps1⟩, hA, h⟩ := h
    obtain ⟨⟨nm, ps2⟩, hN, h⟩ := h
    simp only [Except.ok.injEq, Prod.mk.injEq] at h
    obtain ⟨ht, hps⟩ := h
    subst ht
    obtain ⟨hps1, hcorA⟩ := ih.exprList st args ps0 argL ps1 hA
    rw [hps1] at hN
    obtain ⟨hps2, hcorN⟩ := ih.expr st name ps0 nm ps2 hN
    refine ⟨by rw [← hps, hps2], fun qs0 => ?_⟩
    obtain ⟨lits1, css1, hP1, hLS1⟩ := hcorA qs0
    obtain ⟨lits2, cs2, hP2, hSeg2⟩ := hcorN (qs0 ++ lits1.map Literal.jsVal)
    refine ⟨lits1 ++ lits2,
      cs2 ++ (.txt "(" :: (chunksIntercalate ", " css1 ++ [.txt ")"])), ?_, ?_⟩
    · simp only [renderExpr, hP1, hP2, except_ok_bind, chunksParamText_append,
        chunksParamText, chunkParamText, chunksParamText_intercalate,
        List.map_append, List.append_assoc, Except.ok.injEq, Prod.mk.injEq,
        String.append_assoc, String.append_empty, String.empty_append, and_self]
    · intro hok
      have h2 := hSeg2 hok.right
      simp only [List.length_append, List.length_map] at h2
      have inner := (((hLS1 hok.left).intercalate ", ").suffixTxt ")").prefixTxt "("
      exact (SegOk.swap inner h2).ofEq (by simp only [String.append_assoc])
  | inList expr list negated =>
    simp only [renderExpr, bind_ok_iff] at h
    obtain ⟨⟨listL, ps1⟩, hA, h⟩ := h
    obtain ⟨⟨es, ps2⟩, hE, h⟩ := h
    simp only [Except.ok.injEq, Prod.mk.injEq] at h
    obtain ⟨ht, hps⟩ := h
    subst ht
    obtain ⟨hps1, hcorA⟩ := ih.exprList st list ps0 listL ps1 hA
    rw [hps1] at hE
    obtain ⟨hps2, hcorE⟩ := ih.expr st expr ps0 es ps2 hE
    refine ⟨by rw [← hps, hps2], fun qs0 => ?_⟩
    obtain ⟨lits1, css1, hP1, hLS1⟩ := hcorA qs0
    obtain ⟨lits2, cs2, hP2, hSeg2⟩ := hcorE (qs0 ++ lits1.map Literal.jsVal)
    refine ⟨lits1 ++ lits2,
      cs2 ++ (.txt ((if negated then " NOT" else "") ++ " IN (") ::
        (chunksIntercalate ", " css1 ++ [.txt ")"])), ?_, ?_⟩
    · simp only [renderExpr, hP1, hP2, except_ok_bind, chunksParamText_append,
        chunksParamText, chunkParamText, chunksParamText_intercalate,
        List.map_append, List.append_assoc, Except.ok.injEq, Prod.mk.injEq,
        String.append_assoc, String.append_empty, String.empty_append, and_self]
    · intro hok
      have h2 := hSeg2 hok.right
      simp only [List.length_append, List.length_map] at h2
      have inner := (((hLS1 hok.left).intercalate ", ").suffixTxt ")").prefixTxt
        ((if negated then " NOT" else "") ++ " IN (")
      exact (SegOk.swap inner h2).ofEq (by simp only [String.append_assoc])
  | inSubQuery expr subQuery negated =>
    simp only [renderExpr, bind_ok_iff] at h
    obtain ⟨⟨sub, ps1⟩, hA, h⟩ := h
    obtain ⟨⟨es, ps2⟩, hE, h⟩ := h
    simp only [Except.ok.injEq, Prod.mk.injEq] at h
    obtain ⟨ht, hps⟩ := h
    subst ht
    obtain ⟨hps1, hcorA⟩ := ih.query st subQuery ps0 sub ps1 hA
    rw [hps1] at hE
    obtain ⟨hps2, hcorE⟩ := ih.expr st expr ps0 es ps2 hE
    refine ⟨by rw [← hps, hps2], fun qs0 => ?_⟩
    obtain ⟨lits1, cs1, hP1, hSeg1⟩ := hcorA qs0
    obtain ⟨lits2, cs2, hP2, hSeg2⟩ := hcorE (qs0 ++ lits1.map Literal.jsVal)
    refine ⟨lits1 ++ lits2,
      cs2 ++ (.txt ((if negated then " NOT" else "") ++ " IN (") ::
        (cs1 ++ [.txt ")"])), ?_, ?_⟩
    · simp only [renderExpr, hP1, hP2, except_ok_bind, chunksParamText_append,
        chunksParamText, chunkParamText,
        List.map_append, List.append_assoc, Except.ok.injEq, Prod.mk.injEq,
        String.append_assoc, String.append_empty, String.empty_append, and_self]
    · intro hok
      have h2 := hSeg2 hok.right
      simp only [List.length_append, List.length_map] at h2
      have inner := (((hSeg1 hok.left).suffixTxt ")")).prefixTxt
        ((if negated then " NOT" else "") ++ " IN (")
      exact (SegOk.swap inner h2).ofEq (by simp only [String.append_assoc])
  | caseExpr operand cases_ elseCase =>
    cases operand with
    | none =>
      cases elseCase with
      | none =>
        simp only [renderExpr, except_ok_bind, bind_ok_iff] at h
        obtain ⟨⟨caseL, ps1⟩, hC, h⟩ := h
        simp only [Except.ok.injEq, Prod.mk.injEq] at h
        obtain ⟨ht, hps⟩ := h
        subst ht
        obtain ⟨hps1, hcorC⟩ := ih.caseArms st cases_ ps0 caseL ps1 hC
        refine ⟨by rw [← hps, hps1], fun qs0 => ?_⟩
        obtain ⟨lits, css, hP, hLS⟩ := hcorC qs0
        refine ⟨lits, .txt "CASE" :: .txt " " ::
          (chunksIntercalate " " css ++ [.txt " ", .txt "END"]), ?_, ?_⟩
        · simp only [renderExpr, hP, except_ok_bind, except_pure_eq,
            chunksParamText_append, chunksParamText, chunkParamText,
            chunksParamText_intercalate, Except.ok.injEq, Prod.mk.injEq,
            String.append_assoc, String.append_empty, String.empty_append, and_self]
        · intro hok
          have full := ((((hLS hok).intercalate " ").suffixTxt " ").suffixTxt "END").prefixTxt " " |>.prefixTxt "CASE"
          refine SegOk.ofChunksEq (SegOk.ofEq full ?_) ?_
          · simp only [String.append_assoc, String.append_empty, String.empty_append]
          · simp only [List.cons_append, List.nil_append, List.append_assoc]
      | some els =>
        simp only [renderExpr, except_ok_bind, bind_ok_iff] at h
        obtain ⟨⟨caseL, ps1⟩, hC, h⟩ := h
        obtain ⟨⟨elseS, ps2⟩, ⟨⟨eS0, psA⟩, hEl, hElEq⟩, h⟩ := h
        simp only [Except.ok.injEq, Prod.mk.injEq] at h hElEq
        obtain ⟨hElS, hpsA⟩ := hElEq
        obtain ⟨ht, hps⟩ := h
        subst ht
        subst hElS
        obtain ⟨hps1, hcorC⟩ := ih.caseArms st cases_ ps0 caseL ps1 hC
        rw [hps1] at hEl
        obtain ⟨hps2, hcorEl⟩ := ih.expr st els ps0 eS0 psA hEl
        refine ⟨by rw [← hps, ← hpsA, hps2], fun qs0 => ?_⟩
        obtain ⟨lits1, css1, hP1, hLS1⟩ := hcorC qs0
        obtain ⟨lits2, cs2, hP2, hSeg2⟩ := hcorEl (qs0 ++ lits1.map Literal.jsVal)
        refine ⟨lits1 ++ lits2, .txt "CASE" :: .txt " " ::
          (chunksIntercalate " " css1 ++
            (.txt " " :: .txt "ELSE " :: (cs2 ++ [.txt " ", .txt "END"]))), ?_, ?_⟩
        · simp only [renderExpr, hP1, hP2, except_ok_bind, except_pure_eq,
            chunksParamText_append, chunksParamText, chunkParamText,
            chunksParamText_intercalate, List.map_append, List.append_assoc,
            Except.ok.injEq, Prod.mk.injEq,
            String.append_assoc, String.append_empty, String.empty_append, and_self]
        · intro hok
          have h2 := hSeg2 hok.right
          simp only [List.length_append, List.length_map] at h2
          have helse := (((h2.prefixTxt "ELSE ").suffixTxt " ").suffixTxt "END").prefixTxt " "
          have full := (SegOk.append ((hLS1 hok.left).intercalate " ") helse).prefixTxt " "
            |>.prefixTxt "CASE"
          refine SegOk.ofChunksEq (SegOk.ofEq full ?_) ?_
          · simp only [String.append_assoc, String.append_empty, String.empty_append]
          · simp only [List.cons_append, List.nil_append, List.append_assoc]
    | some op =>
      cases elseCase with
      | none =>
        simp only [renderExpr, except_ok_bind, bind_ok_iff] at h
        obtain ⟨⟨opS, ps1⟩, ⟨⟨opS0, psA⟩, hO, hOEq⟩, h⟩ := h
        obtain ⟨⟨caseL, ps2⟩, hC, h⟩ := h
        simp only [Except.ok.injEq, Prod.mk.injEq] at h hOEq
        obtain ⟨hOS, hpsA⟩ := hOEq
        obtain ⟨ht, hps⟩ := h
        subst ht
        subst hOS
        obtain ⟨hpsA2, hcorO⟩ := ih.expr st op ps0 opS0 psA hO
        rw [hpsA] at hpsA2
        rw [hpsA2] at hC
        obtain ⟨hps2, hcorC⟩ := ih.caseArms st cases_ ps0 caseL ps2 hC
        refine ⟨by rw [← hps, hps2], fun qs0 => ?_⟩
        obtain ⟨lits1, cs1, hP1, hSeg1⟩ := hcorO qs0
        obtain ⟨lits2, css2, hP2, hLS2⟩ := hcorC (qs0 ++ lits1.map Literal.jsVal)
        refine ⟨lits1 ++ lits2, .txt "CASE" :: .txt " " ::
          (cs1 ++ (.txt " " :: (chunksIntercalate " " css2 ++ [.txt " ", .txt "END"]))), ?_, ?_⟩
        · simp only [renderExpr, hP1, hP2, except_ok_bind, except_pure_eq,
            chunksParamText_append, chunksParamText, chunkParamText,
            chunksParamText_intercalate, List.map_append, List.append_assoc,
            Except.ok.injEq, Prod.mk.injEq,
            String.append_assoc, String.append_empty, String.empty_append, and_self]
        · intro hok
          have h2 := hLS2 hok.right
          simp only [List.length_append, List.length_map] at h2
          have harms := (((h2.intercalate " ").suffixTxt " ").suffixTxt "END").prefixTxt " "
          have full := (SegOk.append (hSeg1 hok.left) harms).prefixTxt " " |>.prefixTxt "CASE"
          refine SegOk.ofChunksEq (SegOk.ofEq full ?_) ?_
          · simp only [String.append_assoc, String.append_empty, String.empty_append]
          · simp only [List.cons_append, List.nil_append, List.append_assoc]
      | some els =>
        simp only [renderExpr, except_ok_bind, bind_ok_iff] at h
        obtain ⟨⟨opS, ps1⟩, ⟨⟨opS0, psA⟩, hO, hOEq⟩, h⟩ := h
        obtain ⟨⟨caseL, ps2⟩, hC, h⟩ := h
        obtain ⟨⟨elseS, ps3⟩, ⟨⟨eS0, psB⟩, hEl, hElEq⟩, h⟩ := h
        simp only [Except.ok.injEq, Prod.mk.injEq] at h hOEq hElEq
        obtain ⟨hOS, hpsA⟩ := hOEq
        obtain ⟨hElS, hpsB⟩ := hElEq
        obtain ⟨ht, hps⟩ := h
        subst ht
        subst hOS
        subst hElS
        obtain ⟨hpsA2, hcorO⟩ := ih.expr st op ps0 opS0 psA hO
        rw [hpsA] at hpsA2
        rw [hpsA2] at hC
        obtain ⟨hps2, hcorC⟩ := ih.caseArms st cases_ ps0 caseL ps2 hC
        rw [hps2] at hEl
        obtain ⟨hps3, hcorEl⟩ := ih.expr st els ps0 eS0 psB hEl
        refine ⟨by rw [← hps, ← hpsB, hps3], fun qs0 => ?_⟩
        obtain ⟨lits1, cs1, hP1, hSeg1⟩ := hcorO qs0
        obtain ⟨lits2, css2, hP2, hLS2⟩ := hcorC (qs0 ++ lits1.map Literal.jsVal)
        obtain ⟨lits3, cs3, hP3, hSeg3⟩ :=
          hcorEl (qs0 ++ (lits1.map Literal.jsVal ++ lits2.map Literal.jsVal))
        refine ⟨lits1 ++ (lits2 ++ lits3), .txt "CASE" :: .txt " " ::
          (cs1 ++ (.txt " " :: (chunksIntercalate " " css2 ++
            (.txt " " :: .txt "ELSE " :: (cs3 ++ [.txt " ", .txt "END"]))))), ?_, ?_⟩
        · simp only [renderExpr, hP1, hP2, hP3, except_ok_bind, except_pure_eq,
            chunksParamText_append, chunksParamText, chunkParamText,
            chunksParamText_intercalate, List.map_append, List.append_assoc,
            Except.ok.injEq, Prod.mk.injEq,
            String.append_assoc, String.append_empty, String.empty_append, and_self]
        · intro hok
          have h2 := hLS2 hok.right.left
          have h3 := hSeg3 hok.right.right
          simp only [List.length_append, List.length_map] at h2 h3
          rw [← Nat.add_assoc] at h3
          have helse := (((h3.prefixTxt "ELSE ").suffixTxt " ").suffixTxt "END").prefixTxt " "
          have harms := (SegOk.append (h2.intercalate " ") helse).prefixTxt " "
          have full := (SegOk.append (hSeg1 hok.left) harms).prefixTxt " " |>.prefixTxt "CASE"
          refine SegOk.ofChunksEq (SegOk.ofEq full ?_) ?_
          · simp only [String.append_assoc, String.append_empty, String.empty_append]
          · simp only [List.cons_append, List.nil_append, List.append_assoc]

theorem pexprList_step (fuel : Nat) (ih : CorrAll fuel) : PList renderExprList (fuel+1) :=
  plist_step renderExpr renderExprList fuel (fun _ _ => rfl) (fun _ _ _ _ => rfl)
    ih.expr ih.exprList

theorem pcaseArms_step (fuel : Nat) (ih : CorrAll fuel) : PList renderCaseArms (fuel+1) :=
  plist_step renderCaseArm renderCaseArms fuel (fun _ _ => rfl) (fun _ _ _ _ => rfl)
    ih.caseArm ih.caseArms

theorem pjoins_step (fuel : Nat) (ih : CorrAll fuel) : PList renderJoins (fuel+1) :=
  plist_step renderJoin renderJoins fuel (fun _ _ => rfl) (fun _ _ _ _ => rfl)
    ih.join ih.joins

theorem pselections_step (fuel : Nat) (ih : CorrAll fuel) : PList renderSelections (fuel+1) :=
  plist_step renderSelection renderSelections fuel (fun _ _ => rfl) (fun _ _ _ _ => rfl)
    ih.selection ih.selections

theorem pctes_step (fuel : Nat) (ih : CorrAll fuel) : PList renderCtes (fuel+1) :=
  plist_step renderCte renderCtes fuel (fun _ _ => rfl) (fun _ _ _ _ => rfl)
    ih.cte ih.ctes

theorem porderingList_step (fuel : Nat) (ih : CorrAll fuel) : PList renderOrderingList (fuel+1) :=
  plist_step renderOrdering renderOrderingList fuel (fun _ _ => rfl) (fun _ _ _ _ => rfl)
    ih.ordering ih.orderingList

theorem punions_step (fuel : Nat) (ih : CorrAll fuel) : PList renderUnions (fuel+1) :=
  plist_step renderUnion renderUnions fuel (fun _ _ => rfl) (fun _ _ _ _ => rfl)
    ih.union ih.unions

theorem pinsertRows_step (fuel : Nat) (ih : CorrAll fuel) : PList renderInsertRows (fuel+1) :=
  plist_step renderInsertRow renderInsertRows fuel (fun _ _ => rfl) (fun _ _ _ _ => rfl)
    ih.insertRow ih.insertRows

theorem passignments_step (fuel : Nat) (ih : CorrAll fuel) : PList renderAssignments (fuel+1) :=
  plist_step renderAssignment renderAssignments fuel (fun _ _ => rfl) (fun _ _ _ _ => rfl)
    ih.assignment ih.assignments

theorem pcolumnConstraintDefs_step (fuel : Nat) (ih : CorrAll fuel) :
    PList renderColumnConstraintDefs (fuel+1) :=
  plist_step renderColumnConstraintDef renderColumnConstraintDefs fuel
    (fun _ _ => rfl) (fun _ _ _ _ => rfl) ih.columnConstraintDef ih.columnConstraintDefs

theorem pcolumnDefinitions_step (fuel : Nat) (ih : CorrAll fuel) :
    PList renderColumnDefinitions (fuel+1) :=
  plist_step renderColumnDefinition renderColumnDefinitions fuel
    (fun _ _ => rfl) (fun _ _ _ _ => rfl) ih.columnDefinition ih.columnDefinitions

theorem ptableConstraints_step (fuel : Nat) (ih : CorrAll fuel) :
    PList renderTableConstraints (fuel+1) :=
  plist_step renderTableConstraint renderTableConstraints fuel
    (fun _ _ => rfl) (fun _ _ _ _ => rfl) ih.tableConstraint ih.tableConstraints

theorem pinsertCellFun (fuel : Nat) (ih : CorrAll fuel) :
    PStr renderInsertCell fuel := by
  intro st x ps0 tI psI h
  cases x with
  | defaultValue =>
    simp only [renderInsertCell, Except.ok.injEq, Prod.mk.injEq] at h
    obtain ⟨ht, hps⟩ := h
    subst ht; subst hps
    refine ⟨rfl, fun qs0 => ⟨[], [.txt "DEFAULT"], ?_, fun _ => SegOk.txt _ _⟩⟩
    simp [renderInsertCell, chunksParamText, chunkParamText]
  | exprCell e => exact ih.expr st e ps0 tI psI h

theorem pinsertCells_step (fuel : Nat) (ih : CorrAll fuel) : PList renderInsertCells (fuel+1) :=
  plist_step renderInsertCell
    renderInsertCells fuel (fun _ _ => rfl) (fun _ _ _ _ => rfl)
    (pinsertCellFun fuel ih) ih.insertCells

theorem pwherePart_step (fuel : Nat) (ih : CorrAll fuel) : PStr renderWherePart (fuel+1) :=
  popt_step renderWherePart fuel " WHERE " (fun _ _ => rfl) (fun _ _ _ => rfl) ih.expr

theorem phavingPart_step (fuel : Nat) (ih : CorrAll fuel) : PStr renderHavingPart (fuel+1) :=
  popt_step renderHavingPart fuel " HAVING" (fun _ _ => rfl) (fun _ _ _ => rfl) ih.expr

theorem plimitPart_step (fuel : Nat) (ih : CorrAll fuel) : PStr renderLimitPart (fuel+1) :=
  popt_step renderLimitPart fuel " LIMIT " (fun _ _ => rfl) (fun _ _ _ => rfl) ih.expr

theorem poffsetPart_step (fuel : Nat) (ih : CorrAll fuel) : PStr renderOffsetPart (fuel+1) :=
  popt_step renderOffsetPart fuel " OFFSET " (fun _ _ => rfl) (fun _ _ _ => rfl) ih.expr

theorem pcaseArm_step (fuel : Nat) (ih : CorrAll fuel) : PStr renderCaseArm (fuel+1) := by
  intro st x ps0 tI psI h
  obtain ⟨condition, result⟩ := x
  simp only [renderCaseArm, except_ok_bind, bind_ok_iff] at h
  obtain ⟨⟨c, ps1⟩, hC, h⟩ := h
  obtain ⟨⟨r, ps2⟩, hR, h⟩ := h
  simp only [Except.ok.injEq, Prod.mk.injEq] at h
  obtain ⟨ht, hps⟩ := h
  subst ht
  obtain ⟨hps1, hcorC⟩ := ih.expr st condition ps0 c ps1 hC
  rw [hps1] at hR
  obtain ⟨hps2, hcorR⟩ := ih.expr st result ps0 r ps2 hR
  refine ⟨by rw [← hps, hps2], fun qs0 => ?_⟩
  obtain ⟨lits1, cs1, hP1, hSeg1⟩ := hcorC qs0
  obtain ⟨lits2, cs2, hP2, hSeg2⟩ := hcorR (qs0 ++ lits1.map Literal.jsVal)
  refine ⟨lits1 ++ lits2, .txt "WHEN " :: (cs1 ++ (.txt " THEN " :: cs2)), ?_, ?_⟩
  · simp only [renderCaseArm, hP1, hP2, except_ok_bind, except_pure_eq,
      chunksParamText_append, chunksParamText, chunkParamText,
      List.map_append, List.append_assoc, Except.ok.injEq, Prod.mk.injEq,
      String.append_assoc, String.append_empty, String.empty_append, and_self]
  · intro hok
    have h2 := hSeg2 hok.right
    simp only [List.length_append, List.length_map] at h2
    have full := SegOk.append (hSeg1 hok.left) (h2.prefixTxt " THEN ") |>.prefixTxt "WHEN "
    refine SegOk.ofChunksEq (SegOk.ofEq full ?_) ?_
    · simp only [String.append_assoc, String.append_empty, String.empty_append]
    · simp only [List.cons_append, List.nil_append, List.append_assoc]

theorem ptable_step (fuel : Nat) (ih : CorrAll fuel) : PStr renderTable (fuel+1) := by
  intro st x ps0 tI psI h
  cases x with
  | basicTable name =>
    simp only [renderTable, Except.ok.injEq, Prod.mk.injEq] at h
    obtain ⟨ht, hps⟩ := h
    subst ht; subst hps
    refine ⟨rfl, fun qs0 => ⟨[], [.txt (renderIdent name)], ?_, fun _ => SegOk.txt _ _⟩⟩
    simp [renderTable, chunksParamText, chunkParamText]
  | derivedTable subQuery tableAlias =>
    simp only [renderTable, bind_ok_iff] at h
    obtain ⟨⟨q, ps1⟩, hQ, h⟩ := h
    simp only [Except.ok.injEq, Prod.mk.injEq] at h
    obtain ⟨ht, hps⟩ := h
    subst ht
    obtain ⟨hps1, hcorQ⟩ := ih.query st subQuery ps0 q ps1 hQ
    refine ⟨by rw [← hps, hps1], fun qs0 => ?_⟩
    obtain ⟨lits, cs, hP, hSeg⟩ := hcorQ qs0
    refine ⟨lits, .txt "(" :: (cs ++ [.txt (") AS " ++ renderIdent tableAlias)]), ?_, ?_⟩
    · simp only [renderTable, hP, except_ok_bind, except_pure_eq, chunksParamText_append,
        chunksParamText, chunkParamText, Except.ok.injEq, Prod.mk.injEq,
        String.append_assoc, String.append_empty, String.empty_append, and_self]
    · intro hok
      have full := ((hSeg hok).suffixTxt (") AS " ++ renderIdent tableAlias)).prefixTxt "("
      refine SegOk.ofChunksEq (SegOk.ofEq full ?_) ?_
      · simp only [String.append_assoc, String.append_empty, String.empty_append]
      · simp only [List.cons_append, List.nil_append, List.append_assoc]
  | functionTable func tableAlias =>
    simp only [renderTable, bind_ok_iff] at h
    obtain ⟨⟨f, ps1⟩, hF, h⟩ := h
    simp only [Except.ok.injEq, Prod.mk.injEq] at h
    obtain ⟨ht, hps⟩ := h
    subst ht
    obtain ⟨hps1, hcorF⟩ := ih.expr st func ps0 f ps1 hF
    refine ⟨by rw [← hps, hps1], fun qs0 => ?_⟩
    obtain ⟨lits, cs, hP, hSeg⟩ := hcorF qs0
    refine ⟨lits, .txt "(" :: (cs ++ [.txt (") AS " ++ renderIdent tableAlias)]), ?_, ?_⟩
    · simp only [renderTable, hP, except_ok_bind, except_pure_eq, chunksParamText_append,
        chunksParamText, chunkParamText, Except.ok.injEq, Prod.mk.injEq,
        String.append_assoc, String.append_empty, String.empty_append, and_self]
    · intro hok
      have full := ((hSeg hok).suffixTxt (") AS " ++ renderIdent tableAlias)).prefixTxt "("
      refine SegOk.ofChunksEq (SegOk.ofEq full ?_) ?_
      · simp only [String.append_assoc, String.append_empty, String.empty_append]
      · simp only [List.cons_append, List.nil_append, List.append_assoc]
  | tableExtension ext =>
    simp only [renderTable] at h
    exact Except.noConfusion h

theorem pjoin_step (fuel : Nat) (ih : CorrAll fuel) : PStr renderJoin (fuel+1) := by
  intro st x ps0 tI psI h
  obtain ⟨kind, table, onExpr⟩ := x
  simp only [renderJoin, except_ok_bind, bind_ok_iff] at h
  obtain ⟨⟨t, ps1⟩, hT, h⟩ := h
  obtain ⟨⟨c, ps2⟩, hC, h⟩ := h
  simp only [Except.ok.injEq, Prod.mk.injEq] at h
  obtain ⟨ht, hps⟩ := h
  subst ht
  obtain ⟨hps1, hcorT⟩ := ih.table st table ps0 t ps1 hT
  rw [hps1] at hC
  obtain ⟨hps2, hcorC⟩ := ih.expr st onExpr ps0 c ps2 hC
  refine ⟨by rw [← hps, hps2], fun qs0 => ?_⟩
  obtain ⟨lits1, cs1, hP1, hSeg1⟩ := hcorT qs0
  obtain ⟨lits2, cs2, hP2, hSeg2⟩ := hcorC (qs0 ++ lits1.map Literal.jsVal)
  refine ⟨lits1 ++ lits2,
    .txt (" " ++ kind ++ " JOIN ") :: (cs1 ++ (.txt " ON " :: cs2)), ?_, ?_⟩
  · simp only [renderJoin, hP1, hP2, except_ok_bind, except_pure_eq,
      chunksParamText_append, chunksParamText, chunkParamText,
      List.map_append, List.append_assoc, Except.ok.injEq, Prod.mk.injEq,
      String.append_assoc, String.append_empty, String.empty_append, and_self]
  · intro hok
    have h2 := hSeg2 hok.right
    simp only [List.length_append, List.length_map] at h2
    have full := SegOk.append (hSeg1 hok.left) (h2.prefixTxt " ON ")
      |>.prefixTxt (" " ++ kind ++ " JOIN ")
    refine SegOk.ofChunksEq (SegOk.ofEq full ?_) ?_
    · simp only [String.append_assoc, String.append_empty, String.empty_append]
    · simp only [List.cons_append, List.nil_append, List.append_assoc]

theorem pselection_step (fuel : Nat) (ih : CorrAll fuel) : PStr renderSelection (fuel+1) := by
  intro st x ps0 tI psI h
  cases x with
  | anonymousSelection sel =>
    simp only [renderSelection] at h
    obtain ⟨hps1, hcor⟩ := ih.expr st sel ps0 tI psI h
    refine ⟨hps1, fun qs0 => ?_⟩
    obtain ⟨lits, cs, hP, hSeg⟩ := hcor qs0
    exact ⟨lits, cs, by simp only [renderSelection]; exact hP, hSeg⟩
  | aliasedSelection sel selAlias =>
    simp only [renderSelection, bind_ok_iff] at h
    obtain ⟨⟨e, ps1⟩, hE, h⟩ := h
    simp only [Except.ok.injEq, Prod.mk.injEq] at h
    obtain ⟨ht, hps⟩ := h
    subst ht
    obtain ⟨hps1, hcorE⟩ := ih.expr st sel ps0 e ps1 hE
    refine ⟨by rw [← hps, hps1], fun qs0 => ?_⟩
    obtain ⟨lits, cs, hP, hSeg⟩ := hcorE qs0
    refine ⟨lits, cs ++ [.txt (" AS " ++ renderIdent selAlias)], ?_, ?_⟩
    · simp only [renderSelection, hP, except_ok_bind, except_pure_eq, chunksParamText_append,
        chunksParamText, chunkParamText, Except.ok.injEq, Prod.mk.injEq,
        String.append_assoc, String.append_empty, String.empty_append, and_self]
    · intro hok
      have full := (hSeg hok).suffixTxt (" AS " ++ renderIdent selAlias)
      refine SegOk.ofChunksEq (SegOk.ofEq full ?_) ?_
      · simp only [String.append_assoc, String.append_empty, String.empty_append]
      · simp only [List.cons_append, List.nil_append, List.append_assoc]

theorem pgroupByPart_step (fuel : Nat) (ih : CorrAll fuel) : PStr renderGroupByPart (fuel+1) := by
  intro st x ps0 tI psI h
  cases x with
  | nil =>
    simp only [renderGroupByPart, Except.ok.injEq, Prod.mk.injEq] at h
    obtain ⟨ht, hps⟩ := h
    subst ht; subst hps
    refine ⟨rfl, fun qs0 => ⟨[], [], ?_, fun _ => SegOk.empty _⟩⟩
    simp [renderGroupByPart, chunksParamText]
  | cons g rest =>
    simp only [renderGroupByPart, bind_ok_iff] at h
    obtain ⟨⟨gs, ps1⟩, hG, h⟩ := h
    simp only [Except.ok.injEq, Prod.mk.injEq] at h
    obtain ⟨ht, hps⟩ := h
    subst ht
    obtain ⟨hps1, hcorG⟩ := ih.exprList st (g :: rest) ps0 gs ps1 hG
    refine ⟨by rw [← hps, hps1], fun qs0 => ?_⟩
    obtain ⟨lits, css, hP, hLS⟩ := hcorG qs0
    refine ⟨lits, .txt " GROUP BY" :: chunksIntercalate ", " css, ?_, ?_⟩
    · simp only [renderGroupByPart, hP, except_ok_bind, except_pure_eq,
        chunksParamText, chunkParamText, chunksParamText_intercalate,
        Except.ok.injEq, Prod.mk.injEq,
        String.append_assoc, String.append_empty, String.empty_append, and_self]
    · intro hok
      exact ((hLS hok).intercalate ", ").prefixTxt " GROUP BY"

theorem pfromPart_step (fuel : Nat) (ih : CorrAll fuel) : PStr renderFromPart (fuel+1) := by
  intro st x ps0 tI psI h
  cases x with
  | none =>
    simp only [renderFromPart, Except.ok.injEq, Prod.mk.injEq] at h
    obtain ⟨ht, hps⟩ := h
    subst ht; subst hps
    refine ⟨rfl, fun qs0 => ⟨[], [], ?_, fun _ => SegOk.empty _⟩⟩
    simp [renderFromPart, chunksParamText]
  | some jt =>
    obtain ⟨table, joins⟩ := jt
    simp only [renderFromPart, except_ok_bind, bind_ok_iff] at h
    obtain ⟨⟨t, ps1⟩, hT, h⟩ := h
    obtain ⟨⟨joinL, ps2⟩, hJ, h⟩ := h
    simp only [Except.ok.injEq, Prod.mk.injEq] at h
    obtain ⟨ht, hps⟩ := h
    subst ht
    obtain ⟨hps1, hcorT⟩ := ih.table st table ps0 t ps1 hT
    rw [hps1] at hJ
    obtain ⟨hps2, hcorJ⟩ := ih.joins st joins ps0 joinL ps2 hJ
    refine ⟨by rw [← hps, hps2], fun qs0 => ?_⟩
    obtain ⟨lits1, cs1, hP1, hSeg1⟩ := hcorT qs0
    obtain ⟨lits2, css2, hP2, hLS2⟩ := hcorJ (qs0 ++ lits1.map Literal.jsVal)
    refine ⟨lits1 ++ lits2, .txt " FROM " :: (cs1 ++ css2.join), ?_, ?_⟩
    · simp only [renderFromPart, hP1, hP2, except_ok_bind, except_pure_eq,
        chunksParamText_append, chunksParamText, chunkParamText, chunksParamText_join,
        List.map_append, List.append_assoc, Except.ok.injEq, Prod.mk.injEq,
        String.append_assoc, String.append_empty, String.empty_append, and_self]
    · intro hok
      have h2 := hLS2 hok.right
      simp only [List.length_append, List.length_map] at h2
      have full := SegOk.append (hSeg1 hok.left) h2.joined |>.prefixTxt " FROM "
      refine SegOk.ofChunksEq (SegOk.ofEq full ?_) ?_
      · simp only [String.append_assoc, String.append_empty, String.empty_append]
      · simp only [List.cons_append, List.nil_append, List.append_assoc]

theorem pcte_step (fuel : Nat) (ih : CorrAll fuel) : PStr renderCte (fuel+1) := by
  intro st x ps0 tI psI h
  obtain ⟨⟨name, columns⟩, query⟩ := x
  simp only [renderCte, bind_ok_iff] at h
  obtain ⟨⟨q, ps1⟩, hQ, h⟩ := h
  simp only [Except.ok.injEq, Prod.mk.injEq] at h
  obtain ⟨ht, hps⟩ := h
  subst ht
  obtain ⟨hps1, hcorQ⟩ := ih.query st query ps0 q ps1 hQ
  refine ⟨by rw [← hps, hps1], fun qs0 => ?_⟩
  obtain ⟨lits, cs, hP, hSeg⟩ := hcorQ qs0
  cases columns with
  | nil =>
    refine ⟨lits, .txt (renderIdent name) :: .txt "" :: .txt " AS (" :: (cs ++ [.txt ")"]), ?_, ?_⟩
    · simp only [renderCte, hP, except_ok_bind, except_pure_eq, chunksParamText_append,
        chunksParamText, chunkParamText, Except.ok.injEq, Prod.mk.injEq,
        String.append_assoc, String.append_empty, String.empty_append, and_self]
    · intro hok
      have full := ((((hSeg hok).suffixTxt ")").prefixTxt " AS (").prefixTxt "").prefixTxt
        (renderIdent name)
      refine SegOk.ofChunksEq (SegOk.ofEq full ?_) ?_
      · simp only [String.append_assoc, String.append_empty, String.empty_append]
      · simp only [List.cons_append, List.nil_append, List.append_assoc]
  | cons c0 crest =>
    refine ⟨lits, .txt (renderIdent name) ::
      .txt (" (" ++ String.intercalate ", " ((c0 :: crest).map renderIdent) ++ ")") ::
      .txt " AS (" :: (cs ++ [.txt ")"]), ?_, ?_⟩
    · simp only [renderCte, hP, except_ok_bind, except_pure_eq, chunksParamText_append,
        chunksParamText, chunkParamText, Except.ok.injEq, Prod.mk.injEq,
        String.append_assoc, String.append_empty, String.empty_append, and_self]
    · intro hok
      have full := ((((hSeg hok).suffixTxt ")").prefixTxt " AS (").prefixTxt
        (" (" ++ String.intercalate ", " ((c0 :: crest).map renderIdent) ++ ")")).prefixTxt
        (renderIdent name)
      refine SegOk.ofChunksEq (SegOk.ofEq full ?_) ?_
      · simp only [String.append_assoc, String.append_empty, String.empty_append]
      · simp only [List.cons_append, List.nil_append, List.append_assoc]

theorem pctesPart_step (fuel : Nat) (ih : CorrAll fuel) : PStr renderQueryCtesPart (fuel+1) := by
  intro st x ps0 tI psI h
  cases x with
  | nil =>
    simp only [renderQueryCtesPart, Except.ok.injEq, Prod.mk.injEq] at h
    obtain ⟨ht, hps⟩ := h
    subst ht; subst hps
    refine ⟨rfl, fun qs0 => ⟨[], [], ?_, fun _ => SegOk.empty _⟩⟩
    simp [renderQueryCtesPart, chunksParamText]
  | cons c rest =>
    simp only [renderQueryCtesPart, bind_ok_iff] at h
    obtain ⟨⟨subs, ps1⟩, hC, h⟩ := h
    simp only [Except.ok.injEq, Prod.mk.injEq] at h
    obtain ⟨ht, hps⟩ := h
    subst ht
    obtain ⟨hps1, hcorC⟩ := ih.ctes st (c :: rest) ps0 subs ps1 hC
    refine ⟨by rw [← hps, hps1], fun qs0 => ?_⟩
    obtain ⟨lits, css, hP, hLS⟩ := hcorC qs0
    refine ⟨lits, .txt "WITH " :: (chunksIntercalate ", " css ++ [.txt " "]), ?_, ?_⟩
    · simp only [renderQueryCtesPart, hP, except_ok_bind, except_pure_eq,
        chunksParamText_append, chunksParamText, chunkParamText, chunksParamText_intercalate,
        Except.ok.injEq, Prod.mk.injEq,
        String.append_assoc, String.append_empty, String.empty_append, and_self]
    · intro hok
      have full := (((hLS hok).intercalate ", ").suffixTxt " ").prefixTxt "WITH "
      refine SegOk.ofChunksEq (SegOk.ofEq full ?_) ?_
      · simp only [String.append_assoc, String.append_empty, String.empty_append]
      · simp only [List.cons_append, List.nil_append, List.append_assoc]

theorem pordering_step (fuel : Nat) (ih : CorrAll fuel) : PStr renderOrdering (fuel+1) := by
  intro st x ps0 tI psI h
  obtain ⟨expr, order, nullHandling⟩ := x
  simp only [renderOrdering, bind_ok_iff] at h
  obtain ⟨⟨s, ps1⟩, hE, h⟩ := h
  simp only [Except.ok.injEq, Prod.mk.injEq] at h
  obtain ⟨ht, hps⟩ := h
  subst ht
  obtain ⟨hps1, hcorE⟩ := ih.expr st expr ps0 s ps1 hE
  refine ⟨by rw [← hps, hps1], fun qs0 => ?_⟩
  obtain ⟨lits, cs, hP, hSeg⟩ := hcorE qs0
  refine ⟨lits, cs ++ [.txt ((match order with | none => "" | some x => " " ++ x) ++
    (match nullHandling with | none => "" | some x => " " ++ x))], ?_, ?_⟩
  · simp only [renderOrdering, hP, except_ok_bind, except_pure_eq, chunksParamText_append,
      chunksParamText, chunkParamText, Except.ok.injEq, Prod.mk.injEq,
      String.append_assoc, String.append_empty, String.empty_append, and_self]
  · intro hok
    have full := (hSeg hok).suffixTxt ((match order with | none => "" | some x => " " ++ x) ++
      (match nullHandling with | none => "" | some x => " " ++ x))
    refine SegOk.ofChunksEq (SegOk.ofEq full ?_) ?_
    · simp only [String.append_assoc, String.append_empty, String.empty_append]
    · simp only [List.cons_append, List.nil_append, List.append_assoc]

theorem porderingPart_step (fuel : Nat) (ih : CorrAll fuel) : PStr renderOrderingPart (fuel+1) := by
  intro st x ps0 tI psI h
  cases x with
  | nil =>
    simp only [renderOrderingPart, Except.ok.injEq, Prod.mk.injEq] at h
    obtain ⟨ht, hps⟩ := h
    subst ht; subst hps
    refine ⟨rfl, fun qs0 => ⟨[], [], ?_, fun _ => SegOk.empty _⟩⟩
    simp [renderOrderingPart, chunksParamText]
  | cons a rest =>
    simp only [renderOrderingPart, bind_ok_iff] at h
    obtain ⟨⟨orders, ps1⟩, hO, h⟩ := h
    simp only [Except.ok.injEq, Prod.mk.injEq] at h
    obtain ⟨ht, hps⟩ := h
    subst ht
    obtain ⟨hps1, hcorO⟩ := ih.orderingList st (a :: rest) ps0 orders ps1 hO
    refine ⟨by rw [← hps, hps1], fun qs0 => ?_⟩
    obtain ⟨lits, css, hP, hLS⟩ := hcorO qs0
    refine ⟨lits, .txt " ORDER BY " :: chunksIntercalate ", " css, ?_, ?_⟩
    · simp only [renderOrderingPart, hP, except_ok_bind, except_pure_eq,
        chunksParamText, chunkParamText, chunksParamText_intercalate,
        Except.ok.injEq, Prod.mk.injEq,
        String.append_assoc, String.append_empty, String.empty_append, and_self]
    · intro hok
      exact ((hLS hok).intercalate ", ").prefixTxt " ORDER BY "

theorem punion_step (fuel : Nat) (ih : CorrAll fuel) : PStr renderUnion (fuel+1) := by
  intro st x ps0 tI psI h
  obtain ⟨func, all, select⟩ := x
  simp only [renderUnion, bind_ok_iff] at h
  obtain ⟨⟨selS, ps1⟩, hS, h⟩ := h
  simp only [Except.ok.injEq, Prod.mk.injEq] at h
  obtain ⟨ht, hps⟩ := h
  subst ht
  obtain ⟨hps1, hcorS⟩ := ih.select st select ps0 selS ps1 hS
  refine ⟨by rw [← hps, hps1], fun qs0 => ?_⟩
  obtain ⟨lits, cs, hP, hSeg⟩ := hcorS qs0
  refine ⟨lits, .txt (" " ++ func ++ (if all then " ALL" else "") ++ " ") :: cs, ?_, ?_⟩
  · simp only [renderUnion, hP, except_ok_bind, except_pure_eq,
      chunksParamText, chunkParamText, Except.ok.injEq, Prod.mk.injEq,
      String.append_assoc, String.append_empty, String.empty_append, and_self]
  · intro hok
    have full := (hSeg hok).prefixTxt (" " ++ func ++ (if all then " ALL" else "") ++ " ")
    refine SegOk.ofChunksEq (SegOk.ofEq full ?_) ?_
    · simp only [String.append_assoc, String.append_empty, String.empty_append]
    · simp only [List.cons_append, List.nil_append, List.append_assoc]

theorem punionsPart_step (fuel : Nat) (ih : CorrAll fuel) : PStr renderUnionsPart (fuel+1) := by
  intro st x ps0 tI psI h
  cases x with
  | nil =>
    simp only [renderUnionsPart, Except.ok.injEq, Prod.mk.injEq] at h
    obtain ⟨ht, hps⟩ := h
    subst ht; subst hps
    refine ⟨rfl, fun qs0 => ⟨[], [], ?_, fun _ => SegOk.empty _⟩⟩
    simp [renderUnionsPart, chunksParamText]
  | cons u rest =>
    simp only [renderUnionsPart, bind_ok_iff] at h
    obtain ⟨⟨uL, ps1⟩, hU, h⟩ := h
    simp only [Except.ok.injEq, Prod.mk.injEq] at h
    obtain ⟨ht, hps⟩ := h
    subst ht
    obtain ⟨hps1, hcorU⟩ := ih.unions st (u :: rest) ps0 uL ps1 hU
    refine ⟨by rw [← hps, hps1], fun qs0 => ?_⟩
    obtain ⟨lits, css, hP, hLS⟩ := hcorU qs0
    refine ⟨lits, .txt " " :: chunksIntercalate " " css, ?_, ?_⟩
    · simp only [renderUnionsPart, hP, except_ok_bind, except_pure_eq,
        chunksParamText, chunkParamText, chunksParamText_intercalate,
        Except.ok.injEq, Prod.mk.injEq,
        String.append_assoc, String.append_empty, String.empty_append, and_self]
    · intro hok
      exact ((hLS hok).intercalate " ").prefixTxt " "

theorem SegOk.ofBase {b b' : Nat} {t : String} {l : List Literal} {c : List Chunk}
    (h : SegOk b t l c) (hb : b = b') : SegOk b' t l c := hb ▸ h

theorem SegOk.ofLitsEq {b : Nat} {t : String} {l l' : List Literal} {c : List Chunk}
    (h : SegOk b t l c) (hl : l = l') : SegOk b t l' c := hl ▸ h

theorem pselect_step (fuel : Nat) (ih : CorrAll fuel) : PStr renderSelect (fuel+1) := by
  intro st x ps0 tI psI h
  obtain ⟨selections, fromTable, whereExpr, groupBy, having⟩ := x
  simp only [renderSelect, except_ok_bind, bind_ok_iff] at h
  obtain ⟨⟨selL, ps1⟩, hSel, h⟩ := h
  obtain ⟨⟨whereS, ps2⟩, hW, h⟩ := h
  obtain ⟨⟨groupByS, ps3⟩, hG, h⟩ := h
  obtain ⟨⟨havingS, ps4⟩, hH, h⟩ := h
  obtain ⟨⟨tableS, ps5⟩, hT, h⟩ := h
  simp only [Except.ok.injEq, Prod.mk.injEq] at h
  obtain ⟨ht, hps⟩ := h
  subst ht
  obtain ⟨hps1, hcorSel⟩ := ih.selections st selections ps0 selL ps1 hSel
  rw [hps1] at hW
  obtain ⟨hps2, hcorW⟩ := ih.wherePart st whereExpr ps0 whereS ps2 hW
  rw [hps2] at hG
  obtain ⟨hps3, hcorG⟩ := ih.groupByPart st groupBy ps0 groupByS ps3 hG
  rw [hps3] at hH
  obtain ⟨hps4, hcorH⟩ := ih.havingPart st having ps0 havingS ps4 hH
  rw [hps4] at hT
  obtain ⟨hps5, hcorT⟩ := ih.fromPart st fromTable ps0 tableS ps5 hT
  refine ⟨by rw [← hps, hps5], fun qs0 => ?_⟩
  obtain ⟨l1, css1, hP1, hLS1⟩ := hcorSel qs0
  obtain ⟨l2, cs2, hP2, hSeg2⟩ := hcorW (qs0 ++ l1.map Literal.jsVal)
  obtain ⟨l3, cs3, hP3, hSeg3⟩ :=
    hcorG (qs0 ++ (l1.map Literal.jsVal ++ l2.map Literal.jsVal))
  obtain ⟨l4, cs4, hP4, hSeg4⟩ :=
    hcorH (qs0 ++ (l1.map Literal.jsVal ++ (l2.map Literal.jsVal ++ l3.map Literal.jsVal)))
  obtain ⟨l5, cs5, hP5, hSeg5⟩ :=
    hcorT (qs0 ++ (l1.map Literal.jsVal ++ (l2.map Literal.jsVal ++
      (l3.map Literal.jsVal ++ l4.map Literal.jsVal))))
  refine ⟨l1 ++ (l2 ++ (l3 ++ (l4 ++ l5))),
    .txt "SELECT " :: (chunksIntercalate ", " css1 ++ (cs5 ++ (cs2 ++ (cs3 ++ cs4)))), ?_, ?_⟩
  · simp only [renderSelect, hP1, hP2, hP3, hP4, hP5, except_ok_bind, except_pure_eq,
      chunksParamText_append, chunksParamText, chunkParamText, chunksParamText_intercalate,
      List.map_append, List.append_assoc, Except.ok.injEq, Prod.mk.injEq,
      String.append_assoc, String.append_empty, String.empty_append, and_self]
  · intro hok
    have hSel1 := (hLS1 hok.left).intercalate ", "
    have h2 := hSeg2 hok.right.left
    have h3 := hSeg3 hok.right.right.left
    have h4 := hSeg4 hok.right.right.right.left
    have h5 := hSeg5 hok.right.right.right.right
    simp only [List.length_append, List.length_map] at h2 h3 h4 h5
    have segWGH := SegOk.append h2 (SegOk.append (h3.ofBase (by omega))
      (h4.ofBase (by omega)))
    have hswap := SegOk.swap segWGH (h5.ofBase (by simp only [List.length_append]; omega))
    have full := (SegOk.append hSel1 (hswap.ofBase (by omega))).prefixTxt "SELECT "
    refine SegOk.ofChunksEq (SegOk.ofEq (full.ofLitsEq (by
      simp only [List.append_assoc])) ?_) ?_
    · simp only [String.append_assoc, String.append_empty, String.empty_append]
    · simp only [List.cons_append, List.nil_append, List.append_assoc]

theorem pquery_step (fuel : Nat) (ih : CorrAll fuel) : PStr renderQuery (fuel+1) := by
  intro st x ps0 tI psI h
  obtain ⟨commonTableExprs, selection, unions, ordering, limit, offset⟩ := x
  simp only [renderQuery, except_ok_bind, bind_ok_iff] at h
  obtain ⟨⟨ctesS, ps1⟩, hC, h⟩ := h
  obtain ⟨⟨limitS, ps2⟩, hL, h⟩ := h
  obtain ⟨⟨offsetS, ps3⟩, hO, h⟩ := h
  obtain ⟨⟨orderingS, ps4⟩, hOr, h⟩ := h
  obtain ⟨⟨selectionS, ps5⟩, hS, h⟩ := h
  obtain ⟨⟨unionsS, ps6⟩, hU, h⟩ := h
  simp only [Except.ok.injEq, Prod.mk.injEq] at h
  obtain ⟨ht, hps⟩ := h
  subst ht
  obtain ⟨hps1, hcorC⟩ := ih.ctesPart st commonTableExprs ps0 ctesS ps1 hC
  rw [hps1] at hL
  obtain ⟨hps2, hcorL⟩ := ih.limitPart st limit ps0 limitS ps2 hL
  rw [hps2] at hO
  obtain ⟨hps3, hcorO⟩ := ih.offsetPart st offset ps0 offsetS ps3 hO
  rw [hps3] at hOr
  obtain ⟨hps4, hcorOr⟩ := ih.orderingPart st ordering ps0 orderingS ps4 hOr
  rw [hps4] at hS
  obtain ⟨hps5, hcorS⟩ := ih.select st selection ps0 selectionS ps5 hS
  rw [hps5] at hU
  obtain ⟨hps6, hcorU⟩ := ih.unionsPart st unions ps0 unionsS ps6 hU
  refine ⟨by rw [← hps, hps6], fun qs0 => ?_⟩
  obtain ⟨l1, cs1, hP1, hSeg1⟩ := hcorC qs0
  obtain ⟨l2, cs2, hP2, hSeg2⟩ := hcorL (qs0 ++ l1.map Literal.jsVal)
  obtain ⟨l3, cs3, hP3, hSeg3⟩ :=
    hcorO (qs0 ++ (l1.map Literal.jsVal ++ l2.map Literal.jsVal))
  obtain ⟨l4, cs4, hP4, hSeg4⟩ :=
    hcorOr (qs0 ++ (l1.map Literal.jsVal ++ (l2.map Literal.jsVal ++ l3.map Literal.jsVal)))
  obtain ⟨l5, cs5, hP5, hSeg5⟩ :=
    hcorS (qs0 ++ (l1.map Literal.jsVal ++ (l2.map Literal.jsVal ++
      (l3.map Literal.jsVal ++ l4.map Literal.jsVal))))
  obtain ⟨l6, cs6, hP6, hSeg6⟩ :=
    hcorU (qs0 ++ (l1.map Literal.jsVal ++ (l2.map Literal.jsVal ++
      (l3.map Literal.jsVal ++ (l4.map Literal.jsVal ++ l5.map Literal.jsVal)))))
  refine ⟨l1 ++ (l2 ++ (l3 ++ (l4 ++ (l5 ++ l6)))),
    cs1 ++ (cs5 ++ (cs6 ++ (cs4 ++ (cs2 ++ cs3)))), ?_, ?_⟩
  · simp only [renderQuery, hP1, hP2, hP3, hP4, hP5, hP6, except_ok_bind, except_pure_eq,
      chunksParamText_append, chunksParamText, chunkParamText,
      List.map_append, List.append_assoc, Except.ok.injEq, Prod.mk.injEq,
      String.append_assoc, String.append_empty, String.empty_append, and_self]
  · intro hok
    have h1 := hSeg1 hok.left
    have h2 := hSeg2 hok.right.left
    have h3 := hSeg3 hok.right.right.left
    have h4 := hSeg4 hok.right.right.right.left
    have h5 := hSeg5 hok.right.right.right.right.left
    have h6 := hSeg6 hok.right.right.right.right.right
    simp only [List.length_append, List.length_map] at h2 h3 h4 h5 h6
    have segLO := SegOk.append h2 (h3.ofBase (by omega))
    have segOrSwap := SegOk.swap segLO (h4.ofBase (by simp only [List.length_append]; omega))
    have segSU := SegOk.append h5 (h6.ofBase (by omega))
    have segBig := SegOk.swap segOrSwap (segSU.ofBase (by
      simp only [List.length_append]; omega))
    have full := SegOk.append h1 (segBig.ofBase (by omega))
    refine SegOk.ofChunksEq (SegOk.ofEq (full.ofLitsEq (by
      simp only [List.append_assoc])) ?_) ?_
    · simp only [String.append_assoc, String.append_empty, String.empty_append]
    · simp only [List.cons_append, List.nil_append, List.append_assoc]

theorem pinsertRow_step (fuel : Nat) (ih : CorrAll fuel) : PStr renderInsertRow (fuel+1) := by
  intro st x ps0 tI psI h
  simp only [renderInsertRow, bind_ok_iff] at h
  obtain ⟨⟨vals, ps1⟩, hV, h⟩ := h
  simp only [Except.ok.injEq, Prod.mk.injEq] at h
  obtain ⟨ht, hps⟩ := h
  subst ht
  obtain ⟨hps1, hcorV⟩ := ih.insertCells st x ps0 vals ps1 hV
  refine ⟨by rw [← hps, hps1], fun qs0 => ?_⟩
  obtain ⟨lits, css, hP, hLS⟩ := hcorV qs0
  refine ⟨lits, .txt "(" :: (chunksIntercalate ", " css ++ [.txt ")"]), ?_, ?_⟩
  · simp only [renderInsertRow, hP, except_ok_bind, except_pure_eq,
      chunksParamText_append, chunksParamText, chunkParamText, chunksParamText_intercalate,
      Except.ok.injEq, Prod.mk.injEq,
      String.append_assoc, String.append_empty, String.empty_append, and_self]
  · intro hok
    have full := (((hLS hok).intercalate ", ").suffixTxt ")").prefixTxt "("
    refine SegOk.ofChunksEq (SegOk.ofEq full ?_) ?_
    · simp only [String.append_assoc, String.append_empty, String.empty_append]
    · simp only [List.cons_append, List.nil_append, List.append_assoc]

theorem pinsert_step (fuel : Nat) (ih : CorrAll fuel) : PStr renderInsert (fuel+1) := by
  intro st x ps0 tI psI h
  obtain ⟨table, columns, values⟩ := x
  cases values with
  | none =>
    simp only [renderInsert, except_error_bind] at h
    exact Except.noConfusion h
  | some v =>
    cases v with
    | defaultValues =>
      simp only [renderInsert, except_ok_bind, Except.ok.injEq, Prod.mk.injEq] at h
      obtain ⟨ht, hps⟩ := h
      subst ht; subst hps
      refine ⟨rfl, fun qs0 => ⟨[], [.txt ("INSERT INTO " ++ renderIdent table ++
        (match columns with
          | [] => ""
          | cs => " (" ++ String.intercalate ", " (cs.map renderIdent) ++ ")") ++
        " " ++ "DEFAULT VALUES")], ?_, fun _ => SegOk.txt _ _⟩⟩
      simp [renderInsert, chunksParamText, chunkParamText]
    | valuesConstructor rows =>
      simp only [renderInsert, except_ok_bind, bind_ok_iff] at h
      obtain ⟨⟨valuesS, ps1⟩, ⟨⟨rowL, psA⟩, hR, hVEq⟩, h⟩ := h
      simp only [Except.ok.injEq, Prod.mk.injEq] at h hVEq
      obtain ⟨hVS, hpsA⟩ := hVEq
      obtain ⟨ht, hps⟩ := h
      subst ht
      subst hVS
      obtain ⟨hps1, hcorR⟩ := ih.insertRows st rows ps0 rowL psA hR
      refine ⟨by rw [← hps, ← hpsA, hps1], fun qs0 => ?_⟩
      obtain ⟨lits, css, hP, hLS⟩ := hcorR qs0
      refine ⟨lits, .txt ("INSERT INTO " ++ renderIdent table ++
        (match columns with
          | [] => ""
          | cs => " (" ++ String.intercalate ", " (cs.map renderIdent) ++ ")") ++
        " " ++ "VALUES ") :: chunksIntercalate ", " css, ?_, ?_⟩
      · simp only [renderInsert, hP, except_ok_bind, except_pure_eq,
          chunksParamText, chunkParamText, chunksParamText_intercalate,
          Except.ok.injEq, Prod.mk.injEq,
          String.append_assoc, String.append_empty, String.empty_append, and_self]
      · intro hok
        have full := ((hLS hok).intercalate ", ").prefixTxt ("INSERT INTO " ++
          renderIdent table ++
          (match columns with
            | [] => ""
            | cs => " (" ++ String.intercalate ", " (cs.map renderIdent) ++ ")") ++
          " " ++ "VALUES ")
        refine SegOk.ofChunksEq (SegOk.ofEq full ?_) ?_
        · simp only [String.append_assoc, String.append_empty, String.empty_append]
        · simp only [List.cons_append, List.nil_append, List.append_assoc]
    | valuesQuery q =>
      simp only [renderInsert, except_ok_bind, bind_ok_iff] at h
      obtain ⟨⟨qS, ps1⟩, hQ, h⟩ := h
      simp only [Except.ok.injEq, Prod.mk.injEq] at h
      obtain ⟨ht, hps⟩ := h
      subst ht
      obtain ⟨hps1, hcorQ⟩ := ih.query st q ps0 qS ps1 hQ
      refine ⟨by rw [← hps, hps1], fun qs0 => ?_⟩
      obtain ⟨lits, cs, hP, hSeg⟩ := hcorQ qs0
      refine ⟨lits, .txt ("INSERT INTO " ++ renderIdent table ++
        (match columns with
          | [] => ""
          | cs => " (" ++ String.intercalate ", " (cs.map renderIdent) ++ ")") ++
        " ") :: cs, ?_, ?_⟩
      · simp only [renderInsert, hP, except_ok_bind, except_pure_eq,
          chunksParamText, chunkParamText,
          Except.ok.injEq, Prod.mk.injEq,
          String.append_assoc, String.append_empty, String.empty_append, and_self]
      · intro hok
        have full := (hSeg hok).prefixTxt ("INSERT INTO " ++ renderIdent table ++
          (match columns with
            | [] => ""
            | cs => " (" ++ String.intercalate ", " (cs.map renderIdent) ++ ")") ++
          " ")
        refine SegOk.ofChunksEq (SegOk.ofEq full ?_) ?_
        · simp only [String.append_assoc, String.append_empty, String.empty_append]
        · simp only [List.cons_append, List.nil_append, List.append_assoc]

theorem passignment_step (fuel : Nat) (ih : CorrAll fuel) : PStr renderAssignment (fuel+1) := by
  intro st x ps0 tI psI h
  obtain ⟨name, value⟩ := x
  cases value with
  | defaultValue =>
    simp only [renderAssignment, Except.ok.injEq, Prod.mk.injEq] at h
    obtain ⟨ht, hps⟩ := h
    subst ht; subst hps
    refine ⟨rfl, fun qs0 => ⟨[], [.txt (renderIdent name ++ " = DEFAULT")], ?_,
      fun _ => SegOk.txt _ _⟩⟩
    simp [renderAssignment, chunksParamText, chunkParamText]
  | exprCell e =>
    simp only [renderAssignment, bind_ok_iff] at h
    obtain ⟨⟨s, ps1⟩, hE, h⟩ := h
    simp only [Except.ok.injEq, Prod.mk.injEq] at h
    obtain ⟨ht, hps⟩ := h
    subst ht
    obtain ⟨hps1, hcorE⟩ := ih.expr st e ps0 s ps1 hE
    refine ⟨by rw [← hps, hps1], fun qs0 => ?_⟩
    obtain ⟨lits, cs, hP, hSeg⟩ := hcorE qs0
    refine ⟨lits, .txt (renderIdent name ++ " = ") :: cs, ?_, ?_⟩
    · simp only [renderAssignment, hP, except_ok_bind, except_pure_eq,
        chunksParamText, chunkParamText, Except.ok.injEq, Prod.mk.injEq,
        String.append_assoc, String.append_empty, String.empty_append, and_self]
    · intro hok
      have full := (hSeg hok).prefixTxt (renderIdent name ++ " = ")
      refine SegOk.ofChunksEq (SegOk.ofEq full ?_) ?_
      · simp only [String.append_assoc, String.append_empty, String.empty_append]
      · simp only [List.cons_append, List.nil_append, List.append_assoc]

theorem pupdate_step (fuel : Nat) (ih : CorrAll fuel) : PStr renderUpdate (fuel+1) := by
  intro st x ps0 tI psI h
  obtain ⟨table, assignments, whereExpr⟩ := x
  simp only [renderUpdate, except_ok_bind, bind_ok_iff] at h
  obtain ⟨⟨setL, ps1⟩, hA, h⟩ := h
  obtain ⟨⟨whereS, ps2⟩, hW, h⟩ := h
  simp only [Except.ok.injEq, Prod.mk.injEq] at h
  obtain ⟨ht, hps⟩ := h
  subst ht
  obtain ⟨hps1, hcorA⟩ := ih.assignments st assignments ps0 setL ps1 hA
  rw [hps1] at hW
  obtain ⟨hps2, hcorW⟩ := ih.wherePart st whereExpr ps0 whereS ps2 hW
  refine ⟨by rw [← hps, hps2], fun qs0 => ?_⟩
  obtain ⟨lits1, css1, hP1, hLS1⟩ := hcorA qs0
  obtain ⟨lits2, cs2, hP2, hSeg2⟩ := hcorW (qs0 ++ lits1.map Literal.jsVal)
  refine ⟨lits1 ++ lits2, .txt ("UPDATE " ++ renderIdent table ++ " SET ") ::
    (chunksIntercalate ", " css1 ++ cs2), ?_, ?_⟩
  · simp only [renderUpdate, hP1, hP2, except_ok_bind, except_pure_eq,
      chunksParamText_append, chunksParamText, chunkParamText, chunksParamText_intercalate,
      List.map_append, List.append_assoc, Except.ok.injEq, Prod.mk.injEq,
      String.append_assoc, String.append_empty, String.empty_append, and_self]
  · intro hok
    have h2 := hSeg2 hok.right
    simp only [List.length_append, List.length_map] at h2
    have full := SegOk.append ((hLS1 hok.left).intercalate ", ") h2
      |>.prefixTxt ("UPDATE " ++ renderIdent table ++ " SET ")
    refine SegOk.ofChunksEq (SegOk.ofEq full ?_) ?_
    · simp only [String.append_assoc, String.append_empty, String.empty_append]
    · simp only [List.cons_append, List.nil_append, List.append_assoc]

theorem pupdatePositioned_step (fuel : Nat) (ih : CorrAll fuel) :
    PStr renderUpdatePositioned (fuel+1) := by
  intro st x ps0 tI psI h
  obtain ⟨table, assignments, cursor⟩ := x
  simp only [renderUpdatePositioned, bind_ok_iff] at h
  obtain ⟨⟨setL, ps1⟩, hA, h⟩ := h
  simp only [Except.ok.injEq, Prod.mk.injEq] at h
  obtain ⟨ht, hps⟩ := h
  subst ht
  obtain ⟨hps1, hcorA⟩ := ih.assignments st assignments ps0 setL ps1 hA
  refine ⟨by rw [← hps, hps1], fun qs0 => ?_⟩
  obtain ⟨lits, css, hP, hLS⟩ := hcorA qs0
  refine ⟨lits, .txt ("UPDATE " ++ renderIdent table ++ " SET ") ::
    (chunksIntercalate ", " css ++ [.txt (" WHERE CURRENT OF " ++ renderIdent cursor)]),
    ?_, ?_⟩
  · simp only [renderUpdatePositioned, hP, except_ok_bind, except_pure_eq,
      chunksParamText_append, chunksParamText, chunkParamText, chunksParamText_intercalate,
      Except.ok.injEq, Prod.mk.injEq,
      String.append_assoc, String.append_empty, String.empty_append, and_self]
  · intro hok
    have full := (((hLS hok).intercalate ", ").suffixTxt
      (" WHERE CURRENT OF " ++ renderIdent cursor)).prefixTxt
      ("UPDATE " ++ renderIdent table ++ " SET ")
    refine SegOk.ofChunksEq (SegOk.ofEq full ?_) ?_
    · simp only [String.append_assoc, String.append_empty, String.empty_append]
    · simp only [List.cons_append, List.nil_append, List.append_assoc]

theorem pdelete_step (fuel : Nat) (ih : CorrAll fuel) : PStr renderDelete (fuel+1) := by
  intro st x ps0 tI psI h
  obtain ⟨table, whereExpr⟩ := x
  simp only [renderDelete, bind_ok_iff] at h
  obtain ⟨⟨whereS, ps1⟩, hW, h⟩ := h
  simp only [Except.ok.injEq, Prod.mk.injEq] at h
  obtain ⟨ht, hps⟩ := h
  subst ht
  obtain ⟨hps1, hcorW⟩ := ih.wherePart st whereExpr ps0 whereS ps1 hW
  refine ⟨by rw [← hps, hps1], fun qs0 => ?_⟩
  obtain ⟨lits, cs, hP, hSeg⟩ := hcorW qs0
  refine ⟨lits, .txt ("DELETE FROM " ++ renderIdent table) :: cs, ?_, ?_⟩
  · simp only [renderDelete, hP, except_ok_bind, except_pure_eq,
      chunksParamText, chunkParamText, Except.ok.injEq, Prod.mk.injEq,
      String.append_assoc, String.append_empty, String.empty_append, and_self]
  · intro hok
    have full := (hSeg hok).prefixTxt ("DELETE FROM " ++ renderIdent table)
    refine SegOk.ofChunksEq (SegOk.ofEq full ?_) ?_
    · simp only [String.append_assoc, String.append_empty, String.empty_append]
    · simp only [List.cons_append, List.nil_append, List.append_assoc]

theorem pcheckConstraint_step (fuel : Nat) (ih : CorrAll fuel) :
    PStr renderCheckConstraint (fuel+1) := by
  intro st x ps0 tI psI h
  obtain ⟨search⟩ := x
  simp only [renderCheckConstraint, bind_ok_iff] at h
  obtain ⟨⟨q, ps1⟩, hQ, h⟩ := h
  simp only [Except.ok.injEq, Prod.mk.injEq] at h
  obtain ⟨ht, hps⟩ := h
  subst ht
  obtain ⟨hps1, hcorQ⟩ := ih.query st search ps0 q ps1 hQ
  refine ⟨by rw [← hps, hps1], fun qs0 => ?_⟩
  obtain ⟨lits, cs, hP, hSeg⟩ := hcorQ qs0
  refine ⟨lits, .txt "CHECK " :: cs, ?_, ?_⟩
  · simp only [renderCheckConstraint, hP, except_ok_bind, except_pure_eq,
      chunksParamText, chunkParamText, Except.ok.injEq, Prod.mk.injEq,
      String.append_assoc, String.append_empty, String.empty_append, and_self]
  · intro hok
    have full := (hSeg hok).prefixTxt "CHECK "
    refine SegOk.ofChunksEq (SegOk.ofEq full ?_) ?_
    · simp only [String.append_assoc, String.append_empty, String.empty_append]
    · simp only [List.cons_append, List.nil_append, List.append_assoc]

theorem pcolumnConstraintDef_step (fuel : Nat) (ih : CorrAll fuel) :
    PStr renderColumnConstraintDef (fuel+1) := by
  intro st x ps0 tI psI h
  obtain ⟨name, constraint, attributes⟩ := x
  cases constraint with
  | columnNotNull =>
    simp only [renderColumnConstraintDef, except_ok_bind, Except.ok.injEq, Prod.mk.injEq] at h
    obtain ⟨ht, hps⟩ := h
    subst ht; subst hps
    refine ⟨rfl, fun qs0 => ⟨[], [.txt ((match name with
      | none => ""
      | some n => renderIdent n ++ " ") ++ " NOT NULL" ++ (match attributes with
      | none => ""
      | some a => " " ++ renderConstraintCheckTime a))], ?_, fun _ => SegOk.txt _ _⟩⟩
    simp [renderColumnConstraintDef, chunksParamText, chunkParamText]
  | uniqueConstraint c =>
    simp only [renderColumnConstraintDef, except_ok_bind, Except.ok.injEq, Prod.mk.injEq] at h
    obtain ⟨ht, hps⟩ := h
    subst ht; subst hps
    refine ⟨rfl, fun qs0 => ⟨[], [.txt ((match name with
      | none => ""
      | some n => renderIdent n ++ " ") ++ renderUniqueConstraint c ++ (match attributes with
      | none => ""
      | some a => " " ++ renderConstraintCheckTime a))], ?_, fun _ => SegOk.txt _ _⟩⟩
    simp [renderColumnConstraintDef, chunksParamText, chunkParamText]
  | referenceConstraint c =>
    simp only [renderColumnConstraintDef, except_ok_bind, Except.ok.injEq, Prod.mk.injEq] at h
    obtain ⟨ht, hps⟩ := h
    subst ht; subst hps
    refine ⟨rfl, fun qs0 => ⟨[], [.txt ((match name with
      | none => ""
      | some n => renderIdent n ++ " ") ++ renderReferenceConstraint c ++ (match attributes with
      | none => ""
      | some a => " " ++ renderConstraintCheckTime a))], ?_, fun _ => SegOk.txt _ _⟩⟩
    simp [renderColumnConstraintDef, chunksParamText, chunkParamText]
  | checkConstraint c =>
    simp only [renderColumnConstraintDef, except_ok_bind, bind_ok_iff] at h
    obtain ⟨⟨cstr, ps1⟩, hC, h⟩ := h
    simp only [Except.ok.injEq, Prod.mk.injEq] at h
    obtain ⟨ht, hps⟩ := h
    subst ht
    obtain ⟨hps1, hcorC⟩ := ih.checkConstraint st c ps0 cstr ps1 hC
    refine ⟨by rw [← hps, hps1], fun qs0 => ?_⟩
    obtain ⟨lits, cs, hP, hSeg⟩ := hcorC qs0
    refine ⟨lits, .txt (match name with
      | none => ""
      | some n => renderIdent n ++ " ") :: (cs ++ [.txt (match attributes with
      | none => ""
      | some a => " " ++ renderConstraintCheckTime a)]), ?_, ?_⟩
    · simp only [renderColumnConstraintDef, hP, except_ok_bind, except_pure_eq,
        chunksParamText_append, chunksParamText, chunkParamText,
        Except.ok.injEq, Prod.mk.injEq,
        String.append_assoc, String.append_empty, String.empty_append, and_self]
    · intro hok
      have full := ((hSeg hok).suffixTxt (match attributes with
        | none => ""
        | some a => " " ++ renderConstraintCheckTime a)).prefixTxt (match name with
        | none => ""
        | some n => renderIdent n ++ " ")
      refine SegOk.ofChunksEq (SegOk.ofEq full ?_) ?_
      · simp only [String.append_assoc, String.append_empty, String.empty_append]
      · simp only [List.cons_append, List.nil_append, List.append_assoc]

theorem ptableConstraint_step (fuel : Nat) (ih : CorrAll fuel) :
    PStr renderTableConstraint (fuel+1) := by
  intro st x ps0 tI psI h
  obtain ⟨name, constraint, checkTime⟩ := x
  cases constraint with
  | uniqueConstraint c =>
    simp only [renderTableConstraint, except_ok_bind, Except.ok.injEq, Prod.mk.injEq] at h
    obtain ⟨ht, hps⟩ := h
    subst ht; subst hps
    refine ⟨rfl, fun qs0 => ⟨[], [.txt ((match name with
      | none => ""
      | some n => renderIdent n ++ " ") ++ renderUniqueConstraint c ++ (match checkTime with
      | none => ""
      | some a => " " ++ renderConstraintCheckTime a))], ?_, fun _ => SegOk.txt _ _⟩⟩
    simp [renderTableConstraint, chunksParamText, chunkParamText]
  | referenceConstraint c =>
    simp only [renderTableConstraint, except_ok_bind, Except.ok.injEq, Prod.mk.injEq] at h
    obtain ⟨ht, hps⟩ := h
    subst ht; subst hps
    refine ⟨rfl, fun qs0 => ⟨[], [.txt ((match name with
      | none => ""
      | some n => renderIdent n ++ " ") ++ renderReferenceConstraint c ++ (match checkTime with
      | none => ""
      | some a => " " ++ renderConstraintCheckTime a))], ?_, fun _ => SegOk.txt _ _⟩⟩
    simp [renderTableConstraint, chunksParamText, chunkParamText]
  | checkConstraint c =>
    simp only [renderTableConstraint, except_ok_bind, bind_ok_iff] at h
    obtain ⟨⟨cstr, ps1⟩, hC, h⟩ := h
    simp only [Except.ok.injEq, Prod.mk.injEq] at h
    obtain ⟨ht, hps⟩ := h
    subst ht
    obtain ⟨hps1, hcorC⟩ := ih.checkConstraint st c ps0 cstr ps1 hC
    refine ⟨by rw [← hps, hps1], fun qs0 => ?_⟩
    obtain ⟨lits, cs, hP, hSeg⟩ := hcorC qs0
    refine ⟨lits, .txt (match name with
      | none => ""
      | some n => renderIdent n ++ " ") :: (cs ++ [.txt (match checkTime with
      | none => ""
      | some a => " " ++ renderConstraintCheckTime a)]), ?_, ?_⟩
    · simp only [renderTableConstraint, hP, except_ok_bind, except_pure_eq,
        chunksParamText_append, chunksParamText, chunkParamText,
        Except.ok.injEq, Prod.mk.injEq,
        String.append_assoc, String.append_empty, String.empty_append, and_self]
    · intro hok
      have full := ((hSeg hok).suffixTxt (match checkTime with
        | none => ""
        | some a => " " ++ renderConstraintCheckTime a)).prefixTxt (match name with
        | none => ""
        | some n => renderIdent n ++ " ")
      refine SegOk.ofChunksEq (SegOk.ofEq full ?_) ?_
      · simp only [String.append_assoc, String.append_empty, String.empty_append]
      · simp only [List.cons_append, List.nil_append, List.append_assoc]

theorem pviewDefinition_step (fuel : Nat) (ih : CorrAll fuel) :
    PStr renderViewDefinition (fuel+1) := by
  intro st x ps0 tI psI h
  obtain ⟨name, columns, query, checkOption⟩ := x
  simp only [renderViewDefinition, bind_ok_iff] at h
  obtain ⟨⟨q, ps1⟩, hQ, h⟩ := h
  simp only [Except.ok.injEq, Prod.mk.injEq] at h
  obtain ⟨ht, hps⟩ := h
  subst ht
  obtain ⟨hps1, hcorQ⟩ := ih.query st query ps0 q ps1 hQ
  refine ⟨by rw [← hps, hps1], fun qs0 => ?_⟩
  obtain ⟨lits, cs, hP, hSeg⟩ := hcorQ qs0
  refine ⟨lits, .txt ("CREATE VIEW " ++ renderIdent name ++ (match columns with
    | none => ""
    | some cols => " " ++ String.intercalate "," (cols.map renderIdent)) ++ " AS ") ::
    (cs ++ [.txt (match checkOption with
    | some .cascaded => " WITH CASCADED CHECK OPTION"
    | some .localOpt => " WITH LOCAL CHECK OPTION"
    | none => "")]), ?_, ?_⟩
  · simp only [renderViewDefinition, hP, except_ok_bind, except_pure_eq,
      chunksParamText_append, chunksParamText, chunkParamText,
      Except.ok.injEq, Prod.mk.injEq,
      String.append_assoc, String.append_empty, String.empty_append, and_self]
  · intro hok
    have full := ((hSeg hok).suffixTxt (match checkOption with
      | some .cascaded => " WITH CASCADED CHECK OPTION"
      | some .localOpt => " WITH LOCAL CHECK OPTION"
      | none => "")).prefixTxt ("CREATE VIEW " ++ renderIdent name ++ (match columns with
      | none => ""
      | some cols => " " ++ String.intercalate "," (cols.map renderIdent)) ++ " AS ")
    refine SegOk.ofChunksEq (SegOk.ofEq full ?_) ?_
    · simp only [String.append_assoc, String.append_empty, String.empty_append]
    · simp only [List.cons_append, List.nil_append, List.append_assoc]

theorem passertionDefinition_step (fuel : Nat) (ih : CorrAll fuel) :
    PStr renderAssertionDefinition (fuel+1) := by
  intro st x ps0 tI psI h
  obtain ⟨name, search, checkTime⟩ := x
  simp only [renderAssertionDefinition, bind_ok_iff] at h
  obtain ⟨⟨q, ps1⟩, hQ, h⟩ := h
  simp only [Except.ok.injEq, Prod.mk.injEq] at h
  obtain ⟨ht, hps⟩ := h
  subst ht
  obtain ⟨hps1, hcorQ⟩ := ih.query st search ps0 q ps1 hQ
  refine ⟨by rw [← hps, hps1], fun qs0 => ?_⟩
  obtain ⟨lits, cs, hP, hSeg⟩ := hcorQ qs0
  refine ⟨lits, .txt ("CREATE ASSERTION " ++ renderIdent name ++ " CHECK (") ::
    (cs ++ [.txt (")" ++ (match checkTime with
    | none => ""
    | some a => " " ++ renderConstraintCheckTime a))]), ?_, ?_⟩
  · simp only [renderAssertionDefinition, hP, except_ok_bind, except_pure_eq,
      chunksParamText_append, chunksParamText, chunkParamText,
      Except.ok.injEq, Prod.mk.injEq,
      String.append_assoc, String.append_empty, String.empty_append, and_self]
  · intro hok
    have full := ((hSeg hok).suffixTxt (")" ++ (match checkTime with
      | none => ""
      | some a => " " ++ renderConstraintCheckTime a))).prefixTxt
      ("CREATE ASSERTION " ++ renderIdent name ++ " CHECK (")
    refine SegOk.ofChunksEq (SegOk.ofEq full ?_) ?_
    · simp only [String.append_assoc, String.append_empty, String.empty_append]
    · simp only [List.cons_append, List.nil_append, List.append_assoc]

theorem listSeg_ofBase {b b' : Nat} {ts : List String} {l : List Literal}
    {css : List (List Chunk)} (h : ListSeg b ts l css) (hb : b = b') :
    ListSeg b' ts l css := hb ▸ h

theorem listSeg_ofLitsEq {b : Nat} {ts : List String} {l l' : List Literal}
    {css : List (List Chunk)} (h : ListSeg b ts l css) (hl : l = l') :
    ListSeg b ts l' css := hl ▸ h

theorem listSeg_append {b : Nat} {ts1 ts2 : List String} {l1 l2 : List Literal}
    {css1 css2 : List (List Chunk)} (h1 : ListSeg b ts1 l1 css1)
    (h2 : ListSeg (b + l1.length) ts2 l2 css2) :
    ListSeg b (ts1 ++ ts2) (l1 ++ l2) (css1 ++ css2) := by
  induction h1 generalizing ts2 l2 css2 with
  | nil b => simpa using h2
  | cons hseg htail ih =>
    simp only [List.cons_append]
    refine listSeg_ofLitsEq (ListSeg.cons hseg (ih (listSeg_ofBase h2 ?_))) (List.append_assoc _ _ _).symm
    simp only [List.length_append]
    omega

theorem ptableDefinition_step (fuel : Nat) (ih : CorrAll fuel) :
    PStr renderTableDefinition (fuel+1) := by
  intro st x ps0 tI psI h
  obtain ⟨name, mode, columns, constraints, onCommit⟩ := x
  simp only [renderTableDefinition, except_ok_bind, bind_ok_iff] at h
  obtain ⟨⟨colL, ps1⟩, hCol, h⟩ := h
  obtain ⟨⟨conL, ps2⟩, hCon, h⟩ := h
  simp only [Except.ok.injEq, Prod.mk.injEq] at h
  obtain ⟨ht, hps⟩ := h
  subst ht
  obtain ⟨hps1, hcorCol⟩ := ih.columnDefinitions st columns ps0 colL ps1 hCol
  rw [hps1] at hCon
  obtain ⟨hps2, hcorCon⟩ := ih.tableConstraints st constraints ps0 conL ps2 hCon
  refine ⟨by rw [← hps, hps2], fun qs0 => ?_⟩
  obtain ⟨lits1, css1, hP1, hLS1⟩ := hcorCol qs0
  obtain ⟨lits2, css2, hP2, hLS2⟩ := hcorCon (qs0 ++ lits1.map Literal.jsVal)
  refine ⟨lits1 ++ lits2, .txt ("CREATE" ++ (match mode with
      | .globalTemp => " GLOBAL TEMPORARY"
      | .localTemp => " Local TEMPORARY"
      | .persistent => "") ++ " TABLE " ++ renderIdent name ++ " " ++ "(") ::
    (chunksIntercalate ", " (css1 ++ css2) ++ [.txt (")" ++ (match onCommit with
      | some .deleteRows => " ON COMMIT DELETE ROWS"
      | some .preserveRows => " ON COMMIT PRESERVE ROWS"
      | none => ""))]), ?_, ?_⟩
  · simp only [renderTableDefinition, hP1, hP2, except_ok_bind, except_pure_eq,
      chunksParamText_append, chunksParamText, chunkParamText, chunksParamText_intercalate,
      List.map_append, List.append_assoc, Except.ok.injEq, Prod.mk.injEq,
      String.append_assoc, String.append_empty, String.empty_append, and_self]
  · intro hok
    have h2 := hLS2 hok.right
    simp only [List.length_append, List.length_map] at h2
    have hls := listSeg_append (hLS1 hok.left) h2
    have full := (((hls.intercalate ", ").suffixTxt (")" ++ (match onCommit with
      | some .deleteRows => " ON COMMIT DELETE ROWS"
      | some .preserveRows => " ON COMMIT PRESERVE ROWS"
      | none => ""))).prefixTxt ("CREATE" ++ (match mode with
      | .globalTemp => " GLOBAL TEMPORARY"
      | .localTemp => " Local TEMPORARY"
      | .persistent => "") ++ " TABLE " ++ renderIdent name ++ " " ++ "("))
    refine SegOk.ofChunksEq (SegOk.ofEq full ?_) ?_
    · simp only [String.append_assoc, String.append_empty, String.empty_append]
    · simp only [List.cons_append, List.nil_append, List.append_assoc]

theorem pdomainDefinition_step (fuel : Nat) (ih : CorrAll fuel) :
    PStr renderDomainDefinition (fuel+1) := by
  intro st x ps0 tI psI h
  obtain ⟨name, dt, defaultOpt, constraintName, constraintExpr, constraintAttributes,
    collation⟩ := x
  cases defaultOpt with
  | none =>
    cases constraintExpr with
    | none =>
      simp only [renderDomainDefinition, renderDataType, except_ok_bind,
        except_error_bind] at h
      exact Except.noConfusion h
    | some q =>
      simp only [renderDomainDefinition, renderDataType, except_ok_bind,
        except_error_bind, bind_ok_iff] at h
      obtain ⟨v, _, h⟩ := h
      exact Except.noConfusion h
  | some d =>
    cases constraintExpr with
    | none =>
      simp only [renderDomainDefinition, renderDataType, except_ok_bind,
        except_error_bind, bind_ok_iff] at h
      obtain ⟨v, _, h⟩ := h
      exact Except.noConfusion h
    | some q =>
      simp only [renderDomainDefinition, renderDataType, except_ok_bind,
        except_error_bind, bind_ok_iff] at h
      obtain ⟨v, _, h⟩ := h
      obtain ⟨u, _, h⟩ := h
      exact Except.noConfusion h

theorem pcolumnDefinition_step (fuel : Nat) (ih : CorrAll fuel) :
    PStr renderColumnDefinition (fuel+1) := by
  intro st x ps0 tI psI h
  obtain ⟨name, colType, defaultOpt, constraints, collation⟩ := x
  cases colType with
  | dataTypeCol d =>
    simp only [renderColumnDefinition, renderDataType, except_error_bind] at h
    exact Except.noConfusion h
  | identType i =>
    cases defaultOpt with
    | none =>
      simp only [renderColumnDefinition, except_ok_bind, bind_ok_iff] at h
      obtain ⟨⟨conL, ps1⟩, hCon, h⟩ := h
      simp only [Except.ok.injEq, Prod.mk.injEq] at h
      obtain ⟨ht, hps⟩ := h
      subst ht
      obtain ⟨hps1, hcorCon⟩ := ih.columnConstraintDefs st constraints ps0 conL ps1 hCon
      refine ⟨by rw [← hps, hps1], fun qs0 => ?_⟩
      obtain ⟨lits, css, hP, hLS⟩ := hcorCon qs0
      by_cases hPe :
        String.intercalate " " (css.map (chunksParamText ⟨true, st⟩)) = ""
      · refine ⟨lits, .txt (renderIdent name ++ " " ++ renderIdent i) ::
          (chunksIntercalate " " css ++ [.txt (match collation with
            | none => ""
            | some c => " COLLATE " ++ renderIdent c)]), ?_, ?_⟩
        · simp only [renderColumnDefinition, hP, except_ok_bind, except_pure_eq]
          rw [if_pos hPe]
          simp only [chunksParamText_append, chunksParamText, chunkParamText,
            chunksParamText_intercalate, hPe, Except.ok.injEq, Prod.mk.injEq,
            String.append_assoc, String.append_empty, String.empty_append, and_self]
        · intro hok
          obtain ⟨hl0, hJI⟩ :=
            listSeg_intercalate_empty_param " " (by decide) (hLS hok) hPe
          have hiteI : (if String.intercalate " " conL = "" then ""
              else " " ++ String.intercalate " " conL) = "" := by
            rw [hJI]
            simp
          have full := ((((hLS hok).intercalate " ").suffixTxt (match collation with
            | none => ""
            | some c => " COLLATE " ++ renderIdent c)).prefixTxt
            (renderIdent name ++ " " ++ renderIdent i))
          refine SegOk.ofChunksEq (SegOk.ofEq full ?_) ?_
          · simp only [hiteI, hJI, if_true, String.append_assoc, String.append_empty,
              String.empty_append]
          · simp only [List.cons_append, List.nil_append, List.append_assoc]
      · refine ⟨lits, .txt (renderIdent name ++ " " ++ renderIdent i) ::
          .txt " " :: (chunksIntercalate " " css ++ [.txt (match collation with
            | none => ""
            | some c => " COLLATE " ++ renderIdent c)]), ?_, ?_⟩
        · simp only [renderColumnDefinition, hP, except_ok_bind, except_pure_eq]
          rw [if_neg hPe]
          simp only [chunksParamText_append, chunksParamText, chunkParamText,
            chunksParamText_intercalate, Except.ok.injEq, Prod.mk.injEq,
            String.append_assoc, String.append_empty, String.empty_append, and_self]
        · intro hok
          have hJIne : String.intercalate " " conL ≠ "" := by
            intro hJI
            obtain ⟨_, hPP⟩ :=
              listSeg_intercalate_empty_inline " " (by decide) (hLS hok) hok hJI
            exact hPe hPP
          have full := (((((hLS hok).intercalate " ").prefixTxt " ").suffixTxt
            (match collation with
            | none => ""
            | some c => " COLLATE " ++ renderIdent c)).prefixTxt
            (renderIdent name ++ " " ++ renderIdent i))
          refine SegOk.ofChunksEq (SegOk.ofEq full ?_) ?_
          · rw [if_neg hJIne]
            simp only [String.append_assoc, String.append_empty, String.empty_append]
          · simp only [List.cons_append, List.nil_append, List.append_assoc]
    | some d =>
      simp only [renderColumnDefinition, except_ok_bind, bind_ok_iff] at h
      obtain ⟨⟨defaultS, ps1⟩, ⟨⟨dS0, psA⟩, hD, hDEq⟩, h⟩ := h
      obtain ⟨⟨conL, ps2⟩, hCon, h⟩ := h
      simp only [Except.ok.injEq, Prod.mk.injEq] at h hDEq
      obtain ⟨hDS, hpsA⟩ := hDEq
      obtain ⟨ht, hps⟩ := h
      subst ht
      subst hDS
      obtain ⟨hps1, hcorD⟩ := renderDefaultOption_corr st d ps0 dS0 psA hD
      rw [hpsA] at hps1
      rw [hps1] at hCon
      obtain ⟨hps2, hcorCon⟩ := ih.columnConstraintDefs st constraints ps0 conL ps2 hCon
      refine ⟨by rw [← hps, hps2], fun qs0 => ?_⟩
      obtain ⟨l1, cs1, hPd, hSegD⟩ := hcorD qs0
      obtain ⟨lits, css, hP, hLS⟩ := hcorCon (qs0 ++ l1.map Literal.jsVal)
      by_cases hPe :
        String.intercalate " " (css.map (chunksParamText ⟨true, st⟩)) = ""
      · refine ⟨l1 ++ lits, .txt (renderIdent name ++ " " ++ renderIdent i) ::
          .txt " " :: (cs1 ++ (chunksIntercalate " " css ++ [.txt (match collation with
            | none => ""
            | some c => " COLLATE " ++ renderIdent c)])), ?_, ?_⟩
        · simp only [renderColumnDefinition, hPd, hP, except_ok_bind, except_pure_eq]
          rw [if_pos hPe]
          simp only [chunksParamText_append, chunksParamText, chunkParamText,
            chunksParamText_intercalate, hPe, List.map_append, List.append_assoc,
            Except.ok.injEq, Prod.mk.injEq,
            String.append_assoc, String.append_empty, String.empty_append, and_self]
        · intro hok
          have h2 := hLS hok.right
          simp only [List.length_append, List.length_map] at h2
          obtain ⟨hl0, hJI⟩ :=
            listSeg_intercalate_empty_param " " (by decide) h2 hPe
          have hiteI : (if String.intercalate " " conL = "" then ""
              else " " ++ String.intercalate " " conL) = "" := by
            rw [hJI]
            simp
          have core := SegOk.append (hSegD hok.left) (h2.intercalate " ")
          have full := (((core.suffixTxt (match collation with
            | none => ""
            | some c => " COLLATE " ++ renderIdent c)).prefixTxt " ").prefixTxt
            (renderIdent name ++ " " ++ renderIdent i))
          refine SegOk.ofChunksEq (SegOk.ofEq full ?_) ?_
          · simp only [hiteI, hJI, if_true, String.append_assoc, String.append_empty,
              String.empty_append]
          · simp only [List.cons_append, List.nil_append, List.append_assoc]
      · refine ⟨l1 ++ lits, .txt (renderIdent name ++ " " ++ renderIdent i) ::
          .txt " " :: (cs1 ++ (.txt " " :: chunksIntercalate " " css ++
            [.txt (match collation with
            | none => ""
            | some c => " COLLATE " ++ renderIdent c)])), ?_, ?_⟩
        · simp only [renderColumnDefinition, hPd, hP, except_ok_bind, except_pure_eq]
          rw [if_neg hPe]
          simp only [List.append_eq, chunksParamText_append, chunksParamText, chunkParamText,
            chunksParamText_intercalate, List.map_append, List.append_assoc,
            Except.ok.injEq, Prod.mk.injEq,
            String.append_assoc, String.append_empty, String.empty_append, and_self]
        · intro hok
          have h2 := hLS hok.right
          simp only [List.length_append, List.length_map] at h2
          have hJIne : String.intercalate " " conL ≠ "" := by
            intro hJI
            obtain ⟨_, hPP⟩ :=
              listSeg_intercalate_empty_inline " " (by decide) h2 hok.right hJI
            exact hPe hPP
          have core := SegOk.append (hSegD hok.left)
            ((h2.intercalate " ").prefixTxt " ")
          have full := (((core.suffixTxt (match collation with
            | none => ""
            | some c => " COLLATE " ++ renderIdent c)).prefixTxt " ").prefixTxt
            (renderIdent name ++ " " ++ renderIdent i))
          refine SegOk.ofChunksEq (SegOk.ofEq full ?_) ?_
          · rw [if_neg hJIne]
            simp only [String.append_assoc, String.append_empty, String.empty_append]
          · simp only [List.cons_append, List.nil_append, List.append_assoc]

theorem corrAll_step (fuel : Nat) (ih : CorrAll fuel) : CorrAll (fuel+1) where
  expr := pexpr_step fuel ih
  exprList := pexprList_step fuel ih
  caseArm := pcaseArm_step fuel ih
  caseArms := pcaseArms_step fuel ih
  table := ptable_step fuel ih
  join := pjoin_step fuel ih
  joins := pjoins_step fuel ih
  selection := pselection_step fuel ih
  selections := pselections_step fuel ih
  wherePart := pwherePart_step fuel ih
  groupByPart := pgroupByPart_step fuel ih
  havingPart := phavingPart_step fuel ih
  fromPart := pfromPart_step fuel ih
  select := pselect_step fuel ih
  cte := pcte_step fuel ih
  ctes := pctes_step fuel ih
  ctesPart := pctesPart_step fuel ih
  limitPart := plimitPart_step fuel ih
  offsetPart := poffsetPart_step fuel ih
  ordering := pordering_step fuel ih
  orderingList := porderingList_step fuel ih
  orderingPart := porderingPart_step fuel ih
  union := punion_step fuel ih
  unions := punions_step fuel ih
  unionsPart := punionsPart_step fuel ih
  query := pquery_step fuel ih
  insertCells := pinsertCells_step fuel ih
  insertRow := pinsertRow_step fuel ih
  insertRows := pinsertRows_step fuel ih
  insert := pinsert_step fuel ih
  assignment := passignment_step fuel ih
  assignments := passignments_step fuel ih
  update := pupdate_step fuel ih
  updatePositioned := pupdatePositioned_step fuel ih
  delete := pdelete_step fuel ih
  checkConstraint := pcheckConstraint_step fuel ih
  columnConstraintDef := pcolumnConstraintDef_step fuel ih
  columnConstraintDefs := pcolumnConstraintDefs_step fuel ih
  columnDefinition := pcolumnDefinition_step fuel ih
  columnDefinitions := pcolumnDefinitions_step fuel ih
  tableConstraint := ptableConstraint_step fuel ih
  tableConstraints := ptableConstraints_step fuel ih
  tableDefinition := ptableDefinition_step fuel ih
  viewDefinition := pviewDefinition_step fuel ih
  domainDefinition := pdomainDefinition_step fuel ih
  assertionDefinition := passertionDefinition_step fuel ih

theorem corrAll : ∀ fuel, CorrAll fuel
  | 0 => corrAll_zero
  | fuel+1 => corrAll_step fuel (corrAll fuel)

/-- C8 counterexample: the claim reads the round trip as substituting
the accumulated parameter values back into the returned placeholders in
buffer order, i.e. into the placeholder occurrences in the order they
appear in the output text.  With the `'?'` placeholder style this is
refuted: `SELECT 7 LIMIT 10` renders in params mode as
`SELECT ? LIMIT ?` with buffer `[10, 7]` (the `LIMIT` literal is
evaluated and pushed before the selection literal), and substituting the
buffer values into the `?` occurrences in order produces
`SELECT 10 LIMIT 7`, which differs from the inline rendering
`SELECT 7 LIMIT 10`. -/
theorem C8_substitution_order_counterexample :
    renderStatement 30 ⟨true, .question⟩ (.query selectWithLimit) [] =
      .ok (.text "SELECT ? LIMIT ?", [.num 10, .num 7]) ∧
    renderStatement 30 ⟨false, .question⟩ (.query selectWithLimit) [] =
      .ok (.text "SELECT 7 LIMIT 10", []) ∧
    substituteQuestionMarks "SELECT ? LIMIT ?"
      ([Value.num 10, Value.num 7].map valueRawText) = "SELECT 10 LIMIT 7" ∧
    "SELECT 10 LIMIT 7" ≠ "SELECT 7 LIMIT 10" :=
  ⟨rfl, rfl, by decide, by decide⟩

/-- C8 amended: the round-trip property holds with the correspondence
taken by placeholder *number* (buffer position), not by occurrence order
in the text, and under the side condition that every pushed literal has
a non-empty inline rendering.  For every statement of the built-in
grammar and either placeholder style: if the inline-mode render from the
empty buffer succeeds with text `tI`, then the params-mode render from
the empty buffer succeeds, its parameter buffer is exactly the pushed
literals' JS values in evaluation order, and its output text decomposes
into text and placeholder chunks whose placeholder numbers are exactly
`1..n` as a multiset (each parameter used exactly once, though not
necessarily in occurrence order), such that replacing the placeholder
numbered `k` by the inline rendering of the `k`-th pushed literal
recovers `tI` exactly — literal values and quoting included. -/
theorem C8_amended_round_trip (fuel : Nat) (st : PlaceHolderStyle) (s : Statement) (tI : String)
    (h : renderStatement fuel ⟨false, st⟩ s [] = .ok (.text tI, [])) :
    ∃ lits cs,
      renderStatement fuel ⟨true, st⟩ s [] =
        .ok (.text (chunksParamText ⟨true, st⟩ cs), lits.map Literal.jsVal) ∧
      (LitsOk lits →
        (phIndices cs : Multiset Nat) = ↑(List.range' 1 lits.length) ∧
        chunksSubst (canonSigma 0 lits) cs = tI) := by
  cases s with
  | query q =>
    simp only [renderStatement, bind_ok_iff] at h
    obtain ⟨⟨sI, psI⟩, hQ, heq⟩ := h
    simp only [Except.ok.injEq, Prod.mk.injEq, StatementOutput.text.injEq] at heq
    obtain ⟨ht, hps⟩ := heq
    subst ht; subst hps
    obtain ⟨-, hcor⟩ := (corrAll fuel).query st q [] sI [] hQ
    obtain ⟨lits, cs, hP, hSeg⟩ := hcor []
    refine ⟨lits, cs, ?_, fun hok => ⟨(hSeg hok).2, ?_⟩⟩
    · simp only [renderStatement, hP, except_ok_bind, List.nil_append]
    · exact (hSeg hok).1 (canonSigma 0 lits) (canonSigma_agrees 0 lits)
  | insert i =>
    simp only [renderStatement, bind_ok_iff] at h
    obtain ⟨⟨sI, psI⟩, hQ, heq⟩ := h
    simp only [Except.ok.injEq, Prod.mk.injEq, StatementOutput.text.injEq] at heq
    obtain ⟨ht, hps⟩ := heq
    subst ht; subst hps
    obtain ⟨-, hcor⟩ := (corrAll fuel).insert st i [] sI [] hQ
    obtain ⟨lits, cs, hP, hSeg⟩ := hcor []
    refine ⟨lits, cs, ?_, fun hok => ⟨(hSeg hok).2, ?_⟩⟩
    · simp only [renderStatement, hP, except_ok_bind, List.nil_append]
    · exact (hSeg hok).1 (canonSigma 0 lits) (canonSigma_agrees 0 lits)
  | update u =>
    simp only [renderStatement, bind_ok_iff] at h
    obtain ⟨⟨sI, psI⟩, hQ, heq⟩ := h
    simp only [Except.ok.injEq, Prod.mk.injEq, StatementOutput.text.injEq] at heq
    obtain ⟨ht, hps⟩ := heq
    subst ht; subst hps
    obtain ⟨-, hcor⟩ := (corrAll fuel).update st u [] sI [] hQ
    obtain ⟨lits, cs, hP, hSeg⟩ := hcor []
    refine ⟨lits, cs, ?_, fun hok => ⟨(hSeg hok).2, ?_⟩⟩
    · simp only [renderStatement, hP, except_ok_bind, List.nil_append]
    · exact (hSeg hok).1 (canonSigma 0 lits) (canonSigma_agrees 0 lits)
  | delete d =>
    simp only [renderStatement, bind_ok_iff] at h
    obtain ⟨⟨sI, psI⟩, hQ, heq⟩ := h
    simp only [Except.ok.injEq, Prod.mk.injEq, StatementOutput.text.injEq] at heq
    obtain ⟨ht, hps⟩ := heq
    subst ht; subst hps
    obtain ⟨-, hcor⟩ := (corrAll fuel).delete st d [] sI [] hQ
    obtain ⟨lits, cs, hP, hSeg⟩ := hcor []
    refine ⟨lits, cs, ?_, fun hok => ⟨(hSeg hok).2, ?_⟩⟩
    · simp only [renderStatement, hP, except_ok_bind, List.nil_append]
    · exact (hSeg hok).1 (canonSigma 0 lits) (canonSigma_agrees 0 lits)
  | updatePositioned u =>
    simp only [renderStatement, bind_ok_iff] at h
    obtain ⟨⟨sI, psI⟩, hQ, heq⟩ := h
    simp only [Except.ok.injEq, Prod.mk.injEq, StatementOutput.text.injEq] at heq
    obtain ⟨ht, hps⟩ := heq
    subst ht; subst hps
    obtain ⟨-, hcor⟩ := (corrAll fuel).updatePositioned st u [] sI [] hQ
    obtain ⟨lits, cs, hP, hSeg⟩ := hcor []
    refine ⟨lits, cs, ?_, fun hok => ⟨(hSeg hok).2, ?_⟩⟩
    · simp only [renderStatement, hP, except_ok_bind, List.nil_append]
    · exact (hSeg hok).1 (canonSigma 0 lits) (canonSigma_agrees 0 lits)
  | tableDefinition t =>
    simp only [renderStatement, bind_ok_iff] at h
    obtain ⟨⟨sI, psI⟩, hQ, heq⟩ := h
    simp only [Except.ok.injEq, Prod.mk.injEq, StatementOutput.text.injEq] at heq
    obtain ⟨ht, hps⟩ := heq
    subst ht; subst hps
    obtain ⟨-, hcor⟩ := (corrAll fuel).tableDefinition st t [] sI [] hQ
    obtain ⟨lits, cs, hP, hSeg⟩ := hcor []
    refine ⟨lits, cs, ?_, fun hok => ⟨(hSeg hok).2, ?_⟩⟩
    · simp only [renderStatement, hP, except_ok_bind, List.nil_append]
    · exact (hSeg hok).1 (canonSigma 0 lits) (canonSigma_agrees 0 lits)
  | viewDefinition v =>
    simp only [renderStatement, bind_ok_iff] at h
    obtain ⟨⟨sI, psI⟩, hQ, heq⟩ := h
    simp only [Except.ok.injEq, Prod.mk.injEq, StatementOutput.text.injEq] at heq
    obtain ⟨ht, hps⟩ := heq
    subst ht; subst hps
    obtain ⟨-, hcor⟩ := (corrAll fuel).viewDefinition st v [] sI [] hQ
    obtain ⟨lits, cs, hP, hSeg⟩ := hcor []
    refine ⟨lits, cs, ?_, fun hok => ⟨(hSeg hok).2, ?_⟩⟩
    · simp only [renderStatement, hP, except_ok_bind, List.nil_append]
    · exact (hSeg hok).1 (canonSigma 0 lits) (canonSigma_agrees 0 lits)
  | domainDefinition d =>
    simp only [renderStatement, bind_ok_iff] at h
    obtain ⟨⟨sI, psI⟩, hQ, heq⟩ := h
    simp only [Except.ok.injEq, Prod.mk.injEq, StatementOutput.text.injEq] at heq
    obtain ⟨ht, hps⟩ := heq
    subst ht; subst hps
    obtain ⟨-, hcor⟩ := (corrAll fuel).domainDefinition st d [] sI [] hQ
    obtain ⟨lits, cs, hP, hSeg⟩ := hcor []
    refine ⟨lits, cs, ?_, fun hok => ⟨(hSeg hok).2, ?_⟩⟩
    · simp only [renderStatement, hP, except_ok_bind, List.nil_append]
    · exact (hSeg hok).1 (canonSigma 0 lits) (canonSigma_agrees 0 lits)
  | assertionDefinition a =>
    simp only [renderStatement, bind_ok_iff] at h
    obtain ⟨⟨sI, psI⟩, hQ, heq⟩ := h
    simp only [Except.ok.injEq, Prod.mk.injEq, StatementOutput.text.injEq] at heq
    obtain ⟨ht, hps⟩ := heq
    subst ht; subst hps
    obtain ⟨-, hcor⟩ := (corrAll fuel).assertionDefinition st a [] sI [] hQ
    obtain ⟨lits, cs, hP, hSeg⟩ := hcor []
    refine ⟨lits, cs, ?_, fun hok => ⟨(hSeg hok).2, ?_⟩⟩
    · simp only [renderStatement, hP, except_ok_bind, List.nil_append]
    · exact (hSeg hok).1 (canonSigma 0 lits) (canonSigma_agrees 0 lits)
  | deletePositioned d =>
    simp only [renderStatement, Except.ok.injEq, Prod.mk.injEq,
      StatementOutput.text.injEq] at h
    obtain ⟨ht, -⟩ := h
    subst ht
    refine ⟨[], [.txt (renderDeletePositioned d)], ?_, fun _ => ⟨?_, ?_⟩⟩
    · simp [renderStatement, chunksParamText, chunkParamText]
    · simp [phIndices, List.range']
    · simp [chunksSubst, chunkSubstText]
  | grantStatement g =>
    simp only [renderStatement, Except.ok.injEq, Prod.mk.injEq,
      StatementOutput.text.injEq] at h
    obtain ⟨ht, -⟩ := h
    subst ht
    refine ⟨[], [.txt (renderGrantStatement g)], ?_, fun _ => ⟨?_, ?_⟩⟩
    · simp [renderStatement, chunksParamText, chunkParamText]
    · simp [phIndices, List.range']
    · simp [chunksSubst, chunkSubstText]
  | createSchema c =>
    obtain ⟨cat, nm, auth, charset, defs⟩ := c
    simp only [renderStatement, renderCreateSchema, except_ok_bind, Except.ok.injEq,
      Prod.mk.injEq, StatementOutput.text.injEq] at h
    obtain ⟨ht, -⟩ := h
    refine ⟨[], [.txt tI], ?_, fun _ => ⟨?_, ?_⟩⟩
    · simp only [renderStatement, renderCreateSchema, except_ok_bind, chunksParamText,
        chunkParamText, String.append_empty, ht, List.map_nil, List.append_nil]
    · simp [phIndices, List.range']
    · simp [chunksSubst, chunkSubstText]
  | revokePrivilege r =>
    simp only [renderStatement, Except.ok.injEq, Prod.mk.injEq] at h
    exact StatementOutput.noConfusion h.left
  | dropTable n b =>
    simp only [renderStatement, Except.ok.injEq, Prod.mk.injEq] at h
    exact StatementOutput.noConfusion h.left
  | dropView n b =>
    simp only [renderStatement, Except.ok.injEq, Prod.mk.injEq] at h
    exact StatementOutput.noConfusion h.left
  | dropDomain n b =>
    simp only [renderStatement, Except.ok.injEq, Prod.mk.injEq] at h
    exact StatementOutput.noConfusion h.left
  | dropAssertion n =>
    simp only [renderStatement, Except.ok.injEq, Prod.mk.injEq] at h
    exact StatementOutput.noConfusion h.left

/-- C8 amended, witness: the round trip applied to the employee insert
example at fuel 30 with `'$'` placeholders; the inline hypothesis is
discharged by evaluation. -/
theorem C8_amended_witness :
    renderStatement 30 ⟨false, .dollar⟩ (.insert employeeInsert) [] =
      .ok (.text "INSERT INTO \"employee\" (\"id\", \"name\", \"salary\", \"department_id\") VALUES (5, 'Charlotte', 5000, 55)", []) ∧
    (∃ lits cs,
      renderStatement 30 ⟨true, .dollar⟩ (.insert employeeInsert) [] =
        .ok (.text (chunksParamText ⟨true, .dollar⟩ cs), lits.map Literal.jsVal) ∧
      (LitsOk lits →
        (phIndices cs : Multiset Nat) = ↑(List.range' 1 lits.length) ∧
        chunksSubst (canonSigma 0 lits) cs =
          "INSERT INTO \"employee\" (\"id\", \"name\", \"salary\", \"department_id\") VALUES (5, 'Charlotte', 5000, 55)")) :=
  ⟨rfl, C8_amended_round_trip 30 .dollar (.insert employeeInsert) _ rfl⟩

end Sij
